import Mathlib

/-!
Sylverant shipgate: packet construction and transmission buffer

A shallow embedding of `src/packets.c` (with the packet layouts of
`src/shipgate.h`) and theorems about it.

Conventions of the embedding:

* memory (the static scratch array `sendbuf`, the heap buffer `c->sendbuf`,
  memory behind a pointer argument) is a function from byte offset to byte
  value;
* C `int` / `ssize_t` quantities that can be negative are `Int`; sizes
  (`size_t` arguments of `memcpy` and friends) are `Nat`; conversions to
  `uint16_t` / `uint32_t` are explicit truncations;
* the secure transport (`gnutls_record_send`) and `realloc` are oracles, and
  every byte the transport accepts is appended to the `wire` of a `World`;
* the send loop of `send_raw` may spin for ever, so it takes fuel and returns
  `none` when the fuel runs out.
-/

namespace Shipgate

/-! ## Memory -/

/-- Byte-addressed memory: the byte stored at each offset. -/
abbrev Mem := Nat → Nat

/-- The `n` bytes of `m` that start at offset `off`. -/
def bytes (m : Mem) (off n : Nat) : List Nat :=
  (List.range n).map (fun i => m (off + i))

/-- The C call `memset(m + off, v, n)`. -/
def memset (m : Mem) (off v n : Nat) : Mem :=
  fun i => if off ≤ i ∧ i < off + n then v % 256 else m i

/-- The C call `memcpy(dst + doff, src + soff, n)`: every destination byte receives
the byte the source held before the call. -/
def memcpy (dst : Mem) (doff : Nat) (src : Mem) (soff n : Nat) : Mem :=
  fun i => if doff ≤ i ∧ i < doff + n then src (soff + (i - doff)) else dst i

/-- The C call `memmove`: the same byte-wise meaning as `memcpy`, overlap allowed. -/
def memmove (dst : Mem) (doff : Nat) (src : Mem) (soff n : Nat) : Mem :=
  memcpy dst doff src soff n

/-- Store of one byte (`uint8_t` field). -/
def put8 (m : Mem) (off v : Nat) : Mem :=
  fun i => if i = off then v % 256 else m i

/-- Store of `htons(v)` into a `uint16_t` field at `off`: `v` is truncated
to 16 bits and laid out high byte first. -/
def put16be (m : Mem) (off v : Nat) : Mem :=
  fun i => if i = off then v / 256 % 256 else if i = off + 1 then v % 256 else m i

/-- Store of `htonl(v)` into a `uint32_t` field at `off`: `v` is truncated
to 32 bits and laid out high byte first. -/
def put32be (m : Mem) (off v : Nat) : Mem :=
  fun i =>
    if i = off then v / 16777216 % 256
    else if i = off + 1 then v / 65536 % 256
    else if i = off + 2 then v / 256 % 256
    else if i = off + 3 then v % 256
    else m i

/-- Big-endian read of the two bytes at `off` (what a peer does with `ntohs`). -/
def get16be (m : Mem) (off : Nat) : Nat :=
  m off * 256 + m (off + 1)

/-- Big-endian read of the four bytes at `off` (`ntohl`). -/
def get32be (m : Mem) (off : Nat) : Nat :=
  m off * 16777216 + m (off + 1) * 65536 + m (off + 2) * 256 + m (off + 3)

/-- Little-endian read of a `uint16_t` field: `LE16(x->field)`, on any host. -/
def get16le (m : Mem) (off : Nat) : Nat :=
  m off % 256 + m (off + 1) % 256 * 256

/-! ## The transport and the allocator -/

/-- The gnutls result code for "would block" (gnutls.h). -/
def GNUTLS_E_AGAIN : Int := -28

/-- The gnutls result code for "interrupted" (gnutls.h). -/
def GNUTLS_E_INTERRUPTED : Int := -52

/-- One call of `gnutls_record_send` as seen from `send_raw`: the offset into
the scratch buffer, the number of bytes offered and the value returned. -/
structure Call where
  off : Int
  len : Int
  rv : Int
  deriving DecidableEq, Repr

/-- What the outside has observed: the bytes the transport accepted, in
order, and the calls made to it. -/
structure World where
  wire : List Nat
  log : List Call
  deriving DecidableEq, Repr

/-- Modelled from the spec: the secure transport and the allocator, which are
external collaborators. `send i n` is what `gnutls_record_send` returns on
the call made after `i` earlier calls, when `n` bytes are offered: a count of
accepted bytes, or a negative code. `realloc_ok n` tells whether `realloc` to
`n` bytes succeeds. -/
structure Env where
  send : Nat → Int → Int
  realloc_ok : Int → Bool

/-- Modelled from the spec: the connection record `ship_t` of `ship.h`, which
is not among the sources; only the fields `packets.c` reads or writes. The
pending-bytes queue is `sendbuf` (heap buffer of `sendbuf_size` bytes) with
the C `int` cursors `sendbuf_start` and `sendbuf_cur`. -/
structure ship_t where
  proto_ver : Nat
  flags : Nat
  name : Mem
  key_idx : Nat
  clients : Nat
  games : Nat
  menu_code : Nat
  port : Nat
  ship_number : Int
  privileges : Nat
  remote_addr : Mem
  remote_addr6 : Mem
  ship_nonce : Mem
  gate_nonce : Mem
  sendbuf : Mem
  sendbuf_cur : Int
  sendbuf_size : Int
  sendbuf_start : Int

/-- The pending bytes of a connection: `c->sendbuf[sendbuf_start .. sendbuf_cur)`. -/
def pending (c : ship_t) : List Nat :=
  bytes c.sendbuf c.sendbuf_start.toNat (c.sendbuf_cur - c.sendbuf_start).toNat

/-! ## `ship_send`, `send_raw`, `send_crypt` -/

/-- The call `ship_send(c, sendbuf + off, len)`: one `gnutls_record_send`. The
transport takes the first `rv` of the offered bytes when `rv > 0`. -/
def ship_send (env : Env) (w : World) (sb : Mem) (off len : Int) : Int × World :=
  let rv := env.send w.log.length len
  (rv, { wire := w.wire ++ bytes sb off.toNat (min rv len).toNat,
         log := w.log ++ [{ off := off, len := len, rv := rv }] })

/-- The `while(total < len)` loop of `send_raw`. `none`: the fuel ran out;
`some (none, w)`: the loop left through `return -1`; `some (some total, w)`:
the loop condition became false with this `total`. -/
def send_loop (env : Env) (sb : Mem) (len : Int) :
    Nat → Int → World → Option (Option Int × World)
  | 0, total, w => if total < len then none else some (some total, w)
  | fuel + 1, total, w =>
    if total < len then
      let r := ship_send env w sb total (len - total)
      if r.1 < 0 then
        if r.1 = GNUTLS_E_AGAIN ∨ r.1 = GNUTLS_E_INTERRUPTED then
          send_loop env sb len fuel total r.2
        else
          some (none, r.2)
      else
        send_loop env sb len fuel (total + r.1) r.2
    else
      some (some total, w)

/-- The part of `send_raw` after the loop (`rv = len - total; if(rv) ...`):
compaction of the queue, growth of its storage, copy of the unsent bytes. -/
def send_raw_queue (env : Env) (sb : Mem) (c : ship_t) (len total : Int) : Int × ship_t :=
  let rv := len - total
  if rv ≠ 0 then
    let c1 : ship_t :=
      if c.sendbuf_start ≠ 0 then
        { c with
          sendbuf := memmove c.sendbuf 0 c.sendbuf c.sendbuf_start.toNat
                       (c.sendbuf_cur - c.sendbuf_start).toNat
          sendbuf_cur := c.sendbuf_cur - c.sendbuf_start }
      else c
    if c1.sendbuf_cur + rv > c1.sendbuf_size then
      if env.realloc_ok (c1.sendbuf_cur + rv) then
        let c2 : ship_t := { c1 with sendbuf_size := c1.sendbuf_cur + rv }
        (0, { c2 with
              sendbuf := memcpy c2.sendbuf c2.sendbuf_cur.toNat sb total.toNat rv.toNat
              sendbuf_cur := c2.sendbuf_cur + rv })
      else
        (-1, c1)
    else
      (0, { c1 with
            sendbuf := memcpy c1.sendbuf c1.sendbuf_cur.toNat sb total.toNat rv.toNat
            sendbuf_cur := c1.sendbuf_cur + rv })
  else
    (0, c)

/-- The function `send_raw(c, len)`: the packet is the first `len` bytes of the scratch
buffer `sb`. Result: return value, connection, world; `none` when the send
loop does not finish within the fuel. -/
def send_raw (env : Env) (fuel : Nat) (sb : Mem) (c : ship_t) (len : Int) (w : World) :
    Option (Int × ship_t × World) :=
  let r := if c.sendbuf_cur = 0 then send_loop env sb len fuel 0 w else some (some 0, w)
  match r with
  | none => none
  | some (none, w1) => some (-1, c, w1)
  | some (some total, w1) =>
    let q := send_raw_queue env sb c len total
    some (q.1, q.2, w1)

/-- The function `send_crypt(c, len)`: a length below 8 is refused before
anything is sent. -/
def send_crypt (env : Env) (fuel : Nat) (sb : Mem) (c : ship_t) (len : Int) (w : World) :
    Option (Int × ship_t × World) :=
  if len < 8 then some (-1, c, w) else send_raw env fuel sb c len w

/-! ## Constants of `shipgate.h` -/

def SHDR_RESPONSE : Nat := 0x8000
def SHDR_FAILURE : Nat := 0x4000
def SHDR_TYPE_DC : Nat := 0x0001
def SHDR_TYPE_BB : Nat := 0x0002
def SHDR_TYPE_PC : Nat := 0x0003
def SHDR_TYPE_QFLAG_SET : Nat := 0x002E
def SHDR_TYPE_QFLAG_GET : Nat := 0x002F
def QFLAG_LONG_FLAG : Nat := 0x80000000
def QFLAG_DELETE_FLAG : Nat := 0x40000000

/-- Modelled from the spec: `sizeof(shipgate_hdr_t)`. The header type lives in
`packets.h`, which is not among the sources; the spec gives it as 8 bytes,
`len:u16, type:u16, flags:u16, reserved:u8, version:u8` at offsets 0, 2, 4,
6 and 7. -/
def sizeof_shipgate_hdr_t : Nat := 8

/-- The value of `sizeof(shipgate_fw_9_pkt)`: header, `ship_id` (8), `fw_flags` (12),
`guildcard` (16), `block` (20), then the flexible `pkt[0]` at 24. -/
def sizeof_shipgate_fw_9_pkt : Nat := sizeof_shipgate_hdr_t + 16

/-- The value of `sizeof(shipgate_qflag_pkt)`: header, `guildcard` (8), `block` (12),
`flag_id` (16), `quest_id` (20), `flag_id_hi` (24), `reserved` (26),
`value` (28). -/
def sizeof_shipgate_qflag_pkt : Nat := sizeof_shipgate_hdr_t + 24

/-- Modelled from the spec: offset of `pkt_len` in `dc_pkt_hdr_t` (declared in
`packets.h`, not among the sources): `pkt_type:u8, flags:u8, pkt_len:u16`. No
theorem below depends on the value. -/
def dc_pkt_len_off : Nat := 2

/-- Modelled from the spec: offset of `pkt_len` in `bb_pkt_hdr_t` (declared in
`packets.h`, not among the sources): `pkt_len:u16, pkt_type:u16, flags:u32`.
No theorem below depends on the value. -/
def bb_pkt_len_off : Nat := 0

/-! ## Envelope forwarding -/

/-- The body of `forward_dreamcast` up to the call of `send_crypt`: the
scratch buffer it has filled and the `full_len` it passes on. `dc` is the
memory behind the inner packet pointer. -/
def forward_dreamcast_pkt (sb dc : Mem) (sender gc block : Nat) : Mem × Nat :=
  let dc_len := get16le dc dc_pkt_len_off
  let full_len := sizeof_shipgate_fw_9_pkt + dc_len
  let full_len := if full_len &&& 0x07 ≠ 0 then (full_len + 8) &&& 0xFFF8 else full_len
  let p := memset sb 0 0 full_len
  let p := put16be p 0 full_len
  let p := put16be p 2 SHDR_TYPE_DC
  let p := put16be p 4 0
  let p := put8 p 6 0
  let p := put8 p 7 0
  let p := put32be p 8 sender
  let p := put32be p 16 gc
  let p := put32be p 20 block
  let p := memcpy p 24 dc 0 dc_len
  (p, full_len)

/-- The function `forward_dreamcast(c, dc, sender, gc, block)`. -/
def forward_dreamcast (env : Env) (fuel : Nat) (sb : Mem) (c : ship_t) (dc : Mem)
    (sender gc block : Nat) (w : World) : Option (Int × ship_t × World) :=
  let r := forward_dreamcast_pkt sb dc sender gc block
  send_crypt env fuel r.1 c r.2 w

/-- The body of `forward_pc` up to the call of `send_crypt`. The source
declares `pc` as a `dc_pkt_hdr_t *`. -/
def forward_pc_pkt (sb pc : Mem) (sender gc block : Nat) : Mem × Nat :=
  let pc_len := get16le pc dc_pkt_len_off
  let full_len := sizeof_shipgate_fw_9_pkt + pc_len
  let full_len := if full_len &&& 0x07 ≠ 0 then (full_len + 8) &&& 0xFFF8 else full_len
  let p := memset sb 0 0 full_len
  let p := put16be p 0 full_len
  let p := put16be p 2 SHDR_TYPE_PC
  let p := put16be p 4 0
  let p := put8 p 6 0
  let p := put8 p 7 0
  let p := put32be p 8 sender
  let p := put32be p 16 gc
  let p := put32be p 20 block
  let p := memcpy p 24 pc 0 pc_len
  (p, full_len)

/-- The function `forward_pc(c, pc, sender, gc, block)`. -/
def forward_pc (env : Env) (fuel : Nat) (sb : Mem) (c : ship_t) (pc : Mem)
    (sender gc block : Nat) (w : World) : Option (Int × ship_t × World) :=
  let r := forward_pc_pkt sb pc sender gc block
  send_crypt env fuel r.1 c r.2 w

/-- The body of `forward_bb` up to the call of `send_crypt`. -/
def forward_bb_pkt (sb bb : Mem) (sender gc block : Nat) : Mem × Nat :=
  let bb_len := get16le bb bb_pkt_len_off
  let full_len := sizeof_shipgate_fw_9_pkt + bb_len
  let full_len := if full_len &&& 0x07 ≠ 0 then (full_len + 8) &&& 0xFFF8 else full_len
  let p := memset sb 0 0 full_len
  let p := put16be p 0 full_len
  let p := put16be p 2 SHDR_TYPE_BB
  let p := put16be p 4 0
  let p := put8 p 6 0
  let p := put8 p 7 0
  let p := put32be p 8 sender
  let p := put32be p 16 gc
  let p := put32be p 20 block
  let p := memcpy p 24 bb 0 bb_len
  (p, full_len)

/-- The function `forward_bb(c, bb, sender, gc, block)`. -/
def forward_bb (env : Env) (fuel : Nat) (sb : Mem) (c : ship_t) (bb : Mem)
    (sender gc block : Nat) (w : World) : Option (Int × ship_t × World) :=
  let r := forward_bb_pkt sb bb sender gc block
  send_crypt env fuel r.1 c r.2 w

/-! ## Quest flags -/

/-- The body of `send_qflag` after the version gate, up to the call of
`send_crypt`: the filled scratch buffer and the length passed on. -/
def send_qflag_pkt (sb : Mem) (type gc block fid qid value ctl : Nat) : Mem × Nat :=
  let p := memset sb 0 0 sizeof_shipgate_qflag_pkt
  let p := put16be p 0 sizeof_shipgate_qflag_pkt
  let p := put16be p 2 type
  let p := put16be p 4 SHDR_RESPONSE
  let p := put32be p 8 gc
  let p := put32be p 12 block
  let p := put32be p 16 ((fid &&& 0xFFFF) ||| (ctl &&& 0xFFFF0000))
  let p := put32be p 20 qid
  let p := put16be p 24 (fid >>> 16)
  let p := put32be p 28 value
  (p, sizeof_shipgate_qflag_pkt)

/-- The function `send_qflag(c, type, gc, block, fid, qid, value, ctl)`, with
its version gate: nothing is built or sent below protocol version 17. -/
def send_qflag (env : Env) (fuel : Nat) (sb : Mem) (c : ship_t)
    (type gc block fid qid value ctl : Nat) (w : World) : Option (Int × ship_t × World) :=
  if c.proto_ver < 17 then some (0, c, w)
  else
    let r := send_qflag_pkt sb type gc block fid qid value ctl
    send_crypt env fuel r.1 c r.2 w

/-- The mirrored decode of the quest-flag fields, written from the words of
the specification (the parser is not part of `packets.c`): from the 32-bit
`flag_id` (`lo`) and the 16-bit `flag_id_hi` (`hi`) back to identifier and
control bits. -/
def qflag_decode (lo hi : Nat) : Nat × Nat :=
  ((lo &&& 0xFFFF) ||| (hi <<< 16), lo &&& 0xC0000000)

/-- A transport that behaves: offered `n > 0` bytes it answers would-block,
interrupted, or accepts between 1 and `n` of them; and after any number of
calls there is a later call that accepts something. -/
def Accepting (env : Env) : Prop :=
  (∀ i n, 0 < n → env.send i n = GNUTLS_E_AGAIN ∨ env.send i n = GNUTLS_E_INTERRUPTED ∨
      (0 < env.send i n ∧ env.send i n ≤ n)) ∧
  (∀ i, ∃ j, i ≤ j ∧ ∀ n, 0 < n → 0 < env.send j n)

/-- A hard error of the transport: a negative result that is neither
would-block nor interrupted, the case in which the send loop returns -1. -/
def hardError (rv : Int) : Prop :=
  rv < 0 ∧ rv ≠ GNUTLS_E_AGAIN ∧ rv ≠ GNUTLS_E_INTERRUPTED

instance (rv : Int) : Decidable (hardError rv) := by
  unfold hardError; infer_instance

/-! ## Concrete inputs used in the examples -/

/-- A connection with an empty pending queue and no storage. -/
def ship0 : ship_t :=
  { proto_ver := 20, flags := 0, name := fun _ => 0, key_idx := 0, clients := 0, games := 0,
    menu_code := 0, port := 0, ship_number := 0, privileges := 0,
    remote_addr := fun _ => 0, remote_addr6 := fun _ => 0,
    ship_nonce := fun _ => 0, gate_nonce := fun _ => 0,
    sendbuf := fun _ => 0, sendbuf_cur := 0, sendbuf_size := 0, sendbuf_start := 0 }

/-- Nothing sent yet. -/
def world0 : World := { wire := [], log := [] }

/-- Scratch contents `1, 2, 3, ...`. -/
def scratchA : Mem := fun i => i + 1

/-- Scratch contents `101, 102, 103, ...`. -/
def scratchB : Mem := fun i => i + 101

/-- A transport that answers would-block on every even call and accepts at
most 3 bytes on every odd call; allocation always succeeds. -/
def envStutter : Env :=
  { send := fun i n => if i % 2 = 0 then GNUTLS_E_AGAIN else min n 3,
    realloc_ok := fun _ => true }

/-- A transport that accepts 3 bytes on its first call and everything offered
afterwards. -/
def envPrefix3 : Env :=
  { send := fun i n => if i = 0 then min n 3 else n, realloc_ok := fun _ => true }

/-- A transport that accepts everything offered. -/
def envAll : Env :=
  { send := fun _ n => n, realloc_ok := fun _ => true }

/-- A transport that accepts 4 bytes, then answers would-block, then fails
with the hard error -10. -/
def envBreak : Env :=
  { send := fun i n => if i = 0 then min n 4 else if i = 1 then GNUTLS_E_AGAIN else -10,
    realloc_ok := fun _ => true }

/-- A connection whose queue holds the three bytes `102, 103, 104` at
offsets 2..4 of a 16-byte buffer (`sendbuf_start = 2`, `sendbuf_cur = 5`). -/
def shipQueued : ship_t :=
  { ship0 with sendbuf := fun i => 100 + i, sendbuf_cur := 5, sendbuf_size := 16,
               sendbuf_start := 2 }

/-- The two bytes of `v` (truncated to 16 bits), high byte first. -/
def be16 (v : Nat) : List Nat := [v / 256 % 256, v % 256]

/-- The four bytes of `v` (truncated to 32 bits), high byte first. -/
def be32 (v : Nat) : List Nat :=
  [v / 16777216 % 256, v / 65536 % 256, v / 256 % 256, v % 256]

/-- The common text of `forward_dreamcast`, `forward_pc` and `forward_bb`,
which differ in the type tag and in the header type of the inner packet
(`lenOff` is the offset of its `pkt_len`). Used to prove the three at once. -/
def fw_9_fill (tag lenOff : Nat) (sb inner : Mem) (sender gc block : Nat) : Mem × Nat :=
  let in_len := get16le inner lenOff
  let full_len := sizeof_shipgate_fw_9_pkt + in_len
  let full_len := if full_len &&& 0x07 ≠ 0 then (full_len + 8) &&& 0xFFF8 else full_len
  let p := memset sb 0 0 full_len
  let p := put16be p 0 full_len
  let p := put16be p 2 tag
  let p := put16be p 4 0
  let p := put8 p 6 0
  let p := put8 p 7 0
  let p := put32be p 8 sender
  let p := put32be p 16 gc
  let p := put32be p 20 block
  let p := memcpy p 24 inner 0 in_len
  (p, full_len)

/-- The envelope the forwarding rule describes, for a packet `r` (scratch
contents and length handed on), an inner packet of `L` bytes at `inner`, and
the type tag `tag`: the length `r.2` is the least multiple of 8 that is at
least `24 + L`; bytes 0-1 hold it big-endian, bytes 2-3 the tag, bytes 4-7
zero; ship id at 8-11, `fw_flags = 0` at 12-15, guildcard at 16-19, block at
20-23, big-endian; the inner bytes at 24; zero from `24 + L` to the end. -/
def IsEnvelope (tag : Nat) (inner : Mem) (L sender gc block : Nat) (r : Mem × Nat) : Prop :=
  r.2 % 8 = 0 ∧ 24 + L ≤ r.2 ∧ r.2 < 24 + L + 8 ∧
  bytes r.1 0 2 = be16 r.2 ∧ get16be r.1 0 = r.2 ∧
  bytes r.1 2 2 = be16 tag ∧
  bytes r.1 4 4 = [0, 0, 0, 0] ∧
  bytes r.1 8 4 = be32 sender ∧
  bytes r.1 12 4 = be32 0 ∧
  bytes r.1 16 4 = be32 gc ∧
  bytes r.1 20 4 = be32 block ∧
  bytes r.1 24 L = bytes inner 0 L ∧
  ∀ i, 24 + L ≤ i → i < r.2 → r.1 i = 0

/-- An inner packet whose `pkt_len` bytes read 65512 (`0xFFE8`) little-endian
at offset 0 and at offset 2. -/
def inner65512 : Mem := fun i => if i % 2 = 0 then 0xE8 else 0xFF

/-- An inner packet whose `pkt_len` bytes read 12 at offset 0 and at offset 2,
with body bytes `12, 0, 12, 0, 4, 5, ...`. -/
def inner12 : Mem := fun i => if i < 4 then (if i % 2 = 0 then 12 else 0) else i

/-! ## Host byte order, strings, further constants -/

/-- Byte order of the machine the shipgate runs on. Fields that the source
stores without `htons` / `htonl` lie in memory in this order. -/
inductive Endian where
  | little
  | big
  deriving DecidableEq, Repr

/-- Store of a `uint16_t` field in host order (`v` truncated to 16 bits). -/
def put16host (e : Endian) (m : Mem) (off v : Nat) : Mem :=
  match e with
  | .little => fun i => if i = off then v % 256 else if i = off + 1 then v / 256 % 256 else m i
  | .big => put16be m off v

/-- Read of a `uint16_t` field in host order. -/
def get16host (e : Endian) (m : Mem) (off : Nat) : Nat :=
  match e with
  | .little => m off % 256 + m (off + 1) % 256 * 256
  | .big => m off % 256 * 256 + m (off + 1) % 256

/-- Store of a `uint32_t` field in host order (`v` truncated to 32 bits). -/
def put32host (e : Endian) (m : Mem) (off v : Nat) : Mem :=
  match e with
  | .little => fun i =>
      if i = off then v % 256
      else if i = off + 1 then v / 256 % 256
      else if i = off + 2 then v / 65536 % 256
      else if i = off + 3 then v / 16777216 % 256
      else m i
  | .big => put32be m off v

/-- Read of a `uint32_t` field in host order. -/
def get32host (e : Endian) (m : Mem) (off : Nat) : Nat :=
  match e with
  | .little => m off % 256 + m (off + 1) % 256 * 256 + m (off + 2) % 256 * 65536 +
      m (off + 3) % 256 * 16777216
  | .big => m off % 256 * 16777216 + m (off + 1) % 256 * 65536 + m (off + 2) % 256 * 256 +
      m (off + 3) % 256

/-- A C string, given by its bytes before the terminating NUL (none of which
is 0). -/
abbrev CStr := List Nat

/-- The C call `strlen(s)`. -/
def strlen (s : CStr) : Nat := s.length

/-- The C call `strncpy(dst + doff, s, n)`: the first `n` bytes of the
string, and zero bytes up to `n` when the string is shorter. -/
def strncpy (dst : Mem) (doff : Nat) (s : CStr) (n : Nat) : Mem :=
  fun i => if doff ≤ i ∧ i < doff + n then s.getD (i - doff) 0 else dst i

/-- The C call `strcpy(dst + doff, s)`: the bytes of the string and its
terminating NUL. -/
def strcpy (dst : Mem) (doff : Nat) (s : CStr) : Mem :=
  fun i => if doff ≤ i ∧ i ≤ doff + s.length then s.getD (i - doff) 0 else dst i

def SHDR_TYPE_SSTATUS : Nat := 0x0012
def SHDR_TYPE_USRLOGIN : Nat := 0x0016
def SHDR_TYPE_USEROPT : Nat := 0x0024
def SHDR_TYPE_SCHUNK : Nat := 0x002B
def SHDR_TYPE_SDATA : Nat := 0x002C
def SHDR_TYPE_SSET : Nat := 0x002D
def SHDR_TYPE_SHIP_CTL : Nat := 0x0030
def SHDR_TYPE_UBLOCKS : Nat := 0x0031
def LOGIN_FLAG_LUA : Nat := 0x00020000
def ERR_NO_ERROR : Nat := 0x00000000
def SCHUNK_TYPE_SCRIPT : Nat := 0x01
def SCHUNK_TYPE_MODULE : Nat := 0x02
def SCHUNK_DELETE : Nat := 0x40
def SCHUNK_CHECK : Nat := 0x80
def SCTL_TYPE_RESTART : Nat := 0x00000003
def SCTL_TYPE_SHUTDOWN : Nat := 0x00000004

/-- The value of `sizeof(shipgate_ship_status6_pkt)`: header, `name` (8, 12
bytes), `ship_id` (20), `flags` (24), `ship_addr4` (28), `ship_addr6` (32, 16
bytes), `ship_port` (48), `status` (50), `clients` (52), `games` (54),
`menu_code` (56), `ship_number` (58), `reserved` (59), `privileges` (60). -/
def sizeof_shipgate_ship_status6_pkt : Nat := sizeof_shipgate_hdr_t + 56

/-- The value of `sizeof(shipgate_usrlogin_reply_pkt)`: header, `guildcard`
(8), `block` (12), `priv` (16), `reserved` (20, 4 bytes). -/
def sizeof_shipgate_usrlogin_reply_pkt : Nat := sizeof_shipgate_hdr_t + 16

/-- The value of `sizeof(shipgate_user_opt_pkt)`: header, `guildcard` (8),
`block` (12), `count` (16), `reserved` (20), then the options at 24. Each
option is `option` (0), `length` (4) and its data from 8. -/
def sizeof_shipgate_user_opt_pkt : Nat := sizeof_shipgate_hdr_t + 16

/-- The value of `sizeof(shipgate_schunk_pkt)`: header, `chunk_type` (8),
`reserved` (9, 3 bytes), `chunk_length` (12), `chunk_crc` (16), `action`
(20), `filename` (24, 32 bytes), then the chunk at 56. -/
def sizeof_shipgate_schunk_pkt : Nat := sizeof_shipgate_hdr_t + 48

/-- The value of `sizeof(shipgate_sdata_pkt)`: header, `event_id` (8),
`data_len` (12), `guildcard` (16), `block` (20), `episode`, `difficulty`,
`version`, `reserved` (24 to 27), then the data at 28. -/
def sizeof_shipgate_sdata_pkt : Nat := sizeof_shipgate_hdr_t + 20

/-- The value of `sizeof(shipgate_sset_pkt)`: header, `action` (8),
`reserved` (12), `filename` (16, 32 bytes). -/
def sizeof_shipgate_sset_pkt : Nat := sizeof_shipgate_hdr_t + 40

/-- The value of `sizeof(shipgate_shipctl_pkt)`: header, `ctl` (8), `acc`
(12), `reserved1` (16), `reserved2` (20), then data at 24. -/
def sizeof_shipgate_shipctl_pkt : Nat := sizeof_shipgate_hdr_t + 16

/-- The value of `sizeof(shipgate_sctl_shutdown_pkt)`: header, `ctl` (8),
`acc` (12), `reserved1` (16), `reserved2` (20), `when` (24), `reserved3`
(28). -/
def sizeof_shipgate_sctl_shutdown_pkt : Nat := sizeof_shipgate_hdr_t + 24

/-- The value of `sizeof(shipgate_user_blocklist_pkt)`: header, `guildcard`
(8), `block` (12), `count` (16), `reserved` (20), then the entries at 24,
each `gc` (0) and `flags` (4). -/
def sizeof_shipgate_user_blocklist_pkt : Nat := sizeof_shipgate_hdr_t + 16

/-- The value of `sizeof(shipgate_user_err_pkt)`: the base error packet
(header, `error_code` at 8, `reserved` at 12), `gc` (16), `block` (20), then
the message at 24. -/
def sizeof_shipgate_user_err_pkt : Nat := sizeof_shipgate_hdr_t + 16

/-- Modelled from the spec: the script descriptor `ship_script_t` of
`scripts.h`, which is not among the sources: the remote file name, the kind
(`module` non-zero for a module), the event hook id (0 for none), the byte
length and the checksum. The local file is given to the functions that read
it as what the file store yields. -/
structure ship_script_t where
  remote_fn : CStr
  module : Int
  event : Nat
  len : Nat
  crc : Nat

/-! ## Status broadcast and login reply -/

/-- The body of `send_ship_status` after the name test, up to the call of
`send_crypt`: the filled scratch buffer and the length passed on. -/
def send_ship_status_pkt (sb : Mem) (o : ship_t) (status : Nat) : Mem × Nat :=
  let p := memset sb 0 0 sizeof_shipgate_ship_status6_pkt
  let p := put16be p 0 sizeof_shipgate_ship_status6_pkt
  let p := put16be p 2 SHDR_TYPE_SSTATUS
  let p := put16be p 4 0
  let p := put8 p 6 0
  let p := put8 p 7 0
  let p := memcpy p 8 o.name 0 12
  let p := put32be p 20 o.key_idx
  let p := memcpy p 28 o.remote_addr 0 4
  let p := memcpy p 32 o.remote_addr6 0 16
  let p := put16be p 48 o.port
  let p := put16be p 50 status
  let p := put32be p 24 o.flags
  let p := put16be p 52 o.clients
  let p := put16be p 54 o.games
  let p := put16be p 56 o.menu_code
  let p := put8 p 58 (o.ship_number % 256).toNat
  let p := put32be p 60 o.privileges
  (p, sizeof_shipgate_ship_status6_pkt)

/-- The function `send_ship_status(c, o, status)`: nothing is built or sent
for a ship `o` whose name starts with a zero byte. -/
def send_ship_status (env : Env) (fuel : Nat) (sb : Mem) (c o : ship_t) (status : Nat)
    (w : World) : Option (Int × ship_t × World) :=
  if o.name 0 = 0 then some (0, c, w)
  else
    let r := send_ship_status_pkt sb o status
    send_crypt env fuel r.1 c r.2 w

/-- The mirrored decode of a status broadcast, written from the words of the
specification (the parser is not part of `packets.c`): name, clients, games,
ship id, status and privileges, read at their offsets, numbers big-endian. -/
def ship_status_decode (m : Mem) : List Nat × Nat × Nat × Nat × Nat × Nat :=
  (bytes m 8 12, get16be m 52, get16be m 54, get32be m 20, get16be m 50, get32be m 60)

/-- The body of `send_usrloginreply` up to the call of `send_crypt`. It
reads `c->proto_ver`; `p << 24` is a 32-bit shift. -/
def send_usrloginreply_pkt (sb : Mem) (c : ship_t) (gc block : Nat) (good : Int) (p : Nat) :
    Mem × Nat :=
  let flags := if good ≠ 0 then SHDR_RESPONSE else SHDR_FAILURE
  let m := memset sb 0 0 sizeof_shipgate_usrlogin_reply_pkt
  let m := put16be m 0 sizeof_shipgate_usrlogin_reply_pkt
  let m := put16be m 2 SHDR_TYPE_USRLOGIN
  let m := put16be m 4 flags
  let m := put8 m 6 0
  let m := put8 m 7 0
  let m := put32be m 8 gc
  let m := put32be m 12 block
  let m := if c.proto_ver < 18 then put32be m 16 ((p <<< 24) % 4294967296)
           else put32be m 16 p
  (m, sizeof_shipgate_usrlogin_reply_pkt)

/-- The function `send_usrloginreply(c, gc, block, good, p)`. -/
def send_usrloginreply (env : Env) (fuel : Nat) (sb : Mem) (c : ship_t) (gc block : Nat)
    (good : Int) (p : Nat) (w : World) : Option (Int × ship_t × World) :=
  let r := send_usrloginreply_pkt sb c gc block good p
  send_crypt env fuel r.1 c r.2 w

/-! ## The option list builder -/

/-- The function `user_options_begin(guildcard, block)`: the scratch buffer
with the header written, `pkt_len` and `count` in host order, and the
returned pointer as an offset into the scratch buffer. -/
def user_options_begin (e : Endian) (sb : Mem) (guildcard block : Nat) : Mem × Nat :=
  let m := put16host e sb 0 sizeof_shipgate_user_opt_pkt
  let m := put16be m 2 SHDR_TYPE_USEROPT
  let m := put16host e m 4 0
  let m := put8 m 6 0
  let m := put8 m 7 0
  let m := put32be m 8 guildcard
  let m := put32be m 12 block
  let m := put32host e m 16 0
  let m := put32host e m 20 0
  (m, sizeof_shipgate_user_opt_pkt)

/-- The loop `while(padding--) o->data[len++] = 0;` of `user_options_append`,
with `base` the offset of `o->data`: memory and `len` after the loop. -/
def user_options_pad (base : Nat) : Nat → Mem → Nat → Mem × Nat
  | 0, m, len => (m, len)
  | padding + 1, m, len => user_options_pad base padding (put8 m (base + len) 0) (len + 1)

/-- The function `user_options_append(p, opt, len, data)`, with the slot
pointer `p` as an offset into the scratch buffer: the scratch buffer after
the call and the returned pointer. -/
def user_options_append (e : Endian) (sb : Mem) (p opt len : Nat) (data : Mem) : Mem × Nat :=
  let padding := 8 - (len &&& 7)
  let m := put32be sb p opt
  let m := memcpy m (p + 8) data 0 len
  let r := user_options_pad (p + 8) padding m len
  let m := r.1
  let len := r.2
  let m := put32be m (p + 4) (len + 8)
  let m := put16host e m 0 (get16host e m 0 + (len + 8))
  let m := put32host e m 16 (get32host e m 16 + 1)
  (m, p + len + 8)

/-- The body of `send_user_options` after the test of `count`, up to the
call of `send_crypt`: `pkt_len` and `count` converted to network order, and
the host-order length passed on. -/
def send_user_options_pkt (e : Endian) (sb : Mem) : Mem × Nat :=
  let len := get16host e sb 0
  let m := put16be sb 0 len
  let m := put32be m 16 (get32host e m 16)
  (m, len)

/-- The function `send_user_options(c)`: nothing is sent when `count` is 0. -/
def send_user_options (e : Endian) (env : Env) (fuel : Nat) (sb : Mem) (c : ship_t)
    (w : World) : Option (Int × ship_t × World) :=
  if get32host e sb 16 = 0 then some (0, c, w)
  else
    let r := send_user_options_pkt e sb
    send_crypt env fuel r.1 c r.2 w

/-! ## The block list builder -/

/-- The function `user_blocklist_begin(guildcard, block)`: the scratch buffer
with the header written, `pkt_len` and `count` in host order. -/
def user_blocklist_begin (e : Endian) (sb : Mem) (guildcard block : Nat) : Mem :=
  let m := put16host e sb 0 sizeof_shipgate_user_blocklist_pkt
  let m := put16be m 2 SHDR_TYPE_UBLOCKS
  let m := put16host e m 4 0
  let m := put8 m 6 0
  let m := put8 m 7 0
  let m := put32be m 8 guildcard
  let m := put32be m 12 block
  let m := put32host e m 16 0
  let m := put32host e m 20 0
  m

/-- The function `user_blocklist_append(gc, flags)`: the entry goes to index
`pkt->count`. -/
def user_blocklist_append (e : Endian) (sb : Mem) (gc flags : Nat) : Mem :=
  let i := get32host e sb 16
  let m := put32be sb (sizeof_shipgate_user_blocklist_pkt + 8 * i) gc
  let m := put32be m (sizeof_shipgate_user_blocklist_pkt + 8 * i + 4) flags
  let m := put16host e m 0 (get16host e m 0 + 8)
  let m := put32host e m 16 (get32host e m 16 + 1)
  m

/-- The body of `send_user_blocklist` after its two tests, up to the call of
`send_crypt`. -/
def send_user_blocklist_pkt (e : Endian) (sb : Mem) : Mem × Nat :=
  let len := get16host e sb 0
  let m := put16be sb 0 len
  let m := put32be m 16 (get32host e m 16)
  (m, len)

/-- The function `send_user_blocklist(c)`: nothing is sent when `count` is 0
or the protocol version is below 19. -/
def send_user_blocklist (e : Endian) (env : Env) (fuel : Nat) (sb : Mem) (c : ship_t)
    (w : World) : Option (Int × ship_t × World) :=
  if get32host e sb 16 = 0 then some (0, c, w)
  else if c.proto_ver < 19 then some (0, c, w)
  else
    let r := send_user_blocklist_pkt e sb
    send_crypt env fuel r.1 c r.2 w

/-! ## Scripts -/

/-- The body of `send_script_check` after the gate, up to the call of
`send_crypt`. -/
def send_script_check_pkt (sb : Mem) (scr : ship_script_t) : Mem × Nat :=
  let type := if scr.module ≠ 0 then SCHUNK_TYPE_MODULE else SCHUNK_TYPE_SCRIPT
  let m := memset sb 0 0 sizeof_shipgate_schunk_pkt
  let m := put16be m 0 sizeof_shipgate_schunk_pkt
  let m := put16be m 2 SHDR_TYPE_SCHUNK
  let m := put8 m 8 (SCHUNK_CHECK ||| type)
  let m := put32be m 12 scr.len
  let m := strncpy m 24 scr.remote_fn 32
  let m := put32be m 16 scr.crc
  let m := if scr.event ≠ 0 then put32be m 20 scr.event else m
  (m, sizeof_shipgate_schunk_pkt)

/-- The function `send_script_check(c, scr)`: nothing is built or sent below
protocol version 16 or without `LOGIN_FLAG_LUA`. -/
def send_script_check (env : Env) (fuel : Nat) (sb : Mem) (c : ship_t) (scr : ship_script_t)
    (w : World) : Option (Int × ship_t × World) :=
  if c.proto_ver < 16 ∨ c.flags &&& LOGIN_FLAG_LUA = 0 then some (0, c, w)
  else
    let r := send_script_check_pkt sb scr
    send_crypt env fuel r.1 c r.2 w

/-- The body of `send_script_delete` after the gate, up to the call of
`send_crypt`. -/
def send_script_delete_pkt (sb : Mem) (scr : ship_script_t) : Mem × Nat :=
  let type := if scr.module ≠ 0 then SCHUNK_TYPE_MODULE else SCHUNK_TYPE_SCRIPT
  let m := memset sb 0 0 sizeof_shipgate_schunk_pkt
  let m := put16be m 0 sizeof_shipgate_schunk_pkt
  let m := put16be m 2 SHDR_TYPE_SCHUNK
  let m := put8 m 8 (SCHUNK_DELETE ||| type)
  let m := put32be m 12 0
  let m := strncpy m 24 scr.remote_fn 32
  let m := put32be m 16 0
  let m := if scr.event ≠ 0 then put32be m 20 scr.event else m
  (m, sizeof_shipgate_schunk_pkt)

/-- The function `send_script_delete(c, scr)`: nothing is built or sent below
protocol version 20 or without `LOGIN_FLAG_LUA`. -/
def send_script_delete (env : Env) (fuel : Nat) (sb : Mem) (c : ship_t) (scr : ship_script_t)
    (w : World) : Option (Int × ship_t × World) :=
  if c.proto_ver < 20 ∨ c.flags &&& LOGIN_FLAG_LUA = 0 then some (0, c, w)
  else
    let r := send_script_delete_pkt sb scr
    send_crypt env fuel r.1 c r.2 w

/-- The body of `send_script` after the gate: the scratch buffer as filled
and the 16-bit `pkt_len`. `file` is what the file store yields for
`scr->local_fn`: `none` when `fopen` fails, else the bytes `fread` can
deliver, of which at most `scr->len` are read into the chunk. -/
def send_script_pkt (sb : Mem) (scr : ship_script_t) (file : Option (List Nat)) : Mem × Nat :=
  let pkt_len := (sizeof_shipgate_schunk_pkt + scr.len) % 65536
  let pkt_len := if pkt_len &&& 0x07 ≠ 0 then (pkt_len + 8) &&& 0xFFF8 else pkt_len
  let m := memset sb 0 0 pkt_len
  let m := put16be m 0 pkt_len
  let m := put16be m 2 SHDR_TYPE_SCHUNK
  let m := put8 m 8 (if scr.module ≠ 0 then SCHUNK_TYPE_MODULE else SCHUNK_TYPE_SCRIPT)
  let m := put32be m 12 scr.len
  let m := strncpy m 24 scr.remote_fn 32
  let m := put32be m 16 scr.crc
  let m := if scr.event ≠ 0 then put32be m 20 scr.event else m
  let m := match file with
    | none => m
    | some bs => memcpy m 56 (fun i => bs.getD i 0) 0 (min scr.len bs.length)
  (m, pkt_len)

/-- The function `send_script(c, scr)`: the gate, then the packet is built;
a file that cannot be opened or yields fewer than `scr->len` bytes makes it
return 0 without sending. -/
def send_script (env : Env) (fuel : Nat) (sb : Mem) (c : ship_t) (scr : ship_script_t)
    (file : Option (List Nat)) (w : World) : Option (Int × ship_t × World) :=
  if c.proto_ver < 16 ∨ c.flags &&& LOGIN_FLAG_LUA = 0 then some (0, c, w)
  else
    let r := send_script_pkt sb scr file
    match file with
    | none => some (0, c, w)
    | some bs =>
      if min scr.len bs.length ≠ scr.len then some (0, c, w)
      else send_crypt env fuel r.1 c r.2 w

/-- The body of `send_sset` after its tests, up to the call of `send_crypt`;
`scr` is `none` for a null pointer. -/
def send_sset_pkt (sb : Mem) (action : Nat) (scr : Option ship_script_t) : Mem × Nat :=
  let m := memset sb 0 0 sizeof_shipgate_sset_pkt
  let m := put16be m 0 sizeof_shipgate_sset_pkt
  let m := put16be m 2 SHDR_TYPE_SSET
  let m := put32be m 8 action
  let m := match scr with
    | some s => strncpy m 16 s.remote_fn 32
    | none => m
  (m, sizeof_shipgate_sset_pkt)

/-- The function `send_sset(c, action, scr)`. -/
def send_sset (env : Env) (fuel : Nat) (sb : Mem) (c : ship_t) (action : Nat)
    (scr : Option ship_script_t) (w : World) : Option (Int × ship_t × World) :=
  if c.proto_ver < 16 ∨ c.flags &&& LOGIN_FLAG_LUA = 0 then some (0, c, w)
  else if (match scr with | some s => decide (s.module ≠ 0) | none => false) = true then
    some (0, c, w)
  else
    let r := send_sset_pkt sb action scr
    send_crypt env fuel r.1 c r.2 w

/-- The body of `send_sdata` after its tests, up to the call of
`send_crypt`; `pkt_len` is a `uint16_t`. -/
def send_sdata_pkt (sb : Mem) (gc block event : Nat) (data : Mem) (len : Nat) : Mem × Nat :=
  let pkt_len := (sizeof_shipgate_sdata_pkt + len) % 65536
  let pkt_len := if pkt_len &&& 0x07 ≠ 0 then (pkt_len + 8) &&& 0xFFF8 else pkt_len
  let m := memset sb 0 0 pkt_len
  let m := put16be m 0 pkt_len
  let m := put16be m 2 SHDR_TYPE_SDATA
  let m := put32be m 8 event
  let m := put32be m 12 len
  let m := put32be m 16 gc
  let m := put32be m 20 block
  let m := memcpy m 28 data 0 len
  (m, pkt_len)

/-- The function `send_sdata(c, gc, block, event, data, len)`. -/
def send_sdata (env : Env) (fuel : Nat) (sb : Mem) (c : ship_t) (gc block event : Nat)
    (data : Mem) (len : Nat) (w : World) : Option (Int × ship_t × World) :=
  if c.proto_ver < 16 ∨ c.flags &&& LOGIN_FLAG_LUA = 0 then some (0, c, w)
  else if len > 32768 then some (-1, c, w)
  else
    let r := send_sdata_pkt sb gc block event data len
    send_crypt env fuel r.1 c r.2 w

/-! ## Ship control and user errors -/

/-- The body of `send_sctl` after the gate, up to the call of `send_crypt`. -/
def send_sctl_pkt (sb : Mem) (ctl acc : Nat) : Mem × Nat :=
  let m := memset sb 0 0 sizeof_shipgate_shipctl_pkt
  let m := put16be m 0 sizeof_shipgate_shipctl_pkt
  let m := put16be m 2 SHDR_TYPE_SHIP_CTL
  let m := put32be m 8 ctl
  let m := put32be m 12 acc
  (m, sizeof_shipgate_shipctl_pkt)

/-- The function `send_sctl(c, ctl, acc)`. -/
def send_sctl (env : Env) (fuel : Nat) (sb : Mem) (c : ship_t) (ctl acc : Nat) (w : World) :
    Option (Int × ship_t × World) :=
  if c.proto_ver < 19 then some (0, c, w)
  else
    let r := send_sctl_pkt sb ctl acc
    send_crypt env fuel r.1 c r.2 w

/-- The body of `send_shutdown` after the gate, up to the call of
`send_crypt`. -/
def send_shutdown_pkt (sb : Mem) (restart : Int) (acc when_ : Nat) : Mem × Nat :=
  let m := memset sb 0 0 sizeof_shipgate_sctl_shutdown_pkt
  let m := put16be m 0 sizeof_shipgate_sctl_shutdown_pkt
  let m := put16be m 2 SHDR_TYPE_SHIP_CTL
  let m := if restart ≠ 0 then put32be m 8 SCTL_TYPE_RESTART else put32be m 8 SCTL_TYPE_SHUTDOWN
  let m := put32be m 12 acc
  let m := put32be m 24 when_
  (m, sizeof_shipgate_sctl_shutdown_pkt)

/-- The function `send_shutdown(c, restart, acc, when)`. -/
def send_shutdown (env : Env) (fuel : Nat) (sb : Mem) (c : ship_t) (restart : Int)
    (acc when_ : Nat) (w : World) : Option (Int × ship_t × World) :=
  if c.proto_ver < 19 then some (0, c, w)
  else
    let r := send_shutdown_pkt sb restart acc when_
    send_crypt env fuel r.1 c r.2 w

/-- The body of `send_user_error` after the gate, up to the call of
`send_crypt`. `len` is a `uint16_t`; `~7` is the 32-bit mask `0xFFFFFFF8`.
`message` is `none` for a null pointer, for which the source still calls
`strcpy`: undefined in C, and left out here (no byte is copied). -/
def send_user_error_pkt (sb : Mem) (pkt_type err_code gc block : Nat)
    (message : Option CStr) : Mem × Nat :=
  let len := (match message with | some s => strlen s | none => 0) % 65536
  let fl := if err_code ≠ ERR_NO_ERROR then SHDR_FAILURE else 0
  let len := (len + sizeof_shipgate_user_err_pkt) % 65536
  let len := if len &&& 7 ≠ 0 then ((len + 7) &&& 0xFFFFFFF8) % 65536 else len
  let m := memset sb 0 0 len
  let m := put16be m 2 pkt_type
  let m := put16be m 0 len
  let m := put16be m 4 (SHDR_RESPONSE ||| fl)
  let m := put32be m 16 gc
  let m := put32be m 20 block
  let m := match message with
    | some s => strcpy m 24 s
    | none => m
  (m, len)

/-- The function `send_user_error(c, pkt_type, err_code, gc, block, message)`. -/
def send_user_error (env : Env) (fuel : Nat) (sb : Mem) (c : ship_t)
    (pkt_type err_code gc block : Nat) (message : Option CStr) (w : World) :
    Option (Int × ship_t × World) :=
  if c.proto_ver < 19 then some (0, c, w)
  else
    let r := send_user_error_pkt sb pkt_type err_code gc block message
    send_crypt env fuel r.1 c r.2 w

/-! ## Predicates and inputs for the gates, the builders and the status packet -/

/-- The shape of a gated encoder: below the gate a silent skip, otherwise the
result of handing the packet on; and on a connection with an empty queue the
silent skip happens only below the gate. -/
def Gated (skip : Prop) (c : ship_t) (w : World)
    (r handed : Option (Int × ship_t × World)) : Prop :=
  (skip → r = some (0, c, w)) ∧ (¬ skip → r = handed) ∧
  (c.sendbuf_cur = 0 → (r = some (0, c, w) ↔ skip))

/-- The padded data size of an option of `len` data bytes as
`user_options_append` lays it out: the next multiple of 8 above `len`. -/
def user_opt_padded (len : Nat) : Nat := len / 8 * 8 + 8

/-- The bytes a list of options `(opt, len, data)` occupies: 8 bytes of entry
header and the padded data, for each. -/
def user_opts_size : List (Nat × Nat × Mem) → Nat
  | [] => 0
  | (_, len, _) :: rest => 8 + user_opt_padded len + user_opts_size rest

/-- A chain of `user_options_append` calls, each on the pointer the previous
call returned, starting from scratch buffer and pointer `s`. -/
def user_options_appends (e : Endian) : Mem × Nat → List (Nat × Nat × Mem) → Mem × Nat
  | s, [] => s
  | s, (opt, len, data) :: rest =>
    user_options_appends e (user_options_append e s.1 s.2 opt len data) rest

/-- The options `(opt, len, data)` lie in `m` one after the other from
offset `off`: the option id big-endian, the length field big-endian equal to
the bytes the entry occupies (8 plus the padded data size, a multiple of 8),
the data bytes, then zero bytes up to the next entry. -/
def OptionsAt (m : Mem) : Nat → List (Nat × Nat × Mem) → Prop
  | _, [] => True
  | off, (opt, len, data) :: rest =>
    bytes m off 4 = be32 opt ∧
    get32be m (off + 4) = 8 + user_opt_padded len ∧
    (8 + user_opt_padded len) % 8 = 0 ∧
    bytes m (off + 8) len = bytes data 0 len ∧
    (∀ i, off + 8 + len ≤ i → i < off + 8 + user_opt_padded len → m i = 0) ∧
    OptionsAt m (off + 8 + user_opt_padded len) rest

/-- A chain of `user_blocklist_append` calls for the pairs `(gc, flags)`. -/
def user_blocklist_appends (e : Endian) : Mem → List (Nat × Nat) → Mem
  | m, [] => m
  | m, (gc, flags) :: rest => user_blocklist_appends e (user_blocklist_append e m gc flags) rest

/-- The block list entries `(gc, flags)` lie in `m` from offset `off`, 8
bytes each, both numbers big-endian. -/
def BlocksAt (m : Mem) : Nat → List (Nat × Nat) → Prop
  | _, [] => True
  | off, (gc, flags) :: rest =>
    bytes m off 4 = be32 gc ∧ bytes m (off + 4) 4 = be32 flags ∧ BlocksAt m (off + 8) rest

/-- The name `TestShip` followed by zero bytes. -/
def nameTestShip : Mem := fun i => [84, 101, 115, 116, 83, 104, 105, 112].getD i 0

/-- A ship that has finished its handshake: name `TestShip`, key index 7,
5 clients, 2 games. -/
def shipTest : ship_t :=
  { ship0 with name := nameTestShip, key_idx := 7, clients := 5, games := 2, privileges := 3 }

/-- A connection at protocol version 14 without the scripting flag. -/
def shipV14 : ship_t := { ship0 with proto_ver := 14 }

/-- A connection at protocol version 17 with `LOGIN_FLAG_LUA`. -/
def shipV17Lua : ship_t := { ship0 with proto_ver := 17, flags := LOGIN_FLAG_LUA }

/-- A connection at protocol version 20 with `LOGIN_FLAG_LUA`. -/
def shipV20Lua : ship_t := { ship0 with proto_ver := 20, flags := LOGIN_FLAG_LUA }

/-- A script of 100 bytes called `a.lua`, no event hook. -/
def scriptA : ship_script_t :=
  { remote_fn := [97, 46, 108, 117, 97], module := 0, event := 0, len := 100, crc := 0xDEADBEEF }

/-- The scratch buffer after `user_blocklist_begin(1, 2)` and one
`user_blocklist_append(3, 4)` on a little-endian host. -/
def scratchBlocks1 : Mem :=
  user_blocklist_append .little (user_blocklist_begin .little scratchA 1 2) 3 4

/-- Three block list entries. -/
def blocks3 : List (Nat × Nat) := [(1001, 1), (1002, 2), (1003, 3)]

/-- Three options: 3 data bytes, 8 data bytes, no data. -/
def options3 : List (Nat × Nat × Mem) := [(1, 3, scratchB), (2, 8, scratchB), (6, 0, scratchB)]

/-! ## The remaining encoders -/

def SHDR_TYPE_LOGIN : Nat := 0x0010
def SHDR_TYPE_COUNT : Nat := 0x0011
def SHDR_TYPE_PING : Nat := 0x0013
def SHDR_TYPE_CREQ : Nat := 0x0015
def SHDR_TYPE_FRLOGIN : Nat := 0x001B
def SHDR_TYPE_FRLOGOUT : Nat := 0x001C
def SHDR_TYPE_KICK : Nat := 0x0021
def SHDR_TYPE_FRLIST : Nat := 0x0022
def SHDR_TYPE_GLOBALMSG : Nat := 0x0023
def SHDR_TYPE_BBOPTS : Nat := 0x0026

/-- The value of `sizeof(shipgate_login_pkt)`: header, `msg` (8, 45 bytes),
`ver_major` (53), `ver_minor` (54), `ver_micro` (55), `gate_nonce` (56),
`ship_nonce` (60). -/
def sizeof_shipgate_login_pkt : Nat := sizeof_shipgate_hdr_t + 56

/-- The value of `sizeof(shipgate_char_data_pkt)`: header, `guildcard` (8),
`slot` (12), `block` (16), then the data at 20. -/
def sizeof_shipgate_char_data_pkt : Nat := sizeof_shipgate_hdr_t + 12

/-- The value of `sizeof(shipgate_cnt_pkt)`: header, `clients` (8), `games`
(10), `ship_id` (12). -/
def sizeof_shipgate_cnt_pkt : Nat := sizeof_shipgate_hdr_t + 8

/-- The value of `sizeof(shipgate_error_pkt)`: header, `error_code` (8),
`reserved` (12), then the data at 16. -/
def sizeof_shipgate_error_pkt : Nat := sizeof_shipgate_hdr_t + 8

/-- The value of `sizeof(shipgate_friend_login_4_pkt)`: header,
`dest_guildcard` (8), `dest_block` (12), `friend_guildcard` (16),
`friend_ship` (20), `friend_block` (24), `reserved` (28), `friend_name` (32,
32 bytes), `friend_nick` (64, 32 bytes). -/
def sizeof_shipgate_friend_login_4_pkt : Nat := sizeof_shipgate_hdr_t + 88

/-- The value of `sizeof(shipgate_kick_pkt)`: header, `requester` (8),
`reserved` (12), `guildcard` (16), `block` (20), `reason` (24, 64 bytes). -/
def sizeof_shipgate_kick_pkt : Nat := sizeof_shipgate_hdr_t + 80

/-- The value of `sizeof(shipgate_friend_list_pkt)`: header, `requester` (8),
`block` (12), then the entries at 16. -/
def sizeof_shipgate_friend_list_pkt : Nat := sizeof_shipgate_hdr_t + 8

/-- The value of `sizeof(shipgate_global_msg_pkt)`: header, `requester` (8),
`reserved` (12), then the text at 16. -/
def sizeof_shipgate_global_msg_pkt : Nat := sizeof_shipgate_hdr_t + 8

/-- The string `shipgate_login_msg` of `shipgate.h`,
"Sylverant Shipgate Copyright Lawrence Sebald". -/
def shipgate_login_msg : CStr :=
  [83, 121, 108, 118, 101, 114, 97, 110, 116, 32, 83, 104, 105, 112, 103, 97, 116, 101, 32,
   67, 111, 112, 121, 114, 105, 103, 104, 116, 32, 76, 97, 119, 114, 101, 110, 99, 101, 32,
   83, 101, 98, 97, 108, 100]

/-- The body of `send_welcome` up to the call of `send_raw`. The version
macros `VERSION_MAJOR`, `VERSION_MINOR`, `VERSION_MICRO` are not defined in
the sources and are parameters. -/
def send_welcome_pkt (sb : Mem) (c : ship_t) (vmajor vminor vmicro : Nat) : Mem × Nat :=
  let m := memset sb 0 0 sizeof_shipgate_login_pkt
  let m := put16be m 0 sizeof_shipgate_login_pkt
  let m := put16be m 2 SHDR_TYPE_LOGIN
  let m := put16be m 4 0
  let m := put8 m 6 0
  let m := put8 m 7 0
  let m := strcpy m 8 shipgate_login_msg
  let m := put8 m 53 vmajor
  let m := put8 m 54 vminor
  let m := put8 m 55 vmicro
  let m := memcpy m 60 c.ship_nonce 0 4
  let m := memcpy m 56 c.gate_nonce 0 4
  (m, sizeof_shipgate_login_pkt)

/-- The function `send_welcome(c)`, which calls `send_raw` directly. -/
def send_welcome (env : Env) (fuel : Nat) (sb : Mem) (c : ship_t) (vmajor vminor vmicro : Nat)
    (w : World) : Option (Int × ship_t × World) :=
  let r := send_welcome_pkt sb c vmajor vminor vmicro
  send_raw env fuel r.1 c r.2 w

/-- The body of `send_ping` up to the call of `send_crypt`. -/
def send_ping_pkt (sb : Mem) (reply : Int) : Mem × Nat :=
  let m := put16be sb 0 sizeof_shipgate_hdr_t
  let m := put16be m 2 SHDR_TYPE_PING
  let m := put8 m 6 0
  let m := put8 m 7 0
  let m := if reply ≠ 0 then put16be m 4 SHDR_RESPONSE else put16be m 4 0
  (m, sizeof_shipgate_hdr_t)

/-- The function `send_ping(c, reply)`. -/
def send_ping (env : Env) (fuel : Nat) (sb : Mem) (c : ship_t) (reply : Int) (w : World) :
    Option (Int × ship_t × World) :=
  let r := send_ping_pkt sb reply
  send_crypt env fuel r.1 c r.2 w

/-- The body of `send_cdata` up to the call of `send_crypt`. `sz` is the
byte count (a negative `int` would be a huge `memcpy` size); `block` is
stored as it is, in host order. -/
def send_cdata_pkt (e : Endian) (sb : Mem) (gc slot : Nat) (cdata : Mem) (sz block : Nat) :
    Mem × Nat :=
  let m := put16be sb 0 (sizeof_shipgate_char_data_pkt + sz)
  let m := put16be m 2 SHDR_TYPE_CREQ
  let m := put16be m 4 SHDR_RESPONSE
  let m := put8 m 6 0
  let m := put8 m 7 0
  let m := put32be m 8 gc
  let m := put32be m 12 slot
  let m := put32host e m 16 block
  let m := memcpy m 20 cdata 0 sz
  (m, sizeof_shipgate_char_data_pkt + sz)

/-- The function `send_cdata(c, gc, slot, cdata, sz, block)`. -/
def send_cdata (e : Endian) (env : Env) (fuel : Nat) (sb : Mem) (c : ship_t) (gc slot : Nat)
    (cdata : Mem) (sz block : Nat) (w : World) : Option (Int × ship_t × World) :=
  let r := send_cdata_pkt e sb gc slot cdata sz block
  send_crypt env fuel r.1 c r.2 w

/-- The body of `send_counts` up to the call of `send_crypt`. -/
def send_counts_pkt (sb : Mem) (ship_id clients games : Nat) : Mem × Nat :=
  let m := memset sb 0 0 sizeof_shipgate_cnt_pkt
  let m := put16be m 0 sizeof_shipgate_cnt_pkt
  let m := put16be m 2 SHDR_TYPE_COUNT
  let m := put16be m 4 0
  let m := put8 m 6 0
  let m := put8 m 7 0
  let m := put16be m 8 clients
  let m := put16be m 10 games
  let m := put32be m 12 ship_id
  (m, sizeof_shipgate_cnt_pkt)

/-- The function `send_counts(c, ship_id, clients, games)`. -/
def send_counts (env : Env) (fuel : Nat) (sb : Mem) (c : ship_t) (ship_id clients games : Nat)
    (w : World) : Option (Int × ship_t × World) :=
  let r := send_counts_pkt sb ship_id clients games
  send_crypt env fuel r.1 c r.2 w

/-- The body of `send_error` after the size test, up to the call of
`send_crypt`. `data_sz` is an `int`; `sz` is a `uint16_t`, so the sum is
truncated to 16 bits. -/
def send_error_pkt (sb : Mem) (type flags err : Nat) (data : Mem) (data_sz : Int) : Mem × Nat :=
  let m := memset sb 0 0 sizeof_shipgate_error_pkt
  let sz := (((sizeof_shipgate_error_pkt : Nat) + data_sz) % 65536).toNat
  let m := put16be m 0 sz
  let m := put16be m 2 type
  let m := put16be m 4 flags
  let m := put8 m 6 0
  let m := put8 m 7 0
  let m := put32be m 8 err
  let m := memcpy m 16 data 0 data_sz.toNat
  (m, sz)

/-- The function `send_error(c, type, flags, err, data, data_sz)`. The test
`data_sz > 65536 - sizeof(shipgate_error_pkt)` compares against a `size_t`,
so `data_sz` is converted to the (64-bit) unsigned type first. -/
def send_error (env : Env) (fuel : Nat) (sb : Mem) (c : ship_t) (type flags err : Nat)
    (data : Mem) (data_sz : Int) (w : World) : Option (Int × ship_t × World) :=
  if data_sz % 18446744073709551616 > 65536 - (sizeof_shipgate_error_pkt : Nat) then
    some (-1, c, w)
  else
    let r := send_error_pkt sb type flags err data data_sz
    send_crypt env fuel r.1 c r.2 w

/-- The body of `send_friend_message` up to the call of `send_crypt`;
`nickname` is `none` for a null pointer. -/
def send_friend_message_pkt (sb : Mem) (on_ : Int)
    (dest_gc dest_block friend_gc friend_block friend_ship : Nat) (friend_name : CStr)
    (nickname : Option CStr) : Mem × Nat :=
  let m := memset sb 0 0 sizeof_shipgate_friend_login_4_pkt
  let m := put16be m 0 sizeof_shipgate_friend_login_4_pkt
  let m := put16be m 2 (if on_ ≠ 0 then SHDR_TYPE_FRLOGIN else SHDR_TYPE_FRLOGOUT)
  let m := put16be m 4 0
  let m := put8 m 6 0
  let m := put8 m 7 0
  let m := put32be m 8 dest_gc
  let m := put32be m 12 dest_block
  let m := put32be m 16 friend_gc
  let m := put32be m 20 friend_ship
  let m := put32be m 24 friend_block
  let m := strcpy m 32 friend_name
  let m := match nickname with
    | some s => put8 (strncpy m 64 s 32) 95 0
    | none => memset m 64 0 32
  (m, sizeof_shipgate_friend_login_4_pkt)

/-- The function `send_friend_message(c, on, dest_gc, dest_block, friend_gc,
friend_block, friend_ship, friend_name, nickname)`. -/
def send_friend_message (env : Env) (fuel : Nat) (sb : Mem) (c : ship_t) (on_ : Int)
    (dest_gc dest_block friend_gc friend_block friend_ship : Nat) (friend_name : CStr)
    (nickname : Option CStr) (w : World) : Option (Int × ship_t × World) :=
  let r := send_friend_message_pkt sb on_ dest_gc dest_block friend_gc friend_block friend_ship
    friend_name nickname
  send_crypt env fuel r.1 c r.2 w

/-- The body of `send_kick` up to the call of `send_crypt`; `reason` is
`none` for a null pointer. -/
def send_kick_pkt (sb : Mem) (requester user block : Nat) (reason : Option CStr) : Mem × Nat :=
  let m := memset sb 0 0 sizeof_shipgate_kick_pkt
  let m := put16be m 0 sizeof_shipgate_kick_pkt
  let m := put16be m 2 SHDR_TYPE_KICK
  let m := put16be m 4 0
  let m := put8 m 6 0
  let m := put8 m 7 0
  let m := put32be m 8 requester
  let m := put32be m 16 user
  let m := put32be m 20 block
  let m := match reason with
    | some s => strncpy m 24 s 64
    | none => m
  (m, sizeof_shipgate_kick_pkt)

/-- The function `send_kick(c, requester, user, block, reason)`. -/
def send_kick (env : Env) (fuel : Nat) (sb : Mem) (c : ship_t) (requester user block : Nat)
    (reason : Option CStr) (w : World) : Option (Int × ship_t × World) :=
  let r := send_kick_pkt sb requester user block reason
  send_crypt env fuel r.1 c r.2 w

/-- The body of `send_friendlist` up to the call of `send_crypt`.
`friendlist_data_t` is not declared in the sources: its size is the
parameter `sizeof_friendlist_data_t`. `len` is a `uint16_t`. -/
def send_friendlist_pkt (sizeof_friendlist_data_t : Nat) (sb : Mem) (requester block count : Nat)
    (entries : Mem) : Mem × Nat :=
  let len := (sizeof_shipgate_friend_list_pkt + sizeof_friendlist_data_t * count) % 65536
  let m := put16be sb 0 len
  let m := put16be m 2 SHDR_TYPE_FRLIST
  let m := put16be m 4 SHDR_RESPONSE
  let m := put8 m 6 0
  let m := put8 m 7 0
  let m := put32be m 8 requester
  let m := put32be m 12 block
  let m := memcpy m 16 entries 0 (sizeof_friendlist_data_t * count)
  (m, len)

/-- The function `send_friendlist(c, requester, block, count, entries)`. -/
def send_friendlist (sizeof_friendlist_data_t : Nat) (env : Env) (fuel : Nat) (sb : Mem)
    (c : ship_t) (requester block count : Nat) (entries : Mem) (w : World) :
    Option (Int × ship_t × World) :=
  let r := send_friendlist_pkt sizeof_friendlist_data_t sb requester block count entries
  send_crypt env fuel r.1 c r.2 w

/-- The body of `send_global_msg` up to the call of `send_crypt`. `text_len`
and `len` are `uint16_t`; the source copies `len` bytes of text, not
`text_len`. -/
def send_global_msg_pkt (sb : Mem) (requester : Nat) (text : Mem) (text_len : Nat) : Mem × Nat :=
  let len := (sizeof_shipgate_global_msg_pkt + text_len % 65536) % 65536
  let m := put16be sb 0 len
  let m := put16be m 2 SHDR_TYPE_GLOBALMSG
  let m := put16be m 4 0
  let m := put8 m 6 0
  let m := put8 m 7 0
  let m := put32be m 8 requester
  let m := put32be m 12 0
  let m := memcpy m 16 text 0 len
  (m, len)

/-- The function `send_global_msg(c, requester, text, text_len)`. -/
def send_global_msg (env : Env) (fuel : Nat) (sb : Mem) (c : ship_t) (requester : Nat)
    (text : Mem) (text_len : Nat) (w : World) : Option (Int × ship_t × World) :=
  let r := send_global_msg_pkt sb requester text text_len
  send_crypt env fuel r.1 c r.2 w

/-- The body of `send_bb_opts` up to the call of `send_crypt`.
`sylverant_bb_db_opts_t` is not declared in the sources: its size is the
parameter `sizeof_opts`. -/
def send_bb_opts_pkt (sizeof_opts : Nat) (sb : Mem) (gc block : Nat) (opts : Mem) : Mem × Nat :=
  let m := put16be sb 0 (sizeof_shipgate_hdr_t + 8 + sizeof_opts)
  let m := put16be m 2 SHDR_TYPE_BBOPTS
  let m := put8 m 6 0
  let m := put8 m 7 0
  let m := put16be m 4 SHDR_RESPONSE
  let m := put32be m 8 gc
  let m := put32be m 12 block
  let m := memcpy m 16 opts 0 sizeof_opts
  (m, sizeof_shipgate_hdr_t + 8 + sizeof_opts)

/-- The function `send_bb_opts(c, gc, block, opts)`. -/
def send_bb_opts (sizeof_opts : Nat) (env : Env) (fuel : Nat) (sb : Mem) (c : ship_t)
    (gc block : Nat) (opts : Mem) (w : World) : Option (Int × ship_t × World) :=
  let r := send_bb_opts_pkt sizeof_opts sb gc block opts
  send_crypt env fuel r.1 c r.2 w

/-- The declarations of `packets.h` (not among the sources) that
`send_simple_mail` uses, as parameters: the size of `dc_simple_mail_pkt`, the
offsets of its fields `tag`, `gc_sender`, `name`, `gc_dest` and `stuff`, and
the constants `SIMPLE_MAIL_TYPE` and `DC_SIMPLE_MAIL_LENGTH`. -/
structure dc_simple_mail_decl where
  sizeof : Nat
  tag_off : Nat
  gc_sender_off : Nat
  name_off : Nat
  gc_dest_off : Nat
  stuff_off : Nat
  SIMPLE_MAIL_TYPE : Nat
  DC_SIMPLE_MAIL_LENGTH : Nat

/-- Modelled from the spec: offset of `pkt_type` in `dc_pkt_hdr_t` (declared
in `packets.h`, not among the sources): `pkt_type:u8, flags:u8, pkt_len:u16`. -/
def dc_pkt_type_off : Nat := 0

/-- The local packet `pkt` that `send_simple_mail` fills before it calls
`forward_dreamcast`; `stack` is the memory the local variable occupies. The
`LE16` / `LE32` stores are little-endian on any host. -/
def send_simple_mail_pkt (d : dc_simple_mail_decl) (stack : Mem) (gc sender : Nat)
    (name msg : CStr) : Mem :=
  let amt := strlen name
  let m := memset stack 0 0 d.sizeof
  let m := put8 m dc_pkt_type_off d.SIMPLE_MAIL_TYPE
  let m := put16host .little m dc_pkt_len_off d.DC_SIMPLE_MAIL_LENGTH
  let m := put32host .little m d.tag_off 0x00010000
  let m := put32host .little m d.gc_sender_off sender
  let amt := if amt > 16 then 16 else amt
  let m := memcpy m d.name_off (fun i => name.getD i 0) 0 amt
  let m := put32host .little m d.gc_dest_off gc
  let m := strncpy m d.stuff_off msg 0x90
  m

/-- The function `send_simple_mail(c, gc, block, sender, name, msg)`. -/
def send_simple_mail (d : dc_simple_mail_decl) (env : Env) (fuel : Nat) (sb stack : Mem)
    (c : ship_t) (gc block sender : Nat) (name msg : CStr) (w : World) :
    Option (Int × ship_t × World) :=
  forward_dreamcast env fuel sb c (send_simple_mail_pkt d stack gc sender name msg)
    c.key_idx gc block w

/-- The packet `send_script_chunk` builds once the file is open; `bs` is
what `fread` can deliver, of which at most `file_len` bytes are read. -/
def send_script_chunk_pkt (sb : Mem) (remote_fn : CStr) (type file_len crc : Nat)
    (bs : List Nat) : Mem × Nat :=
  let m := memset sb 0 0 sizeof_shipgate_schunk_pkt
  let m := put16be m 0 (file_len + sizeof_shipgate_schunk_pkt)
  let m := put16be m 2 SHDR_TYPE_SCHUNK
  let m := put8 m 8 type
  let m := put32be m 12 file_len
  let m := put32be m 16 crc
  let m := strncpy m 24 remote_fn 32
  let m := memcpy m 56 (fun i => bs.getD i 0) 0 (min file_len bs.length)
  (m, file_len + sizeof_shipgate_schunk_pkt)

/-- The function `send_script_chunk(c, local_fn, remote_fn, type, file_len,
crc)`; `file` is what the file store yields for `local_fn` (`none` when
`fopen` fails). A length above 32768, a file that cannot be opened and a short
read each return -1. -/
def send_script_chunk (env : Env) (fuel : Nat) (sb : Mem) (c : ship_t) (remote_fn : CStr)
    (type file_len crc : Nat) (file : Option (List Nat)) (w : World) :
    Option (Int × ship_t × World) :=
  if c.proto_ver < 16 ∨ c.flags &&& LOGIN_FLAG_LUA = 0 then some (0, c, w)
  else if file_len > 32768 then some (-1, c, w)
  else
    match file with
    | none => some (-1, c, w)
    | some bs =>
      if min file_len bs.length ≠ file_len then some (-1, c, w)
      else
        let r := send_script_chunk_pkt sb remote_fn type file_len crc bs
        send_crypt env fuel r.1 c r.2 w

/-! ## Predicates and inputs for the layouts, the scratch buffer and the frame -/

/-- The least multiple of 8 that is at least `x`. -/
def round_up8 (x : Nat) : Nat := (x + 7) / 8 * 8

/-- Two memories hold the same bytes at every offset in `S`. -/
def AgreeOn (S : Nat → Prop) (m m' : Mem) : Prop := ∀ i, S i → m i = m' i

/-- The connection fields outside the pending queue (`sendbuf`,
`sendbuf_cur`, `sendbuf_size`) are the same in `c` and `c1`. -/
def SameFrame (c c1 : ship_t) : Prop :=
  c1.proto_ver = c.proto_ver ∧ c1.flags = c.flags ∧ c1.name = c.name ∧
  c1.key_idx = c.key_idx ∧ c1.clients = c.clients ∧ c1.games = c.games ∧
  c1.menu_code = c.menu_code ∧ c1.port = c.port ∧ c1.ship_number = c.ship_number ∧
  c1.privileges = c.privileges ∧ c1.remote_addr = c.remote_addr ∧
  c1.remote_addr6 = c.remote_addr6 ∧ c1.ship_nonce = c.ship_nonce ∧
  c1.gate_nonce = c.gate_nonce ∧ c1.sendbuf_start = c.sendbuf_start

/-- Whatever a call returns, the connection it returns differs from `c` at
most in the pending queue. -/
def Framed (c : ship_t) (r : Option (Int × ship_t × World)) : Prop :=
  ∀ rv c1 w1, r = some (rv, c1, w1) → SameFrame c c1

/-- A script of 33000 bytes, above the 32768 limit. -/
def script33000 : ship_script_t :=
  { remote_fn := [98, 46, 108, 117, 97], module := 0, event := 0, len := 33000, crc := 1 }

/-- A file of 33000 bytes. -/
def file33000 : List Nat := List.replicate 33000 7

/-- A script of 5 bytes that is a module with event hook 9. -/
def scriptM : ship_script_t :=
  { remote_fn := [109, 46, 108, 117, 97], module := 1, event := 9, len := 5, crc := 0x01020304 }

/-- The usual values of the simple mail declarations: a packet of 0x220
bytes, type 0x81. -/
def dc_simple_mail_std : dc_simple_mail_decl :=
  { sizeof := 0x220, tag_off := 4, gc_sender_off := 8, name_off := 12, gc_dest_off := 28,
    stuff_off := 32, SIMPLE_MAIL_TYPE := 0x81, DC_SIMPLE_MAIL_LENGTH := 0x220 }

/-- A fixed-width text field of `n` bytes holding the string `s`: the first
`min n (strlen s)` bytes of `s` followed by zero bytes. -/
def cstr_field (s : CStr) (n : Nat) : List Nat :=
  s.take n ++ List.replicate (n - s.length) 0

/-- The metadata part of a script chunk packet in `m`: type 0x002B, the
`chunk_type` byte at offset 8, `chunk_length` at 12-15, `chunk_crc` at 16-19
and `action` at 20-23 big-endian, and the 32-byte file name field at 24. -/
def IsChunkHeader (m : Mem) (chunk_type chunk_length chunk_crc action : Nat) (fn : CStr) :
    Prop :=
  bytes m 2 2 = be16 0x002B ∧ m 8 = chunk_type ∧
  bytes m 12 4 = be32 chunk_length ∧ bytes m 16 4 = be32 chunk_crc ∧
  bytes m 20 4 = be32 action ∧ bytes m 24 32 = cstr_field fn 32

/-- Two packets handed to `send_crypt` (scratch buffer and length) are the
same packet: the lengths are equal and so is every byte below the length. -/
def SamePacket (p p' : Mem × Nat) : Prop :=
  p.2 = p'.2 ∧ AgreeOn (fun i => i < p.2) p.1 p'.1

/-! ## Round-up idioms, further inputs -/

/-- The round-up idiom of the forwarders, `send_script` and `send_sdata`:
`if(x & 0x07) x = (x + 8) & 0xFFF8;`. -/
def round8_fff8 (x : Nat) : Nat := if x &&& 0x07 ≠ 0 then (x + 8) &&& 0xFFF8 else x

/-- The round-up idiom of `send_user_error` on its `uint16_t len`:
`if(len & 7) len = (len + 7) & (~7);`, where `~7` is the `int` mask
`0xFFFFFFF8` and the result is stored back into 16 bits. -/
def round8_not7 (x : Nat) : Nat :=
  if x &&& 7 ≠ 0 then ((x + 7) &&& 0xFFFFFFF8) % 65536 else x

/-- A transport that never accepts a byte: it answers 0 on every even call
and would-block on every odd call. -/
def envStall : Env :=
  { send := fun i _ => if i % 2 = 0 then 0 else GNUTLS_E_AGAIN, realloc_ok := fun _ => true }

/-- The message `hi`. -/
def msgHi : CStr := [104, 105]

/-! ## Predicates and inputs for the hand-over -/

/-- What handing a packet of `L` bytes (the first `L` bytes of `sb`) to
`send_raw` leads to, read off a result `r`: the call failed with -1, or the
transport was called, or, the queue not being empty, the `L` bytes were
copied into the buffer right below the new `sendbuf_cur` with no transport
call. -/
def Acts (sb : Mem) (L : Nat) (c : ship_t) (w : World)
    (r : Option (Int × ship_t × World)) : Prop :=
  ∀ rv c1 w1, r = some (rv, c1, w1) →
    rv = -1 ∨ w.log.length < w1.log.length ∨
    (c.sendbuf_cur ≠ 0 ∧ w1 = w ∧
      c1.sendbuf_cur =
        (if c.sendbuf_start ≠ 0 then c.sendbuf_cur - c.sendbuf_start else c.sendbuf_cur) + L ∧
      bytes c1.sendbuf
          (if c.sendbuf_start ≠ 0 then c.sendbuf_cur - c.sendbuf_start
            else c.sendbuf_cur).toNat L =
        bytes sb 0 L)

/-- The shape of a gated encoder whose packet of `L` bytes goes to
`send_raw`: under the gate a silent skip (0, connection and world
unchanged); past the gate the call is `send_raw` on the packet, which acts;
and on a connection whose queue is empty or starts at offset 0 the result is
the silent skip only under the gate. -/
def GatedSend (skip : Prop) (env : Env) (fuel : Nat) (p : Mem × Nat) (L : Nat) (c : ship_t)
    (w : World) (r : Option (Int × ship_t × World)) : Prop :=
  p.2 = L ∧ 8 ≤ L ∧
  (skip → r = some (0, c, w)) ∧
  (¬ skip → r = send_raw env fuel p.1 c L w ∧ Acts p.1 L c w r) ∧
  ((c.sendbuf_cur = 0 ∨ c.sendbuf_start = 0) → (r = some (0, c, w) ↔ skip))

/-- A Dreamcast packet of 12 bytes with type 0xE1 and flags 0xFF: read as a
Blue Burst header its first two bytes give the length 65505. -/
def innerDC12 : Mem := fun i => [0xE1, 0xFF, 12, 0].getD i i

/-- A message of 65505 bytes. -/
def msg65505 : CStr := List.replicate 65505 65

/-- A list of 8189 block list entries. -/
def blocks8189 : List (Nat × Nat) := List.replicate 8189 (1, 1)

/-! ## Helper lemmas -/

theorem bytes_zero (m : Mem) (off : Nat) : bytes m off 0 = [] := by
  simp [bytes]

theorem bytes_length (m : Mem) (off n : Nat) : (bytes m off n).length = n := by
  simp [bytes]

theorem bytes_append (m : Mem) (off a b : Nat) :
    bytes m off (a + b) = bytes m off a ++ bytes m (off + a) b := by
  simp [bytes, List.range_add, List.map_append, List.map_map, Function.comp_def, Nat.add_assoc]

theorem bytes_congr (m m' : Mem) (off off' n : Nat)
    (h : ∀ i, i < n → m (off + i) = m' (off' + i)) : bytes m off n = bytes m' off' n := by
  unfold bytes
  apply List.map_congr_left
  intro i hi
  exact h i (List.mem_range.mp hi)

theorem send_loop_done (env : Env) (sb : Mem) (len : Int) (fuel : Nat) (total : Int)
    (w : World) (h : ¬ total < len) :
    send_loop env sb len fuel total w = some (some total, w) := by
  cases fuel <;> simp [send_loop, h]

/-- With a behaving transport the send loop finishes, for every large enough
fuel, with `total = len`, and the wire has grown by exactly the bytes from
`total` to `len` of the scratch buffer. -/
theorem send_loop_accepting (env : Env) (sb : Mem) (len : Int) (hacc : Accepting env) :
    ∀ (r : Nat) (total : Int) (w : World), 0 ≤ total → len - total = r →
      ∃ n w1, (∀ fuel, n ≤ fuel → send_loop env sb len fuel total w = some (some len, w1)) ∧
        w1.wire = w.wire ++ bytes sb total.toNat r := by
  intro r
  induction r using Nat.strong_induction_on with
  | _ r ih =>
    intro total w h0 hr
    rcases Nat.eq_zero_or_pos r with hz | hpos
    · subst hz
      refine ⟨0, w, fun fuel _ => ?_, by simp [bytes_zero]⟩
      have : total = len := by omega
      subst this
      exact send_loop_done env sb total fuel total w (by omega)
    · obtain ⟨j, hj, hjpos⟩ := hacc.2 w.log.length
      have inner : ∀ (d : Nat) (w0 : World), w0.log.length + d = j →
          ∃ n w1, (∀ fuel, n ≤ fuel →
              send_loop env sb len fuel total w0 = some (some len, w1)) ∧
            w1.wire = w0.wire ++ bytes sb total.toNat r := by
        intro d
        induction d with
        | zero =>
          intro w0 hw0
          have hlt : total < len := by omega
          have hoff : 0 < len - total := by omega
          have hp := hjpos (len - total) hoff
          have hle : env.send j (len - total) ≤ len - total := by
            rcases hacc.1 j (len - total) hoff with h | h | h
            · rw [h] at hp; simp [GNUTLS_E_AGAIN] at hp
            · rw [h] at hp; simp [GNUTLS_E_INTERRUPTED] at hp
            · exact h.2
          have hj0 : w0.log.length = j := by omega
          set rv := env.send j (len - total) with hrv
          obtain ⟨n, w1, h1, h2⟩ := ih (r - rv.toNat) (by omega) (total + rv)
            { wire := w0.wire ++ bytes sb total.toNat (min rv (len - total)).toNat,
              log := w0.log ++ [{ off := total, len := len - total, rv := rv }] }
            (by omega) (by omega)
          refine ⟨n + 1, w1, fun fuel hf => ?_, ?_⟩
          · obtain ⟨f, rfl⟩ : ∃ f, fuel = f + 1 := ⟨fuel - 1, by omega⟩
            simp only [send_loop, hlt, if_true, ship_send, hj0, ← hrv]
            rw [if_neg (by omega)]
            exact h1 f (by omega)
          · rw [h2]
            have e1 : (min rv (len - total)).toNat = rv.toNat := by omega
            have e2 : (total + rv).toNat = total.toNat + rv.toNat := by omega
            have e3 : r = rv.toNat + (r - rv.toNat) := by omega
            simp only [e1, e2]
            conv_rhs => rw [e3, bytes_append]
            simp [List.append_assoc]
        | succ d ihd =>
          intro w0 hw0
          have hlt : total < len := by omega
          have hoff : 0 < len - total := by omega
          set rv := env.send w0.log.length (len - total) with hrv
          rcases hacc.1 w0.log.length (len - total) hoff with h | h | h
          · obtain ⟨n, w1, h1, h2⟩ := ihd
              { wire := w0.wire ++ bytes sb total.toNat (min rv (len - total)).toNat,
                log := w0.log ++ [{ off := total, len := len - total, rv := rv }] }
              (by simp; omega)
            have hrv28 : rv = -28 := by rw [hrv, h]; rfl
            refine ⟨n + 1, w1, fun fuel hf => ?_, ?_⟩
            · obtain ⟨f, rfl⟩ : ∃ f, fuel = f + 1 := ⟨fuel - 1, by omega⟩
              simp only [send_loop, hlt, if_true, ship_send, ← hrv]
              rw [if_pos (by omega), if_pos (Or.inl (by rw [hrv, h]))]
              exact h1 f (by omega)
            · rw [h2]
              have e1 : (min rv (len - total)).toNat = 0 := by omega
              simp [e1, bytes_zero]
          · obtain ⟨n, w1, h1, h2⟩ := ihd
              { wire := w0.wire ++ bytes sb total.toNat (min rv (len - total)).toNat,
                log := w0.log ++ [{ off := total, len := len - total, rv := rv }] }
              (by simp; omega)
            have hrv52 : rv = -52 := by rw [hrv, h]; rfl
            refine ⟨n + 1, w1, fun fuel hf => ?_, ?_⟩
            · obtain ⟨f, rfl⟩ : ∃ f, fuel = f + 1 := ⟨fuel - 1, by omega⟩
              simp only [send_loop, hlt, if_true, ship_send, ← hrv]
              rw [if_pos (by omega), if_pos (Or.inr (by rw [hrv, h]))]
              exact h1 f (by omega)
            · rw [h2]
              have e1 : (min rv (len - total)).toNat = 0 := by omega
              simp [e1, bytes_zero]
          · obtain ⟨n, w1, h1, h2⟩ := ih (r - rv.toNat) (by omega) (total + rv)
              { wire := w0.wire ++ bytes sb total.toNat (min rv (len - total)).toNat,
                log := w0.log ++ [{ off := total, len := len - total, rv := rv }] }
              (by omega) (by omega)
            refine ⟨n + 1, w1, fun fuel hf => ?_, ?_⟩
            · obtain ⟨f, rfl⟩ : ∃ f, fuel = f + 1 := ⟨fuel - 1, by omega⟩
              simp only [send_loop, hlt, if_true, ship_send, ← hrv]
              rw [if_neg (by omega)]
              exact h1 f (by omega)
            · rw [h2]
              have e1 : (min rv (len - total)).toNat = rv.toNat := by omega
              have e2 : (total + rv).toNat = total.toNat + rv.toNat := by omega
              have e3 : r = rv.toNat + (r - rv.toNat) := by omega
              simp only [e1, e2]
              conv_rhs => rw [e3, bytes_append]
              simp [List.append_assoc]
      exact inner (j - w.log.length) w (by omega)

theorem send_loop_step (env : Env) (sb : Mem) (len : Int) (fuel : Nat) (total : Int)
    (w : World) (h : total < len) :
    send_loop env sb len (fuel + 1) total w =
      if env.send w.log.length (len - total) < 0 then
        if env.send w.log.length (len - total) = GNUTLS_E_AGAIN ∨
            env.send w.log.length (len - total) = GNUTLS_E_INTERRUPTED then
          send_loop env sb len fuel total (ship_send env w sb total (len - total)).2
        else some (none, (ship_send env w sb total (len - total)).2)
      else
        send_loop env sb len fuel (total + env.send w.log.length (len - total))
          (ship_send env w sb total (len - total)).2 := by
  simp [send_loop, h, ship_send]

/-- What a finished run of the send loop has logged: the calls are appended
to the log; the loop leaves through `return -1` only after a hard error, and
through its condition only when no call was a hard error; the first call
offers the bytes from `total` on. -/
theorem send_loop_trace (env : Env) (sb : Mem) (len : Int) :
    ∀ (fuel : Nat) (total : Int) (w : World) (r : Option Int) (w1 : World),
      send_loop env sb len fuel total w = some (r, w1) →
      ∃ calls, w1.log = w.log ++ calls ∧
        (r = none → ∃ call ∈ calls, hardError call.rv) ∧
        (∀ t, r = some t → (∀ call ∈ calls, ¬ hardError call.rv) ∧
          ((∀ i n, env.send i n ≤ n) → total ≤ len → t = len)) ∧
        (total < len → ∃ rest, calls =
          { off := total, len := len - total, rv := env.send w.log.length (len - total) } :: rest) := by
  intro fuel
  induction fuel with
  | zero =>
    intro total w r w1 h
    by_cases hlt : total < len
    · simp [send_loop, hlt] at h
    · simp only [send_loop, hlt, if_false, Option.some.injEq, Prod.mk.injEq] at h
      obtain ⟨rfl, rfl⟩ := h
      refine ⟨[], by simp, by simp, ?_, fun h => absurd h hlt⟩
      intro t ht
      simp only [Option.some.injEq] at ht
      subst ht
      exact ⟨by simp, fun _ _ => by omega⟩
  | succ fuel ih =>
    intro total w r w1 h
    by_cases hlt : total < len
    · rw [send_loop_step env sb len fuel total w hlt] at h
      set rv := env.send w.log.length (len - total) with hrv
      have hlog : (ship_send env w sb total (len - total)).2.log =
          w.log ++ [{ off := total, len := len - total, rv := rv }] := by
        simp [ship_send, hrv]
      by_cases hneg : rv < 0
      · rw [if_pos hneg] at h
        by_cases htr : rv = GNUTLS_E_AGAIN ∨ rv = GNUTLS_E_INTERRUPTED
        · rw [if_pos htr] at h
          obtain ⟨calls, hc, h1, h2, _⟩ := ih _ _ _ _ h
          refine ⟨{ off := total, len := len - total, rv := rv } :: calls, ?_, ?_, ?_, ?_⟩
          · rw [hc, hlog]; simp
          · intro hr
            obtain ⟨call, hm, hh⟩ := h1 hr
            exact ⟨call, List.mem_cons_of_mem _ hm, hh⟩
          · intro t ht
            obtain ⟨ha, hb⟩ := h2 t ht
            refine ⟨?_, hb⟩
            intro call hm
            rcases List.mem_cons.mp hm with rfl | hm
            · intro hh
              rcases htr with e | e
              · exact hh.2.1 e
              · exact hh.2.2 e
            · exact ha call hm
          · intro _; exact ⟨calls, rfl⟩
        · rw [if_neg htr] at h
          simp only [Option.some.injEq, Prod.mk.injEq] at h
          obtain ⟨rfl, rfl⟩ := h
          refine ⟨[{ off := total, len := len - total, rv := rv }], hlog, ?_, ?_, ?_⟩
          · intro _
            refine ⟨_, List.mem_singleton.mpr rfl, hneg, ?_, ?_⟩
            · exact fun e => htr (Or.inl e)
            · exact fun e => htr (Or.inr e)
          · intro t ht; simp at ht
          · intro _; exact ⟨[], rfl⟩
      · rw [if_neg hneg] at h
        obtain ⟨calls, hc, h1, h2, _⟩ := ih _ _ _ _ h
        refine ⟨{ off := total, len := len - total, rv := rv } :: calls, ?_, ?_, ?_, ?_⟩
        · rw [hc, hlog]; simp
        · intro hr
          obtain ⟨call, hm, hh⟩ := h1 hr
          exact ⟨call, List.mem_cons_of_mem _ hm, hh⟩
        · intro t ht
          obtain ⟨ha, hb⟩ := h2 t ht
          refine ⟨?_, ?_⟩
          · intro call hm
            rcases List.mem_cons.mp hm with rfl | hm
            · intro hh; exact hneg hh.1
            · exact ha call hm
          · intro hwf hle
            have := hwf w.log.length (len - total)
            exact hb hwf (by omega)
        · intro _; exact ⟨calls, rfl⟩
    · rw [send_loop_done env sb len (fuel + 1) total w hlt] at h
      simp only [Option.some.injEq, Prod.mk.injEq] at h
      obtain ⟨rfl, rfl⟩ := h
      refine ⟨[], by simp, by simp, ?_, fun h => absurd h hlt⟩
      intro t ht
      simp only [Option.some.injEq] at ht
      subst ht
      exact ⟨by simp, fun _ _ => by omega⟩

/-- If the call number `k` from now is answered with a hard error whatever
is offered, the send loop has returned within `k + 1` iterations. -/
theorem send_loop_returns (env : Env) (sb : Mem) (len : Int) :
    ∀ (k : Nat) (total : Int) (w : World),
      (∀ n, 0 < n → hardError (env.send (w.log.length + k) n)) →
      ∀ fuel, k < fuel → ∃ res, send_loop env sb len fuel total w = some res := by
  intro k
  induction k with
  | zero =>
    intro total w hh fuel hf
    obtain ⟨f, rfl⟩ : ∃ f, fuel = f + 1 := ⟨fuel - 1, by omega⟩
    by_cases hlt : total < len
    · have h := hh (len - total) (by omega)
      simp only [Nat.add_zero] at h
      rw [send_loop_step env sb len f total w hlt, if_pos h.1,
        if_neg (fun e => e.elim h.2.1 h.2.2)]
      exact ⟨_, rfl⟩
    · exact ⟨_, send_loop_done env sb len _ total w hlt⟩
  | succ k ih =>
    intro total w hh fuel hf
    obtain ⟨f, rfl⟩ : ∃ f, fuel = f + 1 := ⟨fuel - 1, by omega⟩
    by_cases hlt : total < len
    · have hlen : (ship_send env w sb total (len - total)).2.log.length = w.log.length + 1 := by
        simp [ship_send]
      have hh1 : ∀ n, 0 < n →
          hardError (env.send ((ship_send env w sb total (len - total)).2.log.length + k) n) := by
        intro n hn
        rw [hlen]
        have := hh n hn
        rwa [show w.log.length + (k + 1) = w.log.length + 1 + k by omega] at this
      rw [send_loop_step env sb len f total w hlt]
      split_ifs
      · exact ih _ _ hh1 f (by omega)
      · exact ⟨_, rfl⟩
      · exact ih _ _ hh1 f (by omega)
    · exact ⟨_, send_loop_done env sb len _ total w hlt⟩

theorem send_raw_empty (env : Env) (fuel : Nat) (sb : Mem) (c : ship_t) (len : Int) (w : World)
    (hq : c.sendbuf_cur = 0) :
    send_raw env fuel sb c len w =
      match send_loop env sb len fuel 0 w with
      | none => none
      | some (none, w1) => some (-1, c, w1)
      | some (some total, w1) =>
        some ((send_raw_queue env sb c len total).1, (send_raw_queue env sb c len total).2, w1) := by
  simp [send_raw, hq]

theorem send_raw_queue_done (env : Env) (sb : Mem) (c : ship_t) (len : Int) :
    send_raw_queue env sb c len len = (0, c) := by
  simp [send_raw_queue]

/-- With an empty queue and a behaving transport, `send_raw` returns 0 for
every large enough fuel, leaves the connection as it was and puts the whole
packet on the wire; its first transport call offers the whole packet. -/
theorem send_raw_accepting (env : Env) (sb : Mem) (c : ship_t) (len : Nat) (w : World)
    (hq : c.sendbuf_cur = 0) (hacc : Accepting env) :
    ∃ n w1, (∀ fuel, n ≤ fuel → send_raw env fuel sb c len w = some (0, c, w1)) ∧
      w1.wire = w.wire ++ bytes sb 0 len ∧
      ∃ calls, w1.log = w.log ++ calls ∧
        (0 < len → ∃ rest, calls =
          { off := 0, len := len, rv := env.send w.log.length len } :: rest) := by
  obtain ⟨n, w1, h1, h2⟩ := send_loop_accepting env sb len hacc len 0 w (le_refl _) (by omega)
  obtain ⟨calls, hc, _, _, hfirst⟩ := send_loop_trace env sb len n 0 w _ _ (h1 n (le_refl _))
  refine ⟨n, w1, fun fuel hf => ?_, by simpa using h2, calls, hc, ?_⟩
  · rw [send_raw_empty env fuel sb c len w hq, h1 fuel hf]
    simp [send_raw_queue_done]
  · intro hpos
    obtain ⟨rest, hr⟩ := hfirst (by omega)
    exact ⟨rest, by simpa using hr⟩

theorem envStutter_accepting : Accepting envStutter := by
  constructor
  · intro i n hn
    by_cases h : i % 2 = 0
    · left; simp [envStutter, h]
    · right; right
      simp only [envStutter, h, if_false]
      omega
  · intro i
    refine ⟨2 * i + 1, by omega, fun n hn => ?_⟩
    have h : ¬ (2 * i + 1) % 2 = 0 := by omega
    simp only [envStutter, h, if_false]
    omega

theorem envPrefix3_accepting : Accepting envPrefix3 := by
  constructor
  · intro i n hn
    right; right
    by_cases h : i = 0
    · simp only [envPrefix3, h, if_true]; omega
    · simp only [envPrefix3, h, if_false]; omega
  · intro i
    refine ⟨i + 1, by omega, fun n hn => ?_⟩
    simp only [envPrefix3, Nat.succ_ne_zero, if_false]
    exact hn

theorem envAll_accepting : Accepting envAll := by
  constructor
  · intro i n hn
    right; right
    simp only [envAll]; omega
  · intro i
    exact ⟨i, le_refl _, fun n hn => by simpa [envAll] using hn⟩

/-- With a non-empty queue whose `sendbuf_start` is 0, `send_raw` makes no
transport call and the pending bytes become the old pending bytes followed
by the packet (allocation succeeding). -/
theorem send_raw_enqueue_start_zero (env : Env) (fuel : Nat) (sb : Mem) (c : ship_t)
    (len : Nat) (w : World) (hcur : 0 < c.sendbuf_cur) (hstart : c.sendbuf_start = 0)
    (hok : env.realloc_ok (c.sendbuf_cur + len) = true) :
    ∃ c1, send_raw env fuel sb c len w = some (0, c1, w) ∧
      pending c1 = pending c ++ bytes sb 0 len ∧ c1.sendbuf_start = 0 := by
  have hne : c.sendbuf_cur ≠ 0 := by omega
  have hpend : ∀ (m : Mem), bytes (memcpy m c.sendbuf_cur.toNat sb 0 len) 0
      (c.sendbuf_cur.toNat + len) = bytes m 0 c.sendbuf_cur.toNat ++ bytes sb 0 len := by
    intro m
    rw [bytes_append]
    congr 1
    · apply bytes_congr
      intro i hi
      have : ¬ (c.sendbuf_cur.toNat ≤ 0 + i ∧ 0 + i < c.sendbuf_cur.toNat + len) := by omega
      simp only [memcpy]
      rw [if_neg this]
    · apply bytes_congr
      intro i hi
      have : c.sendbuf_cur.toNat ≤ 0 + c.sendbuf_cur.toNat + i ∧
          0 + c.sendbuf_cur.toNat + i < c.sendbuf_cur.toNat + len := by omega
      simp only [memcpy]
      rw [if_pos this]
      congr 1
      omega
  have htn : (c.sendbuf_cur + (len : Int)).toNat = c.sendbuf_cur.toNat + len := by omega
  rcases Nat.eq_zero_or_pos len with hz | hpos
  · subst hz
    refine ⟨c, ?_, by simp [bytes_zero], hstart⟩
    simp [send_raw, hne, send_raw_queue]
  · have hl : (len : Int) ≠ 0 := by omega
    by_cases hsz : c.sendbuf_cur + (len : Int) > c.sendbuf_size
    · refine ⟨{ c with
          sendbuf_size := c.sendbuf_cur + len
          sendbuf := memcpy c.sendbuf c.sendbuf_cur.toNat sb 0 len
          sendbuf_cur := c.sendbuf_cur + len }, ?_, ?_, hstart⟩
      · simp [send_raw, hne, send_raw_queue, hl, hstart, hsz, hok]
      · simp only [pending, hstart, Int.toNat_zero, Int.sub_zero, htn]
        exact hpend _
    · refine ⟨{ c with
          sendbuf := memcpy c.sendbuf c.sendbuf_cur.toNat sb 0 len
          sendbuf_cur := c.sendbuf_cur + len }, ?_, ?_, hstart⟩
      · simp [send_raw, hne, send_raw_queue, hl, hstart, hsz]
      · simp only [pending, hstart, Int.toNat_zero, Int.sub_zero, htn]
        exact hpend _

/-! ## Bit masks as arithmetic -/

theorem and_mask (x k s : Nat) : x &&& ((2 ^ k - 1) <<< s) = (x >>> s % 2 ^ k) <<< s := by
  apply Nat.eq_of_testBit_eq
  intro i
  simp only [Nat.testBit_and, Nat.testBit_shiftLeft, Nat.testBit_two_pow_sub_one,
    Nat.testBit_mod_two_pow, Nat.testBit_shiftRight]
  by_cases h : i ≥ s
  · have : s + (i - s) = i := by omega
    simp [h, this, Bool.and_comm]
  · simp [h]

theorem and_7 (x : Nat) : x &&& 7 = x % 8 := Nat.and_pow_two_sub_one_eq_mod x 3

theorem and_ffff (x : Nat) : x &&& 0xFFFF = x % 65536 := Nat.and_pow_two_sub_one_eq_mod x 16

theorem and_fff8 (x : Nat) : x &&& 0xFFF8 = x / 8 % 8192 * 8 := by
  have h := and_mask x 13 3
  simpa [Nat.shiftLeft_eq, Nat.shiftRight_eq_div_pow] using h

theorem and_ffff0000 (x : Nat) : x &&& 0xFFFF0000 = x / 65536 % 65536 * 65536 := by
  have h := and_mask x 16 16
  simpa [Nat.shiftLeft_eq, Nat.shiftRight_eq_div_pow] using h

theorem and_c0000000 (x : Nat) : x &&& 0xC0000000 = x / 1073741824 % 4 * 1073741824 := by
  have h := and_mask x 2 30
  simpa [Nat.shiftLeft_eq, Nat.shiftRight_eq_div_pow] using h

theorem or_disjoint16 (a b : Nat) (h : a < 65536) : a ||| b * 65536 = a + b * 65536 := by
  have := Nat.mul_add_lt_is_or (i := 16) (b := a) (by simpa using h) b
  rw [Nat.or_comm, show b * 65536 = 2 ^ 16 * b by omega]
  omega

theorem get16le_lt (m : Mem) (off : Nat) : get16le m off < 65536 := by
  unfold get16le; omega

/-- The length the forwarders hand on, in arithmetic terms. -/
theorem fw_9_fill_len (tag lenOff : Nat) (sb inner : Mem) (sender gc block : Nat) :
    (fw_9_fill tag lenOff sb inner sender gc block).2 =
      if (24 + get16le inner lenOff) % 8 ≠ 0
      then (24 + get16le inner lenOff + 8) / 8 % 8192 * 8
      else 24 + get16le inner lenOff := by
  simp only [fw_9_fill, sizeof_shipgate_fw_9_pkt, sizeof_shipgate_hdr_t, and_7, and_fff8]

theorem bytes_two (m : Mem) (off : Nat) : bytes m off 2 = [m off, m (off + 1)] := by
  simp [bytes, List.range_succ]

theorem bytes_four (m : Mem) (off : Nat) :
    bytes m off 4 = [m off, m (off + 1), m (off + 2), m (off + 3)] := by
  simp [bytes, List.range_succ]

theorem fw_9_fill_envelope (tag lenOff : Nat) (sb inner : Mem) (sender gc block : Nat)
    (hL : get16le inner lenOff ≤ 65504) :
    IsEnvelope tag inner (get16le inner lenOff) sender gc block
      (fw_9_fill tag lenOff sb inner sender gc block) := by
  have hlen := fw_9_fill_len tag lenOff sb inner sender gc block
  set L := get16le inner lenOff with hLdef
  set T := (fw_9_fill tag lenOff sb inner sender gc block).2 with hT
  have hT8 : T % 8 = 0 ∧ 24 + L ≤ T ∧ T < 24 + L + 8 := by
    rw [hlen]; split_ifs <;> omega
  have hp : ∀ i, (fw_9_fill tag lenOff sb inner sender gc block).1 i =
      memcpy (put32be (put32be (put32be (put8 (put8 (put16be (put16be (put16be
        (memset sb 0 0 T) 0 T) 2 tag) 4 0) 6 0) 7 0) 8 sender) 16 gc) 20 block) 24 inner 0 L i := by
    intro i; rfl
  refine ⟨hT8.1, hT8.2.1, hT8.2.2, ?_, ?_, ?_, ?_, ?_, ?_, ?_, ?_, ?_, ?_⟩
  · simp [bytes_two, hp, be16, memcpy, put32be, put16be, put8, memset]
  · simp [get16be, hp, be16, memcpy, put32be, put16be, put8, memset]; omega
  · simp [bytes_two, hp, be16, memcpy, put32be, put16be, put8, memset]
  · simp [bytes_four, hp, memcpy, put32be, put16be, put8, memset]
  · simp [bytes_four, hp, be32, memcpy, put32be, put16be, put8, memset]
  · simp [bytes_four, hp, be32, memcpy, put32be, put16be, put8, memset]; omega
  · simp [bytes_four, hp, be32, memcpy, put32be, put16be, put8, memset]
  · simp [bytes_four, hp, be32, memcpy, put32be, put16be, put8, memset]
  · apply bytes_congr
    intro i hi
    rw [hp]
    simp [memcpy, hi]
  · intro i h1 h2
    rw [hp]
    have a1 : ¬ i < 24 + L := by omega
    have a2 : i ≠ 20 ∧ i ≠ 21 ∧ i ≠ 22 ∧ i ≠ 23 ∧ i ≠ 16 ∧ i ≠ 17 ∧ i ≠ 18 ∧ i ≠ 19 := by omega
    have a3 : i ≠ 8 ∧ i ≠ 9 ∧ i ≠ 10 ∧ i ≠ 11 ∧ i ≠ 7 ∧ i ≠ 6 ∧ i ≠ 4 ∧ i ≠ 5 := by omega
    have a4 : i ≠ 0 ∧ i ≠ 1 ∧ i ≠ 2 ∧ i ≠ 3 := by omega
    simp [memcpy, put32be, put16be, put8, memset, a1, a2, a3, a4, h2]

/-! ## The transmission buffer: theorems -/

/-- C1: on a connection with an empty pending queue and a transport that on
each write accepts some positive number of the offered bytes, possibly after
would-block or interrupted results, sending packet A and then packet B with
`send_raw` returns 0 both times (for every large enough fuel), leaves the
connection unchanged, so its queue is still empty, and the transport has
received exactly the bytes of A followed by the bytes of B. -/
theorem send_raw_two_packets_in_order (env : Env) (sbA sbB : Mem) (c : ship_t)
    (lenA lenB : Nat) (w : World) (hq : c.sendbuf_cur = 0) (hacc : Accepting env) :
    ∃ n w1 w2, (∀ fuel, n ≤ fuel →
        send_raw env fuel sbA c lenA w = some (0, c, w1) ∧
        send_raw env fuel sbB c lenB w1 = some (0, c, w2)) ∧
      w2.wire = w.wire ++ bytes sbA 0 lenA ++ bytes sbB 0 lenB ∧
      c.sendbuf_cur = 0 := by
  obtain ⟨n1, w1, h1, hw1, _⟩ := send_raw_accepting env sbA c lenA w hq hacc
  obtain ⟨n2, w2, h2, hw2, _⟩ := send_raw_accepting env sbB c lenB w1 hq hacc
  refine ⟨max n1 n2, w1, w2, fun fuel hf => ⟨?_, ?_⟩, ?_, hq⟩
  · exact h1 fuel (le_trans (le_max_left _ _) hf)
  · exact h2 fuel (le_trans (le_max_right _ _) hf)
  · rw [hw2, hw1]

/-- Witness of C1: the stuttering transport (would-block on every other
call, at most 3 bytes per write) and two 10-byte packets. -/
theorem send_raw_two_packets_in_order_witness :
    ∃ n w1 w2, (∀ fuel, n ≤ fuel →
        send_raw envStutter fuel scratchA ship0 (10 : Nat) world0 = some (0, ship0, w1) ∧
        send_raw envStutter fuel scratchB ship0 (10 : Nat) w1 = some (0, ship0, w2)) ∧
      w2.wire = world0.wire ++ bytes scratchA 0 10 ++ bytes scratchB 0 10 ∧
      ship0.sendbuf_cur = 0 :=
  send_raw_two_packets_in_order envStutter scratchA scratchB ship0 10 10 world0 rfl
    envStutter_accepting

/-- C2, evaluated at a failing input: the queue holds `102, 103, 104` with
`sendbuf_start = 2`, `sendbuf_cur = 5`, and the 8-byte packet `1 .. 8` is
sent. `send_raw` returns 0 without a transport call, but the compaction leaves
`sendbuf_start` at 2, so the pending bytes afterwards are `104, 1 .. 8` and
not the old pending bytes followed by the packet: `102` and `103` are lost. -/
theorem send_raw_compaction_keeps_start :
    pending shipQueued = [102, 103, 104] ∧
    bytes scratchA 0 8 = [1, 2, 3, 4, 5, 6, 7, 8] ∧
    (send_raw envAll 1 scratchA shipQueued 8 world0).map
        (fun r => (r.1, r.2.1.sendbuf_start, r.2.1.sendbuf_cur, pending r.2.1, r.2.2)) =
      some (0, 2, 11, [104, 1, 2, 3, 4, 5, 6, 7, 8], world0) := by
  decide

/-- C3 as stated fails: the transport accepts 3 of the 10 offered bytes on the
first write (and everything afterwards); `send_raw` returns 0, but the 7
unaccepted bytes are not in the queue, whose `sendbuf_cur` is 0 and not
`10 - 3`: they were offered again and accepted. -/
theorem send_raw_partial_write_not_queued :
    envPrefix3.send world0.log.length 10 = 3 ∧
    (send_raw envPrefix3 5 scratchA ship0 10 world0).map
        (fun r => (r.1, r.2.1.sendbuf_cur, pending r.2.1, r.2.2)) =
      some (0, 0, [], { wire := [1, 2, 3, 4, 5, 6, 7, 8, 9, 10],
                        log := [{ off := 0, len := 10, rv := 3 },
                                { off := 3, len := 7, rv := 7 }] }) ∧
    ¬ ∃ c1 w1, send_raw envPrefix3 5 scratchA ship0 10 world0 = some (0, c1, w1) ∧
        c1.sendbuf_cur = 10 - 3 ∧ pending c1 = bytes scratchA 3 7 := by
  refine ⟨by decide, by decide, ?_⟩
  rintro ⟨c1, w1, h, hc, _⟩
  have e : (send_raw envPrefix3 5 scratchA ship0 10 world0).map (fun r => r.2.1.sendbuf_cur) =
      some 0 := by decide
  rw [h] at e
  simp only [Option.map_some', Option.some.injEq] at e
  omega

/-- C3 as amended: on a connection with an empty queue, when the transport
accepts only the first `k` bytes of the `len` offered (`0 < k < len`), the
rest is not queued: the next transport call offers the `len - k` bytes from
offset `k`, and with a transport that goes on accepting, `send_raw` returns 0
(for every large enough fuel) with the connection unchanged, its queue still
empty, and the whole packet on the wire. -/
theorem send_raw_partial_write_reoffered (env : Env) (sb : Mem) (c : ship_t) (len k : Nat)
    (w : World) (hq : c.sendbuf_cur = 0) (hacc : Accepting env) (hk0 : 0 < k) (hk : k < len)
    (hfirst : env.send w.log.length len = k) :
    ∃ n w1 rest, (∀ fuel, n ≤ fuel → send_raw env fuel sb c len w = some (0, c, w1)) ∧
      w1.wire = w.wire ++ bytes sb 0 len ∧
      w1.log = w.log ++
        { off := 0, len := len, rv := k } ::
        { off := k, len := len - k, rv := env.send (w.log.length + 1) (len - k) } :: rest ∧
      c.sendbuf_cur = 0 := by
  obtain ⟨n, w1, h1, h2⟩ := send_loop_accepting env sb len hacc len 0 w (le_refl _) (by omega)
  have hlt : (0 : Int) < len := by omega
  have hrun := h1 (n + 1) (by omega)
  rw [send_loop_step env sb len n 0 w hlt] at hrun
  simp only [Int.sub_zero, hfirst, Int.zero_add] at hrun
  rw [if_neg (by omega)] at hrun
  have hlog : (ship_send env w sb 0 len).2.log = w.log ++ [{ off := 0, len := len, rv := k }] := by
    simp [ship_send, hfirst]
  obtain ⟨calls, hc, _, _, hhead⟩ := send_loop_trace env sb len n k _ _ _ hrun
  obtain ⟨rest, hr⟩ := hhead (by omega)
  refine ⟨n, w1, rest, fun fuel hf => ?_, by simpa using h2, ?_, hq⟩
  · rw [send_raw_empty env fuel sb c len w hq, h1 fuel hf]
    simp [send_raw_queue_done]
  · rw [hc, hr, hlog]
    simp

/-- Witness of the amended C3: the transport that accepts 3 bytes first, a
10-byte packet. -/
theorem send_raw_partial_write_reoffered_witness :
    ∃ n w1 rest, (∀ fuel, n ≤ fuel →
        send_raw envPrefix3 fuel scratchA ship0 (10 : Nat) world0 = some (0, ship0, w1)) ∧
      w1.wire = world0.wire ++ bytes scratchA 0 10 ∧
      w1.log = world0.log ++
        { off := 0, len := (10 : Nat), rv := (3 : Nat) } ::
        { off := (3 : Nat), len := (10 : Nat) - (3 : Nat),
          rv := envPrefix3.send (world0.log.length + 1) ((10 : Nat) - (3 : Nat)) } :: rest ∧
      ship0.sendbuf_cur = 0 :=
  send_raw_partial_write_reoffered envPrefix3 scratchA ship0 10 3 world0 rfl
    envPrefix3_accepting (by decide) (by decide) (by decide)

/-- C4: for every connection and every `len < 8`, zero and negative values
included, `send_crypt` returns -1 with the connection (its queue fields among
them) and the world unchanged, so no transport write is made; for every
`len >= 8` its result is that of `send_raw`. -/
theorem send_crypt_min_length (env : Env) (fuel : Nat) (sb : Mem) (c : ship_t) (len : Int)
    (w : World) :
    (len < 8 → send_crypt env fuel sb c len w = some (-1, c, w)) ∧
    (8 ≤ len → send_crypt env fuel sb c len w = send_raw env fuel sb c len w) := by
  constructor
  · intro h; simp [send_crypt, h]
  · intro h
    have : ¬ len < 8 := by omega
    simp [send_crypt, this]

/-- C5: on a connection with an empty pending queue,
(1) when some transport call of a `send_raw` run returned a negative result
other than would-block / interrupted, the run returned -1 and the connection,
queue fields included, is unchanged;
(2) the run does return: if the call number `k` is answered by such a hard
error, `send_raw` has returned for every fuel above `k`;
(3) a would-block or interrupted result does not end the loop: the loop goes
on from the same `total`, so the next call offers the same offset and the
same remaining length, and nothing reached the wire;
(4) with a transport that never reports more than was offered, -1 is returned
only after a hard error. -/
theorem send_raw_hard_error (env : Env) (sb : Mem) (c : ship_t) (len : Int) (w : World)
    (hq : c.sendbuf_cur = 0) :
    (∀ fuel res, send_raw env fuel sb c len w = some res →
      (∃ call ∈ res.2.2.log.drop w.log.length, hardError call.rv) →
      res.1 = -1 ∧ res.2.1 = c) ∧
    (∀ k, (∀ n, 0 < n → hardError (env.send (w.log.length + k) n)) →
      ∀ fuel, k < fuel → ∃ res, send_raw env fuel sb c len w = some res) ∧
    (∀ fuel total w0, total < len →
      (env.send w0.log.length (len - total) = GNUTLS_E_AGAIN ∨
        env.send w0.log.length (len - total) = GNUTLS_E_INTERRUPTED) →
      send_loop env sb len (fuel + 1) total w0 =
        send_loop env sb len fuel total
          { wire := w0.wire,
            log := w0.log ++ [{ off := total, len := len - total,
                                rv := env.send w0.log.length (len - total) }] }) ∧
    (0 ≤ len → (∀ i n, env.send i n ≤ n) →
      ∀ fuel res, send_raw env fuel sb c len w = some res → res.1 = -1 →
      ∃ call ∈ res.2.2.log.drop w.log.length, hardError call.rv) := by
  refine ⟨?_, ?_, ?_, ?_⟩
  · intro fuel res h ⟨call, hm, hh⟩
    rw [send_raw_empty env fuel sb c len w hq] at h
    cases hl : send_loop env sb len fuel 0 w with
    | none => rw [hl] at h; simp at h
    | some p =>
      obtain ⟨r, w1⟩ := p
      rw [hl] at h
      obtain ⟨calls, hc, _, h2, _⟩ := send_loop_trace env sb len fuel 0 w r w1 hl
      cases r with
      | none =>
        simp only [Option.some.injEq] at h
        subst h
        exact ⟨rfl, rfl⟩
      | some t =>
        simp only [Option.some.injEq] at h
        subst h
        simp only [hc, List.drop_left] at hm
        exact absurd hh ((h2 t rfl).1 call hm)
  · intro k hh fuel hf
    obtain ⟨res, hres⟩ := send_loop_returns env sb len k 0 w hh fuel hf
    rw [send_raw_empty env fuel sb c len w hq, hres]
    obtain ⟨r, w1⟩ := res
    cases r with
    | none => exact ⟨_, rfl⟩
    | some t => exact ⟨_, rfl⟩
  · intro fuel total w0 hlt htr
    rw [send_loop_step env sb len fuel total w0 hlt]
    have hneg : env.send w0.log.length (len - total) < 0 := by
      rcases htr with e | e <;> rw [e] <;> decide
    have hmin : (min (env.send w0.log.length (len - total)) (len - total)).toNat = 0 := by
      omega
    rw [if_pos hneg, if_pos htr]
    simp [ship_send, hmin, bytes_zero]
  · intro hlen hwf fuel res h hm1
    rw [send_raw_empty env fuel sb c len w hq] at h
    cases hl : send_loop env sb len fuel 0 w with
    | none => rw [hl] at h; simp at h
    | some p =>
      obtain ⟨r, w1⟩ := p
      rw [hl] at h
      obtain ⟨calls, hc, h1, h2, _⟩ := send_loop_trace env sb len fuel 0 w r w1 hl
      cases r with
      | none =>
        simp only [Option.some.injEq] at h
        subst h
        simpa [hc] using h1 rfl
      | some t =>
        have ht : t = len := (h2 t rfl).2 hwf hlen
        subst ht
        simp only [send_raw_queue_done, Option.some.injEq] at h
        subst h
        simp at hm1

/-- Witness of C5: the transport accepts 4 bytes, answers would-block, then
fails with -10; the 10-byte send returns -1 and the connection is unchanged. -/
theorem send_raw_hard_error_witness :
    ship0.sendbuf_cur = 0 ∧
    ∃ res, send_raw envBreak 3 scratchA ship0 10 world0 = some res ∧
      res.1 = -1 ∧ res.2.1 = ship0 := by
  have T := send_raw_hard_error envBreak scratchA ship0 10 world0 rfl
  refine ⟨rfl, ?_⟩
  obtain ⟨res, hres⟩ := T.2.1 2 (fun _ _ => show hardError (-10) from by decide) 3 (by decide)
  refine ⟨res, hres, T.1 3 res hres ?_⟩
  have e : (send_raw envBreak 3 scratchA ship0 10 world0).map (fun r => r.2.2.log) =
      some [{ off := 0, len := 10, rv := 4 }, { off := 4, len := 6, rv := -28 },
            { off := 4, len := 6, rv := -10 }] := by decide
  rw [hres] at e
  simp only [Option.map_some', Option.some.injEq] at e
  rw [e]
  exact ⟨{ off := 4, len := 6, rv := -10 }, by decide, by decide⟩

theorem and_3fff0000 (x : Nat) : x &&& 0x3FFF0000 = x / 65536 % 16384 * 65536 := by
  have h := and_mask x 14 16
  simpa [Nat.shiftLeft_eq, Nat.shiftRight_eq_div_pow] using h

theorem forward_dreamcast_pkt_eq (sb dc : Mem) (sender gc block : Nat) :
    forward_dreamcast_pkt sb dc sender gc block =
      fw_9_fill SHDR_TYPE_DC dc_pkt_len_off sb dc sender gc block := rfl

theorem forward_pc_pkt_eq (sb pc : Mem) (sender gc block : Nat) :
    forward_pc_pkt sb pc sender gc block =
      fw_9_fill SHDR_TYPE_PC dc_pkt_len_off sb pc sender gc block := rfl

theorem forward_bb_pkt_eq (sb bb : Mem) (sender gc block : Nat) :
    forward_bb_pkt sb bb sender gc block =
      fw_9_fill SHDR_TYPE_BB bb_pkt_len_off sb bb sender gc block := rfl

/-- The outer length field holds the handed-on length modulo 65536. -/
theorem fw_9_fill_len_field (tag lenOff : Nat) (sb inner : Mem) (sender gc block : Nat) :
    get16be (fw_9_fill tag lenOff sb inner sender gc block).1 0 =
      (fw_9_fill tag lenOff sb inner sender gc block).2 % 65536 := by
  set T := (fw_9_fill tag lenOff sb inner sender gc block).2 with hT
  have hp : ∀ i, (fw_9_fill tag lenOff sb inner sender gc block).1 i =
      memcpy (put32be (put32be (put32be (put8 (put8 (put16be (put16be (put16be
        (memset sb 0 0 T) 0 T) 2 tag) 4 0) 6 0) 7 0) 8 sender) 16 gc) 20 block) 24 inner 0
        (get16le inner lenOff) i := by
    intro i; rfl
  simp only [get16be, hp]
  simp [memcpy, put32be, put16be, put8, memset]
  omega

/-! ## Envelope forwarding: theorems -/

/-- C6, evaluated at a failing input: the inner `pkt_len` is 65512, so
`24 + 65512 = 65536` is already a multiple of 8 and is handed to `send_crypt`
as the length, while the 16-bit outer length field holds 0; this for
`forward_dreamcast`, `forward_pc` and `forward_bb`. -/
theorem forward_length_field_wraps :
    get16le inner65512 dc_pkt_len_off = 65512 ∧ get16le inner65512 bb_pkt_len_off = 65512 ∧
    (forward_dreamcast_pkt scratchA inner65512 1 2 3).2 = 65536 ∧
    get16be (forward_dreamcast_pkt scratchA inner65512 1 2 3).1 0 = 0 ∧
    (forward_pc_pkt scratchA inner65512 1 2 3).2 = 65536 ∧
    get16be (forward_pc_pkt scratchA inner65512 1 2 3).1 0 = 0 ∧
    (forward_bb_pkt scratchA inner65512 1 2 3).2 = 65536 ∧
    get16be (forward_bb_pkt scratchA inner65512 1 2 3).1 0 = 0 := by
  decide

/-- C8, evaluated at a failing input: the inner `pkt_len` is 65512, above
65504, and the padded envelope is 65536 bytes; with a transport that accepts
everything `forward_dreamcast`, `forward_pc` and `forward_bb` return 0 (for
every large enough fuel) and the transport has received 65536 bytes. -/
theorem forward_oversized_is_sent :
    65504 < get16le inner65512 dc_pkt_len_off ∧ 65504 < get16le inner65512 bb_pkt_len_off ∧
    (∃ n w1, (∀ fuel, n ≤ fuel →
        forward_dreamcast envAll fuel scratchA ship0 inner65512 1 2 3 world0 =
          some (0, ship0, w1)) ∧ w1.wire.length = 65536) ∧
    (∃ n w1, (∀ fuel, n ≤ fuel →
        forward_pc envAll fuel scratchA ship0 inner65512 1 2 3 world0 =
          some (0, ship0, w1)) ∧ w1.wire.length = 65536) ∧
    (∃ n w1, (∀ fuel, n ≤ fuel →
        forward_bb envAll fuel scratchA ship0 inner65512 1 2 3 world0 =
          some (0, ship0, w1)) ∧ w1.wire.length = 65536) := by
  have key : ∀ (p : Mem × Nat), p.2 = 65536 →
      ∃ n w1, (∀ fuel, n ≤ fuel →
        send_crypt envAll fuel p.1 ship0 p.2 world0 = some (0, ship0, w1)) ∧
        w1.wire.length = 65536 := by
    intro p hp
    obtain ⟨n, w1, h1, h2, _⟩ :=
      send_raw_accepting envAll p.1 ship0 65536 world0 rfl envAll_accepting
    refine ⟨n, w1, fun fuel hf => ?_, ?_⟩
    · rw [hp, ← h1 fuel hf]
      simp [send_crypt]
    · rw [h2, List.length_append, bytes_length]
      rfl
  exact ⟨by decide, by decide,
    key (forward_dreamcast_pkt scratchA inner65512 1 2 3) (by decide),
    key (forward_pc_pkt scratchA inner65512 1 2 3) (by decide),
    key (forward_bb_pkt scratchA inner65512 1 2 3) (by decide)⟩

/-! ## Quest flags: theorems -/

/-- The two quest-flag fields as written by `send_qflag`, read back
big-endian: `flag_id` holds the 32-bit value built by the source expression,
`flag_id_hi` holds `fid >> 16` truncated to 16 bits. -/
theorem send_qflag_fields (sb : Mem) (type gc block fid qid value ctl : Nat) :
    get32be (send_qflag_pkt sb type gc block fid qid value ctl).1 16 =
      ((fid &&& 0xFFFF) ||| (ctl &&& 0xFFFF0000)) % 4294967296 ∧
    get16be (send_qflag_pkt sb type gc block fid qid value ctl).1 24 =
      (fid >>> 16) % 65536 := by
  have hp : ∀ i, (send_qflag_pkt sb type gc block fid qid value ctl).1 i =
      put32be (put16be (put32be (put32be (put32be (put32be (put16be (put16be (put16be
        (memset sb 0 0 32) 0 32) 2 type) 4 SHDR_RESPONSE) 8 gc) 12 block) 16
        ((fid &&& 0xFFFF) ||| (ctl &&& 0xFFFF0000))) 20 qid) 24 (fid >>> 16)) 28 value i := by
    intro i; rfl
  constructor
  · simp only [get32be, hp]
    simp [put32be, put16be]
    omega
  · simp only [get16be, hp]
    simp [put32be, put16be]
    omega

/-- C9: quest-flag round trip. For every 32-bit identifier `fid` and every
`ctl` that is a subset of `QFLAG_LONG_FLAG` and `QFLAG_DELETE_FLAG`, the value
`lo` that `send_qflag` writes in `flag_id` is the low 16 bits of `fid` plus
`ctl`, the value `hi` it writes in `flag_id_hi` is `fid` shifted right by 16
(both read back big-endian), and the mirrored decode
`((lo & 0xFFFF) | (hi << 16), lo & 0xC0000000)` gives back `(fid, ctl)`. For
`fid = 0x00012345` and `ctl = QFLAG_LONG_FLAG` that is `lo = 0x80002345`,
`hi = 0x0001`. -/
theorem send_qflag_roundtrip (sb : Mem) (type gc block fid qid value ctl : Nat)
    (hf : fid < 4294967296)
    (hc : ctl = 0 ∨ ctl = QFLAG_LONG_FLAG ∨ ctl = QFLAG_DELETE_FLAG ∨
      ctl = QFLAG_LONG_FLAG ||| QFLAG_DELETE_FLAG) :
    get32be (send_qflag_pkt sb type gc block fid qid value ctl).1 16 = fid % 65536 + ctl ∧
    get16be (send_qflag_pkt sb type gc block fid qid value ctl).1 24 = fid / 65536 ∧
    qflag_decode (get32be (send_qflag_pkt sb type gc block fid qid value ctl).1 16)
      (get16be (send_qflag_pkt sb type gc block fid qid value ctl).1 24) = (fid, ctl) := by
  obtain ⟨h1, h2⟩ := send_qflag_fields sb type gc block fid qid value ctl
  have hctl : ctl / 65536 % 65536 * 65536 = ctl ∧ ctl < 4294967296 ∧
      ctl / 1073741824 % 4 * 1073741824 = ctl := by
    rcases hc with h | h | h | h <;> subst h <;> decide
  have hlo : get32be (send_qflag_pkt sb type gc block fid qid value ctl).1 16 =
      fid % 65536 + ctl := by
    rw [h1, and_ffff, and_ffff0000, or_disjoint16 _ _ (Nat.mod_lt _ (by norm_num))]
    omega
  have hhi : get16be (send_qflag_pkt sb type gc block fid qid value ctl).1 24 = fid / 65536 := by
    rw [h2, Nat.shiftRight_eq_div_pow]
    omega
  refine ⟨hlo, hhi, ?_⟩
  rw [hlo, hhi]
  simp only [qflag_decode, and_ffff, and_c0000000, Nat.shiftLeft_eq]
  rw [show (2 : Nat) ^ 16 = 65536 by norm_num, or_disjoint16 _ _ (Nat.mod_lt _ (by norm_num))]
  refine Prod.ext ?_ ?_ <;> simp only <;> omega

/-- Witness of C9: identifier `0x00012345` with the LONG control bit packs to
`flag_id = 0x80002345`, `flag_id_hi = 0x0001` and decodes back. -/
theorem send_qflag_roundtrip_witness :
    get32be (send_qflag_pkt scratchA SHDR_TYPE_QFLAG_SET 1 2 0x00012345 4 5
      QFLAG_LONG_FLAG).1 16 = 0x80002345 ∧
    get16be (send_qflag_pkt scratchA SHDR_TYPE_QFLAG_SET 1 2 0x00012345 4 5
      QFLAG_LONG_FLAG).1 24 = 0x0001 ∧
    qflag_decode
      (get32be (send_qflag_pkt scratchA SHDR_TYPE_QFLAG_SET 1 2 0x00012345 4 5
        QFLAG_LONG_FLAG).1 16)
      (get16be (send_qflag_pkt scratchA SHDR_TYPE_QFLAG_SET 1 2 0x00012345 4 5
        QFLAG_LONG_FLAG).1 24) = (0x00012345, QFLAG_LONG_FLAG) :=
  send_qflag_roundtrip scratchA SHDR_TYPE_QFLAG_SET 1 2 0x00012345 4 5 QFLAG_LONG_FLAG
    (by decide) (Or.inr (Or.inl rfl))

/-- C10 as stated fails: with `fid = 0` and `ctl = 0x00010000` the `flag_id`
field written by `send_qflag` is `0x00010000`, with bit 16 set, and not
`(fid & 0xFFFF) | (ctl & 0xC0000000) = 0`. -/
theorem send_qflag_flag_id_passes_bit16 :
    get32be (send_qflag_pkt scratchA SHDR_TYPE_QFLAG_SET 1 2 0 4 5 0x00010000).1 16 =
      0x00010000 ∧
    ¬ get32be (send_qflag_pkt scratchA SHDR_TYPE_QFLAG_SET 1 2 0 4 5 0x00010000).1 16 =
      ((0 &&& 0xFFFF) ||| (0x00010000 &&& 0xC0000000)) ∧
    (get32be (send_qflag_pkt scratchA SHDR_TYPE_QFLAG_SET 1 2 0 4 5 0x00010000).1 16).testBit 16 =
      true := by
  decide

/-- C10 as amended: for every `fid` and every 32-bit `ctl`, the `flag_id`
field written by `send_qflag` equals `(fid & 0xFFFF) | (ctl & 0xFFFF0000)`:
bits 0-15 are the identifier's low 16 bits, bits 16-31 are those of `ctl`; so
bits 30-31 carry the two control bits and bits 16-29 are those of `ctl`, zero
when `ctl` has none of them set. -/
theorem send_qflag_flag_id_value (sb : Mem) (type gc block fid qid value ctl : Nat)
    (hc : ctl < 4294967296) :
    get32be (send_qflag_pkt sb type gc block fid qid value ctl).1 16 =
      ((fid &&& 0xFFFF) ||| (ctl &&& 0xFFFF0000)) ∧
    get32be (send_qflag_pkt sb type gc block fid qid value ctl).1 16 &&& 0xFFFF =
      fid &&& 0xFFFF ∧
    get32be (send_qflag_pkt sb type gc block fid qid value ctl).1 16 &&& 0xC0000000 =
      ctl &&& 0xC0000000 ∧
    get32be (send_qflag_pkt sb type gc block fid qid value ctl).1 16 &&& 0x3FFF0000 =
      ctl &&& 0x3FFF0000 := by
  obtain ⟨h1, _⟩ := send_qflag_fields sb type gc block fid qid value ctl
  have hv : (fid &&& 0xFFFF) ||| (ctl &&& 0xFFFF0000) =
      fid % 65536 + ctl / 65536 % 65536 * 65536 := by
    rw [and_ffff, and_ffff0000, or_disjoint16 _ _ (Nat.mod_lt _ (by norm_num))]
  have hlo : get32be (send_qflag_pkt sb type gc block fid qid value ctl).1 16 =
      fid % 65536 + ctl / 65536 % 65536 * 65536 := by
    rw [h1, hv]; omega
  refine ⟨by rw [hlo, hv], ?_, ?_, ?_⟩
  · rw [hlo, and_ffff, and_ffff]; omega
  · rw [hlo, and_c0000000, and_c0000000]; omega
  · rw [hlo, and_3fff0000, and_3fff0000]; omega

/-- Witness of the amended C10: `fid = 0x00012345`, `ctl = 0x80010000`. -/
theorem send_qflag_flag_id_value_witness :
    get32be (send_qflag_pkt scratchA SHDR_TYPE_QFLAG_SET 1 2 0x00012345 4 5 0x80010000).1 16 =
      ((0x00012345 &&& 0xFFFF) ||| (0x80010000 &&& 0xFFFF0000)) ∧
    get32be (send_qflag_pkt scratchA SHDR_TYPE_QFLAG_SET 1 2 0x00012345 4 5 0x80010000).1 16
      &&& 0xFFFF = 0x00012345 &&& 0xFFFF ∧
    get32be (send_qflag_pkt scratchA SHDR_TYPE_QFLAG_SET 1 2 0x00012345 4 5 0x80010000).1 16
      &&& 0xC0000000 = 0x80010000 &&& 0xC0000000 ∧
    get32be (send_qflag_pkt scratchA SHDR_TYPE_QFLAG_SET 1 2 0x00012345 4 5 0x80010000).1 16
      &&& 0x3FFF0000 = 0x80010000 &&& 0x3FFF0000 :=
  send_qflag_flag_id_value scratchA SHDR_TYPE_QFLAG_SET 1 2 0x00012345 4 5 0x80010000
    (by decide)

/-! ## Gates and hand-over: helper lemmas -/

/-- With an empty queue `send_crypt` never ends as a silent skip: it fails,
or runs out of fuel, or has called the transport. -/
theorem send_crypt_not_skip (env : Env) (fuel : Nat) (sb : Mem) (c : ship_t) (len : Int)
    (w : World) (hq : c.sendbuf_cur = 0) :
    send_crypt env fuel sb c len w ≠ some (0, c, w) := by
  by_cases h8 : len < 8
  · simp [send_crypt, h8]
  · simp only [send_crypt, h8, if_false]
    rw [send_raw_empty env fuel sb c len w hq]
    cases hl : send_loop env sb len fuel 0 w with
    | none => simp
    | some p =>
      obtain ⟨r, w1⟩ := p
      obtain ⟨calls, hc, _, _, hhead⟩ := send_loop_trace env sb len fuel 0 w r w1 hl
      obtain ⟨rest, hr⟩ := hhead (by omega)
      have hw : w1 ≠ w := by
        intro e
        rw [e, hr] at hc
        have := congrArg List.length hc
        simp at this
      cases r with
      | none => simp
      | some t =>
        simp only [ne_eq, Option.some.injEq, Prod.mk.injEq, not_and]
        intro _ _
        exact hw

/-- A packet of at least 8 bytes handed to `send_crypt` on a connection with
an empty queue and a behaving transport is transmitted whole. -/
theorem send_crypt_transmits (env : Env) (sb : Mem) (c : ship_t) (len : Nat) (w : World)
    (h8 : 8 ≤ len) (hq : c.sendbuf_cur = 0) (hacc : Accepting env) :
    ∃ n w1, (∀ fuel, n ≤ fuel → send_crypt env fuel sb c len w = some (0, c, w1)) ∧
      w1.wire = w.wire ++ bytes sb 0 len := by
  obtain ⟨n, w1, h1, h2, _⟩ := send_raw_accepting env sb c len w hq hacc
  refine ⟨n, w1, fun fuel hf => ?_, h2⟩
  have : ¬ (len : Int) < 8 := by omega
  simp only [send_crypt, this, if_false]
  exact h1 fuel hf

theorem gated_of_ite (skip : Prop) [Decidable skip] (env : Env) (fuel : Nat) (sb : Mem)
    (c : ship_t) (len : Int) (w : World) :
    Gated skip c w (if skip then some (0, c, w) else send_crypt env fuel sb c len w)
      (send_crypt env fuel sb c len w) := by
  refine ⟨fun h => by simp [h], fun h => by simp [h], fun hq => ⟨fun h => ?_, fun h => by simp [h]⟩⟩
  by_contra hs
  rw [if_neg hs] at h
  exact send_crypt_not_skip env fuel sb c len w hq h

/-! ## Host-order fields: read after write -/

theorem get16host_put16host (e : Endian) (m : Mem) (off v : Nat) :
    get16host e (put16host e m off v) off = v % 65536 := by
  cases e <;> simp [get16host, put16host, put16be] <;> omega

theorem get32host_put32host (e : Endian) (m : Mem) (off v : Nat) :
    get32host e (put32host e m off v) off = v % 4294967296 := by
  cases e <;> simp [get32host, put32host, put32be] <;> omega

theorem put16host_other (e : Endian) (m : Mem) (off v i : Nat) (h : i < off ∨ off + 2 ≤ i) :
    put16host e m off v i = m i := by
  have h1 : i ≠ off := by omega
  have h2 : i ≠ off + 1 := by omega
  cases e <;> simp [put16host, put16be, h1, h2]

theorem put32host_other (e : Endian) (m : Mem) (off v i : Nat) (h : i < off ∨ off + 4 ≤ i) :
    put32host e m off v i = m i := by
  have h1 : i ≠ off := by omega
  have h2 : i ≠ off + 1 := by omega
  have h3 : i ≠ off + 2 := by omega
  have h4 : i ≠ off + 3 := by omega
  cases e <;> simp [put32host, put32be, h1, h2, h3, h4]

theorem put16be_other (m : Mem) (off v i : Nat) (h : i < off ∨ off + 2 ≤ i) :
    put16be m off v i = m i := by
  have h1 : i ≠ off := by omega
  have h2 : i ≠ off + 1 := by omega
  simp [put16be, h1, h2]

theorem put32be_other (m : Mem) (off v i : Nat) (h : i < off ∨ off + 4 ≤ i) :
    put32be m off v i = m i := by
  have h1 : i ≠ off := by omega
  have h2 : i ≠ off + 1 := by omega
  have h3 : i ≠ off + 2 := by omega
  have h4 : i ≠ off + 3 := by omega
  simp [put32be, h1, h2, h3, h4]

theorem put8_other (m : Mem) (off v i : Nat) (h : i ≠ off) : put8 m off v i = m i := by
  simp [put8, h]

theorem memcpy_other (dst : Mem) (doff : Nat) (src : Mem) (soff n i : Nat)
    (h : i < doff ∨ doff + n ≤ i) : memcpy dst doff src soff n i = dst i := by
  have : ¬ (doff ≤ i ∧ i < doff + n) := by omega
  simp [memcpy, this]

theorem memcpy_inside (dst : Mem) (doff : Nat) (src : Mem) (soff n i : Nat)
    (h1 : doff ≤ i) (h2 : i < doff + n) :
    memcpy dst doff src soff n i = src (soff + (i - doff)) := by
  simp [memcpy, h1, h2]

theorem memset_inside (m : Mem) (off v n i : Nat) (h1 : off ≤ i) (h2 : i < off + n) :
    memset m off v n i = v % 256 := by
  simp [memset, h1, h2]

theorem memset_other (m : Mem) (off v n i : Nat) (h : i < off ∨ off + n ≤ i) :
    memset m off v n i = m i := by
  have : ¬ (off ≤ i ∧ i < off + n) := by omega
  simp [memset, this]

theorem get16host_congr (e : Endian) (m m' : Mem) (off : Nat)
    (h0 : m' off = m off) (h1 : m' (off + 1) = m (off + 1)) :
    get16host e m' off = get16host e m off := by
  cases e <;> simp [get16host, h0, h1]

theorem get32host_congr (e : Endian) (m m' : Mem) (off : Nat)
    (h : ∀ i, off ≤ i → i < off + 4 → m' i = m i) :
    get32host e m' off = get32host e m off := by
  have h0 := h off (by omega) (by omega)
  have h1 := h (off + 1) (by omega) (by omega)
  have h2 := h (off + 2) (by omega) (by omega)
  have h3 := h (off + 3) (by omega) (by omega)
  cases e <;> simp [get32host, h0, h1, h2, h3]

theorem get32be_put32be (m : Mem) (off v : Nat) :
    get32be (put32be m off v) off = v % 4294967296 := by
  simp [get32be, put32be]; omega

theorem get16be_put16be (m : Mem) (off v : Nat) :
    get16be (put16be m off v) off = v % 65536 := by
  simp [get16be, put16be]; omega

theorem bytes_put32be (m : Mem) (off v : Nat) : bytes (put32be m off v) off 4 = be32 v := by
  simp [bytes_four, put32be, be32]

theorem bytes_put16be (m : Mem) (off v : Nat) : bytes (put16be m off v) off 2 = be16 v := by
  simp [bytes_two, put16be, be16]

theorem get16host_lt (e : Endian) (m : Mem) (off : Nat) : get16host e m off < 65536 := by
  cases e <;> simp only [get16host] <;> omega

theorem user_options_begin_count (e : Endian) (sb : Mem) (g b : Nat) :
    get32host e (user_options_begin e sb g b).1 16 = 0 ∧
    get16host e (user_options_begin e sb g b).1 0 = 24 ∧
    (user_options_begin e sb g b).2 = 24 := by
  refine ⟨?_, ?_, rfl⟩
  · show get32host e (put32host e (put32host e _ 16 0) 20 0) 16 = 0
    rw [get32host_congr e (put32host e _ 16 0) _ 16
      (fun i h1 h2 => put32host_other e _ 20 0 i (by omega)), get32host_put32host]
  · cases e <;>
      simp [user_options_begin, get16host, put32host, put16host, put32be, put16be, put8,
        sizeof_shipgate_user_opt_pkt, sizeof_shipgate_hdr_t]

theorem user_blocklist_begin_count (e : Endian) (sb : Mem) (g b : Nat) :
    get32host e (user_blocklist_begin e sb g b) 16 = 0 ∧
    get16host e (user_blocklist_begin e sb g b) 0 = 24 := by
  refine ⟨?_, ?_⟩
  · show get32host e (put32host e (put32host e _ 16 0) 20 0) 16 = 0
    rw [get32host_congr e (put32host e _ 16 0) _ 16
      (fun i h1 h2 => put32host_other e _ 20 0 i (by omega)), get32host_put32host]
  · cases e <;>
      simp [user_blocklist_begin, get16host, put32host, put16host, put32be, put16be, put8,
        sizeof_shipgate_user_blocklist_pkt, sizeof_shipgate_hdr_t]

/-! ## Login reply, gates, empty builders, status broadcast: theorems -/

theorem and_ff (x : Nat) : x &&& 0xFF = x % 256 := Nat.and_pow_two_sub_one_eq_mod x 8

/-- C11: the login reply built by `send_usrloginreply` is 24 bytes, and its
`priv` field at offsets 16-19 is, for `proto_ver < 18`, the big-endian
encoding of `p << 24` truncated to 32 bits, that is the bytes
`[p & 0xFF, 0, 0, 0]`, and for `proto_ver >= 18` the big-endian encoding of
the 32-bit `p`; for `p < 256` the first byte a legacy peer reads is `p`. -/
theorem send_usrloginreply_priv (sb : Mem) (c : ship_t) (gc block : Nat) (good : Int)
    (p : Nat) :
    (send_usrloginreply_pkt sb c gc block good p).2 = 24 ∧
    (c.proto_ver < 18 →
      bytes (send_usrloginreply_pkt sb c gc block good p).1 16 4 =
        be32 ((p <<< 24) % 4294967296) ∧
      bytes (send_usrloginreply_pkt sb c gc block good p).1 16 4 = [p &&& 0xFF, 0, 0, 0]) ∧
    (18 ≤ c.proto_ver →
      bytes (send_usrloginreply_pkt sb c gc block good p).1 16 4 = be32 p) ∧
    (c.proto_ver < 18 → p < 256 → (send_usrloginreply_pkt sb c gc block good p).1 16 = p) := by
  refine ⟨rfl, ?_, ?_, ?_⟩
  · intro h
    have hb : bytes (send_usrloginreply_pkt sb c gc block good p).1 16 4 =
        be32 ((p <<< 24) % 4294967296) := by
      simp only [send_usrloginreply_pkt, h, if_true]
      exact bytes_put32be _ _ _
    refine ⟨hb, ?_⟩
    rw [hb, and_ff, Nat.shiftLeft_eq]
    simp only [be32, List.cons.injEq, and_true]
    refine ⟨?_, ?_, ?_, ?_⟩ <;> omega
  · intro h
    have h' : ¬ c.proto_ver < 18 := by omega
    simp only [send_usrloginreply_pkt, h', if_false]
    exact bytes_put32be _ _ _
  · intro h hp
    simp only [send_usrloginreply_pkt, h, if_true]
    simp only [put32be, if_true, Nat.shiftLeft_eq]
    omega

/-- C12: below protocol version 16 or without `LOGIN_FLAG_LUA`, `send_script`,
`send_script_check`, `send_sset` and `send_sdata` return 0 with connection
and world unchanged (no transport write, nothing queued); with version at
least 16 and the flag set, `send_script_check` hands a packet of exactly 56
bytes to `send_raw`. -/
theorem script_gate (env : Env) (fuel : Nat) (sb : Mem) (c : ship_t) (scr : ship_script_t)
    (file : Option (List Nat)) (action : Nat) (oscr : Option ship_script_t)
    (gc block event : Nat) (data : Mem) (len : Nat) (w : World) :
    ((c.proto_ver < 16 ∨ c.flags &&& LOGIN_FLAG_LUA = 0) →
      send_script env fuel sb c scr file w = some (0, c, w) ∧
      send_script_check env fuel sb c scr w = some (0, c, w) ∧
      send_sset env fuel sb c action oscr w = some (0, c, w) ∧
      send_sdata env fuel sb c gc block event data len w = some (0, c, w)) ∧
    ((16 ≤ c.proto_ver ∧ c.flags &&& LOGIN_FLAG_LUA ≠ 0) →
      (send_script_check_pkt sb scr).2 = 56 ∧
      send_script_check env fuel sb c scr w =
        send_raw env fuel (send_script_check_pkt sb scr).1 c 56 w) := by
  constructor
  · intro h
    simp [send_script, send_script_check, send_sset, send_sdata, h]
  · intro h
    have hg : ¬ (c.proto_ver < 16 ∨ c.flags &&& LOGIN_FLAG_LUA = 0) := by
      intro hh
      rcases hh with hh | hh
      · omega
      · exact h.2 hh
    refine ⟨rfl, ?_⟩
    simp only [send_script_check, hg, if_false]
    rfl

/-- Witness of C12: at version 14 the four calls return 0 and nothing is
sent; at version 17 with the flag, the check packet of 56 bytes reaches a
transport that accepts everything. -/
theorem script_gate_witness :
    (send_script envAll 3 scratchA shipV14 scriptA none world0 = some (0, shipV14, world0) ∧
      send_script_check envAll 3 scratchA shipV14 scriptA world0 = some (0, shipV14, world0) ∧
      send_sset envAll 3 scratchA shipV14 1 none world0 = some (0, shipV14, world0) ∧
      send_sdata envAll 3 scratchA shipV14 1 2 3 scratchB 10 world0 =
        some (0, shipV14, world0)) ∧
    ((send_script_check_pkt scratchA scriptA).2 = 56 ∧
      send_script_check envAll 3 scratchA shipV17Lua scriptA world0 =
        send_raw envAll 3 (send_script_check_pkt scratchA scriptA).1 shipV17Lua 56 world0) ∧
    (send_script_check envAll 3 scratchA shipV17Lua scriptA world0).map
        (fun r => (r.1, r.2.2.wire.length)) = some (0, 56) :=
  ⟨(script_gate envAll 3 scratchA shipV14 scriptA none 1 none 1 2 3 scratchB 10 world0).1
      (Or.inl (by decide)),
   (script_gate envAll 3 scratchA shipV17Lua scriptA none 1 none 1 2 3 scratchB 10 world0).2
      ⟨by decide, by decide⟩,
   by decide⟩

/-- C13: with `LOGIN_FLAG_LUA` set and `16 <= proto_ver <= 19`,
`send_script_delete` returns 0 with connection and world unchanged while
`send_script_check` hands a 56-byte packet to `send_raw`; with the flag set
and `proto_ver >= 20`, `send_script_delete` hands a 56-byte packet to
`send_raw`; without the flag it returns 0 with nothing sent at any version. -/
theorem script_delete_gate (env : Env) (fuel : Nat) (sb : Mem) (c : ship_t)
    (scr : ship_script_t) (w : World) :
    ((c.flags &&& LOGIN_FLAG_LUA ≠ 0 ∧ 16 ≤ c.proto_ver ∧ c.proto_ver ≤ 19) →
      send_script_delete env fuel sb c scr w = some (0, c, w) ∧
      send_script_check env fuel sb c scr w =
        send_raw env fuel (send_script_check_pkt sb scr).1 c 56 w) ∧
    ((c.flags &&& LOGIN_FLAG_LUA ≠ 0 ∧ 20 ≤ c.proto_ver) →
      (send_script_delete_pkt sb scr).2 = 56 ∧
      send_script_delete env fuel sb c scr w =
        send_raw env fuel (send_script_delete_pkt sb scr).1 c 56 w) ∧
    (c.flags &&& LOGIN_FLAG_LUA = 0 →
      send_script_delete env fuel sb c scr w = some (0, c, w)) := by
  refine ⟨?_, ?_, ?_⟩
  · intro h
    have h20 : c.proto_ver < 20 := by omega
    have hg : ¬ (c.proto_ver < 16 ∨ c.flags &&& LOGIN_FLAG_LUA = 0) := by
      intro hh
      rcases hh with hh | hh
      · omega
      · exact h.1 hh
    refine ⟨by simp [send_script_delete, h20], ?_⟩
    simp only [send_script_check, hg, if_false]
    rfl
  · intro h
    have hg : ¬ (c.proto_ver < 20 ∨ c.flags &&& LOGIN_FLAG_LUA = 0) := by
      intro hh
      rcases hh with hh | hh
      · omega
      · exact h.1 hh
    refine ⟨rfl, ?_⟩
    simp only [send_script_delete, hg, if_false]
    rfl
  · intro h
    simp [send_script_delete, h]

/-- Witness of C13: at version 17 with the flag the delete is skipped and
the check is sent; at version 20 the delete packet of 56 bytes is sent. -/
theorem script_delete_gate_witness :
    (send_script_delete envAll 3 scratchA shipV17Lua scriptA world0 =
        some (0, shipV17Lua, world0) ∧
      send_script_check envAll 3 scratchA shipV17Lua scriptA world0 =
        send_raw envAll 3 (send_script_check_pkt scratchA scriptA).1 shipV17Lua 56 world0) ∧
    ((send_script_delete_pkt scratchA scriptA).2 = 56 ∧
      send_script_delete envAll 3 scratchA shipV20Lua scriptA world0 =
        send_raw envAll 3 (send_script_delete_pkt scratchA scriptA).1 shipV20Lua 56 world0) ∧
    (send_script_delete envAll 3 scratchA shipV20Lua scriptA world0).map
        (fun r => (r.1, r.2.2.wire.length)) = some (0, 56) :=
  ⟨(script_delete_gate envAll 3 scratchA shipV17Lua scriptA world0).1
      ⟨by decide, by decide, by decide⟩,
   (script_delete_gate envAll 3 scratchA shipV20Lua scriptA world0).2.1
      ⟨by decide, by decide⟩,
   by decide⟩

/-- C15: for both builders, begin followed at once by finish
(`user_options_begin` then `send_user_options`, `user_blocklist_begin` then
`send_user_blocklist`) returns 0 with connection and world unchanged, so no
transport write is made and nothing is queued, for every owner id, block,
connection, host byte order and prior scratch content. -/
theorem builders_empty_finish (e : Endian) (env : Env) (fuel : Nat) (sb : Mem) (c : ship_t)
    (w : World) (g b : Nat) :
    send_user_options e env fuel (user_options_begin e sb g b).1 c w = some (0, c, w) ∧
    send_user_blocklist e env fuel (user_blocklist_begin e sb g b) c w = some (0, c, w) := by
  constructor
  · simp [send_user_options, (user_options_begin_count e sb g b).1]
  · simp [send_user_blocklist, (user_blocklist_begin_count e sb g b).1]

/-- C19: for every destination connection, status and ship `o`,
`send_ship_status` is a silent skip (returns 0, connection and world
unchanged) when the first byte of `o`'s name is 0, and otherwise hands one
packet of 64 bytes to `send_raw`; on a connection with an empty queue the
skip happens exactly for the empty name. -/
theorem send_ship_status_name_gate (env : Env) (fuel : Nat) (sb : Mem) (c o : ship_t)
    (status : Nat) (w : World) :
    Gated (o.name 0 = 0) c w (send_ship_status env fuel sb c o status w)
      (send_crypt env fuel (send_ship_status_pkt sb o status).1 c 64 w) ∧
    (o.name 0 ≠ 0 →
      send_ship_status env fuel sb c o status w =
        send_raw env fuel (send_ship_status_pkt sb o status).1 c 64 w) := by
  refine ⟨gated_of_ite (o.name 0 = 0) env fuel _ c _ w, ?_⟩
  intro h
  simp only [send_ship_status, h, if_false]
  rfl

/-- Witness of C19: the ship with an empty name gives no packet, the ship
`TestShip` gives 64 bytes on the wire. -/
theorem send_ship_status_name_gate_witness :
    send_ship_status envAll 3 scratchA ship0 ship0 1 world0 = some (0, ship0, world0) ∧
    send_ship_status envAll 3 scratchA ship0 shipTest 1 world0 =
      send_raw envAll 3 (send_ship_status_pkt scratchA shipTest 1).1 ship0 64 world0 ∧
    (send_ship_status envAll 3 scratchA ship0 shipTest 1 world0).map
        (fun r => (r.1, r.2.2.wire.length)) = some (0, 64) :=
  ⟨(send_ship_status_name_gate envAll 3 scratchA ship0 ship0 1 world0).1.1 (by decide),
   (send_ship_status_name_gate envAll 3 scratchA ship0 shipTest 1 world0).2 (by decide),
   by decide⟩

/-- C20: status-broadcast round trip. For every ship `o` with a non-empty
name (and 16-bit clients, games and status, 32-bit key index and
privileges), the packet built by `send_ship_status` is the one handed on,
is exactly 64 bytes with declared length 64 and type 0x0012, and the mirrored
decode (name at 8-19, clients at 52-53, games at 54-55, ship id at 20-23,
status at 50-51, privileges at 60-63) gives back `o.name`, `o.clients`,
`o.games`, `o.key_idx`, `status` and `o.privileges`. -/
theorem send_ship_status_roundtrip (env : Env) (fuel : Nat) (sb : Mem) (c o : ship_t)
    (status : Nat) (w : World) (hname : o.name 0 ≠ 0)
    (hcl : o.clients < 65536) (hg : o.games < 65536) (hk : o.key_idx < 4294967296)
    (hs : status < 65536) (hp : o.privileges < 4294967296) :
    send_ship_status env fuel sb c o status w =
      send_crypt env fuel (send_ship_status_pkt sb o status).1 c 64 w ∧
    (send_ship_status_pkt sb o status).2 = 64 ∧
    get16be (send_ship_status_pkt sb o status).1 0 = 64 ∧
    get16be (send_ship_status_pkt sb o status).1 2 = 0x0012 ∧
    ship_status_decode (send_ship_status_pkt sb o status).1 =
      (bytes o.name 0 12, o.clients, o.games, o.key_idx, status, o.privileges) := by
  refine ⟨?_, rfl, ?_, ?_, ?_⟩
  · simp only [send_ship_status, hname, if_false]
    rfl
  · simp [get16be, send_ship_status_pkt, memcpy, put32be, put16be, put8, memset,
      sizeof_shipgate_ship_status6_pkt, sizeof_shipgate_hdr_t]
  · simp [get16be, send_ship_status_pkt, memcpy, put32be, put16be, put8, memset,
      sizeof_shipgate_ship_status6_pkt, sizeof_shipgate_hdr_t, SHDR_TYPE_SSTATUS]
  · have hn : bytes (send_ship_status_pkt sb o status).1 8 12 = bytes o.name 0 12 := by
      apply bytes_congr
      intro i hi
      simp only [send_ship_status_pkt]
      rw [put32be_other, put8_other, put16be_other, put16be_other, put16be_other,
        put32be_other, put16be_other, put16be_other, memcpy_other, memcpy_other,
        put32be_other, memcpy_inside]
      · congr 1
        omega
      all_goals omega
    simp only [ship_status_decode, hn, Prod.mk.injEq, true_and]
    refine ⟨?_, ?_, ?_, ?_, ?_⟩
    · simp [get16be, send_ship_status_pkt, memcpy, put32be, put16be, put8]; omega
    · simp [get16be, send_ship_status_pkt, memcpy, put32be, put16be, put8]; omega
    · simp [get32be, send_ship_status_pkt, memcpy, put32be, put16be, put8]; omega
    · simp [get16be, send_ship_status_pkt, memcpy, put32be, put16be, put8]; omega
    · simp [get32be, send_ship_status_pkt, memcpy, put32be, put16be, put8]; omega

/-- Witness of C20: the ship named `TestShip` (padded with zero bytes) with 5
clients and 2 games: the decode returns name, 5, 2, the key index 7, the
status 1 and the privileges 3. -/
theorem send_ship_status_roundtrip_witness :
    bytes shipTest.name 0 12 = [84, 101, 115, 116, 83, 104, 105, 112, 0, 0, 0, 0] ∧
    (send_ship_status envAll 3 scratchA ship0 shipTest 1 world0 =
      send_crypt envAll 3 (send_ship_status_pkt scratchA shipTest 1).1 ship0 64 world0 ∧
    (send_ship_status_pkt scratchA shipTest 1).2 = 64 ∧
    get16be (send_ship_status_pkt scratchA shipTest 1).1 0 = 64 ∧
    get16be (send_ship_status_pkt scratchA shipTest 1).1 2 = 0x0012 ∧
    ship_status_decode (send_ship_status_pkt scratchA shipTest 1).1 =
      (bytes shipTest.name 0 12, 5, 2, 7, 1, 3)) :=
  ⟨by decide,
   send_ship_status_roundtrip envAll 3 scratchA ship0 shipTest 1 world0 (by decide)
    (by decide) (by decide) (by decide) (by decide) (by decide)⟩

/-! ## The block list builder: lemmas -/

/-- One `user_blocklist_append` on a buffer whose `count` reads `k`: the
count and the host-order length grow, the entry lies at `24 + 8k`, and
nothing else changes outside the two counters. -/
theorem user_blocklist_append_spec (e : Endian) (m : Mem) (gc flags : Nat) :
    get32host e (user_blocklist_append e m gc flags) 16 =
      (get32host e m 16 + 1) % 4294967296 ∧
    get16host e (user_blocklist_append e m gc flags) 0 = (get16host e m 0 + 8) % 65536 ∧
    (∀ i, (2 ≤ i ∧ i < 16) ∨ (20 ≤ i ∧ i < 24 + 8 * get32host e m 16) ∨
        24 + 8 * get32host e m 16 + 8 ≤ i →
      user_blocklist_append e m gc flags i = m i) ∧
    bytes (user_blocklist_append e m gc flags) (24 + 8 * get32host e m 16) 4 = be32 gc ∧
    bytes (user_blocklist_append e m gc flags) (24 + 8 * get32host e m 16 + 4) 4 =
      be32 flags := by
  set k := get32host e m 16 with hk
  set m1 := put32be m (24 + 8 * k) gc with hm1
  set m2 := put32be m1 (24 + 8 * k + 4) flags with hm2
  set m3 := put16host e m2 0 (get16host e m2 0 + 8) with hm3
  have hdef : user_blocklist_append e m gc flags =
      put32host e m3 16 (get32host e m3 16 + 1) := rfl
  have h2 : ∀ i, i < 24 → m2 i = m i := by
    intro i hi
    rw [hm2, put32be_other _ _ _ _ (by omega), hm1, put32be_other _ _ _ _ (by omega)]
  have h3 : ∀ i, 2 ≤ i → m3 i = m2 i := by
    intro i hi
    rw [hm3, put16host_other _ _ _ _ _ (by omega)]
  have hc3 : get32host e m3 16 = k := by
    rw [hk]
    apply get32host_congr
    intro i hi1 hi2
    rw [h3 i (by omega), h2 i (by omega)]
  have hl2 : get16host e m2 0 = get16host e m 0 :=
    get16host_congr e m m2 0 (h2 0 (by omega)) (h2 1 (by omega))
  rw [hdef]
  refine ⟨?_, ?_, ?_, ?_, ?_⟩
  · rw [get32host_put32host, hc3]
  · rw [get16host_congr e m3 _ 0 (put32host_other e _ 16 _ 0 (by omega))
      (put32host_other e _ 16 _ 1 (by omega)), hm3, get16host_put16host, hl2]
  · intro i hi
    rw [put32host_other e _ 16 _ i (by omega), h3 i (by omega), hm2,
      put32be_other _ _ _ _ (by omega), hm1, put32be_other _ _ _ _ (by omega)]
  · have : ∀ j, j < 4 → (put32host e m3 16 (get32host e m3 16 + 1)) (24 + 8 * k + j) =
        m1 (24 + 8 * k + j) := by
      intro j hj
      rw [put32host_other e _ 16 _ _ (by omega), h3 _ (by omega), hm2,
        put32be_other _ _ _ _ (by omega)]
    rw [← bytes_put32be m (24 + 8 * k) gc]
    apply bytes_congr
    intro j hj
    exact this j hj
  · have : ∀ j, j < 4 → (put32host e m3 16 (get32host e m3 16 + 1)) (24 + 8 * k + 4 + j) =
        m2 (24 + 8 * k + 4 + j) := by
      intro j hj
      rw [put32host_other e _ 16 _ _ (by omega), h3 _ (by omega)]
    rw [← bytes_put32be m1 (24 + 8 * k + 4) flags]
    apply bytes_congr
    intro j hj
    exact this j hj

theorem BlocksAt_congr (m m' : Mem) :
    ∀ (es : List (Nat × Nat)) (off : Nat),
      (∀ i, off ≤ i → i < off + 8 * es.length → m' i = m i) →
      BlocksAt m off es → BlocksAt m' off es := by
  intro es
  induction es with
  | nil => intro off _ _; trivial
  | cons x rest ih =>
    intro off h hb
    obtain ⟨gc, flags⟩ := x
    obtain ⟨h1, h2, h3⟩ := hb
    simp only [List.length_cons] at h
    refine ⟨?_, ?_, ih (off + 8) (fun i hi1 hi2 => h i (by omega) (by omega)) h3⟩
    · rw [← h1]
      exact bytes_congr _ _ _ _ _ (fun j hj => h _ (by omega) (by omega))
    · rw [← h2]
      exact bytes_congr _ _ _ _ _ (fun j hj => h _ (by omega) (by omega))

/-- A chain of appends on a buffer whose `count` reads `k`. -/
theorem user_blocklist_appends_spec (e : Endian) :
    ∀ (es : List (Nat × Nat)) (m : Mem), get32host e m 16 + es.length < 4294967296 →
      get32host e (user_blocklist_appends e m es) 16 = get32host e m 16 + es.length ∧
      get16host e (user_blocklist_appends e m es) 0 =
        (get16host e m 0 + 8 * es.length) % 65536 ∧
      (∀ i, (2 ≤ i ∧ i < 16) ∨ (20 ≤ i ∧ i < 24 + 8 * get32host e m 16) →
        user_blocklist_appends e m es i = m i) ∧
      BlocksAt (user_blocklist_appends e m es) (24 + 8 * get32host e m 16) es := by
  intro es
  induction es with
  | nil =>
    intro m _
    refine ⟨by simp [user_blocklist_appends], ?_, fun i _ => rfl, trivial⟩
    simp only [user_blocklist_appends, List.length_nil, Nat.mul_zero, Nat.add_zero]
    exact (Nat.mod_eq_of_lt (get16host_lt e m 0)).symm
  | cons x rest ih =>
    intro m hlt
    obtain ⟨gc, flags⟩ := x
    simp only [List.length_cons] at hlt
    obtain ⟨s1, s2, s3, s4, s5⟩ := user_blocklist_append_spec e m gc flags
    have hk1 : get32host e (user_blocklist_append e m gc flags) 16 = get32host e m 16 + 1 := by
      rw [s1]; exact Nat.mod_eq_of_lt (by omega)
    obtain ⟨t1, t2, t3, t4⟩ := ih (user_blocklist_append e m gc flags) (by rw [hk1]; omega)
    rw [hk1] at t1 t3 t4
    simp only [user_blocklist_appends, List.length_cons]
    refine ⟨by rw [t1]; omega, ?_, ?_, ?_, ?_, ?_⟩
    · rw [t2, s2]; omega
    · intro i hi
      rw [t3 i (by omega), s3 i (by omega)]
    · rw [← s4]
      exact bytes_congr _ _ _ _ _ (fun j hj => t3 _ (by omega))
    · rw [← s5]
      exact bytes_congr _ _ _ _ _ (fun j hj => t3 _ (by omega))
    · have : 24 + 8 * get32host e m 16 + 8 = 24 + 8 * (get32host e m 16 + 1) := by omega
      rw [this]
      exact t4

theorem BlocksAt_get (m : Mem) :
    ∀ (es : List (Nat × Nat)) (off : Nat), BlocksAt m off es →
      ∀ (i : Nat) (hi : i < es.length),
        bytes m (off + 8 * i) 4 = be32 (es.get ⟨i, hi⟩).1 ∧
        bytes m (off + 8 * i + 4) 4 = be32 (es.get ⟨i, hi⟩).2 := by
  intro es
  induction es with
  | nil => intro off _ i hi; simp at hi
  | cons x rest ih =>
    intro off hb i hi
    obtain ⟨gc, flags⟩ := x
    obtain ⟨h1, h2, h3⟩ := hb
    cases i with
    | zero => exact ⟨by simpa using h1, by simpa using h2⟩
    | succ j =>
      have hj : j < rest.length := by simpa using hi
      have := ih (off + 8) h3 j hj
      have e1 : off + 8 * (j + 1) = off + 8 + 8 * j := by omega
      simpa [e1] using this

theorem user_blocklist_begin_bytes (e : Endian) (sb : Mem) (g b : Nat) :
    bytes (user_blocklist_begin e sb g b) 2 2 = be16 SHDR_TYPE_UBLOCKS ∧
    bytes (user_blocklist_begin e sb g b) 8 4 = be32 g ∧
    bytes (user_blocklist_begin e sb g b) 12 4 = be32 b := by
  refine ⟨?_, ?_, ?_⟩ <;> cases e <;>
    simp [user_blocklist_begin, bytes_two, bytes_four, be16, be32, put32host, put16host,
      put32be, put16be, put8]

/-! ## The block list builder: theorem -/

/-- C16: for every list of `n` pairs `(gc, flags)` with `1 <= n <= 8188`,
`user_blocklist_begin(g, b)`, the `n` calls of `user_blocklist_append` in
order and `send_user_blocklist` on a connection with `proto_ver >= 19` hand
one packet of `24 + 8n` bytes to `send_raw`; its bytes 0-1 hold `24 + 8n`
big-endian, its type is 0x0031, `g` and `b` are big-endian at offsets 8 and
12, the count at offset 16 is `n` big-endian, and the entry number `i` at
offset `24 + 8i` is the `i`-th pair's `gc` then `flags`, each big-endian. -/
theorem user_blocklist_packet (e : Endian) (env : Env) (fuel : Nat) (sb : Mem) (c : ship_t)
    (w : World) (g b : Nat) (es : List (Nat × Nat))
    (hn1 : 1 ≤ es.length) (hn : es.length ≤ 8188) (hver : 19 ≤ c.proto_ver) :
    send_user_blocklist e env fuel
        (user_blocklist_appends e (user_blocklist_begin e sb g b) es) c w =
      send_raw env fuel
        (send_user_blocklist_pkt e
          (user_blocklist_appends e (user_blocklist_begin e sb g b) es)).1 c
        ((24 + 8 * es.length : Nat) : Int) w ∧
    (send_user_blocklist_pkt e
      (user_blocklist_appends e (user_blocklist_begin e sb g b) es)).2 = 24 + 8 * es.length ∧
    bytes (send_user_blocklist_pkt e
      (user_blocklist_appends e (user_blocklist_begin e sb g b) es)).1 0 2 =
        be16 (24 + 8 * es.length) ∧
    get16be (send_user_blocklist_pkt e
      (user_blocklist_appends e (user_blocklist_begin e sb g b) es)).1 0 =
        24 + 8 * es.length ∧
    bytes (send_user_blocklist_pkt e
      (user_blocklist_appends e (user_blocklist_begin e sb g b) es)).1 2 2 = be16 0x0031 ∧
    bytes (send_user_blocklist_pkt e
      (user_blocklist_appends e (user_blocklist_begin e sb g b) es)).1 8 4 = be32 g ∧
    bytes (send_user_blocklist_pkt e
      (user_blocklist_appends e (user_blocklist_begin e sb g b) es)).1 12 4 = be32 b ∧
    bytes (send_user_blocklist_pkt e
      (user_blocklist_appends e (user_blocklist_begin e sb g b) es)).1 16 4 =
        be32 es.length ∧
    get32be (send_user_blocklist_pkt e
      (user_blocklist_appends e (user_blocklist_begin e sb g b) es)).1 16 = es.length ∧
    ∀ (i : Nat) (hi : i < es.length),
      bytes (send_user_blocklist_pkt e
        (user_blocklist_appends e (user_blocklist_begin e sb g b) es)).1 (24 + 8 * i) 4 =
          be32 (es.get ⟨i, hi⟩).1 ∧
      bytes (send_user_blocklist_pkt e
        (user_blocklist_appends e (user_blocklist_begin e sb g b) es)).1 (24 + 8 * i + 4) 4 =
          be32 (es.get ⟨i, hi⟩).2 := by
  obtain ⟨b1, b2⟩ := user_blocklist_begin_count e sb g b
  obtain ⟨y1, y2, y3⟩ := user_blocklist_begin_bytes e sb g b
  obtain ⟨t1, t2, t3, t4⟩ := user_blocklist_appends_spec e es (user_blocklist_begin e sb g b)
    (by rw [b1]; omega)
  set m := user_blocklist_appends e (user_blocklist_begin e sb g b) es with hm
  rw [b1] at t1 t3 t4
  rw [b2] at t2
  have hlen : get16host e m 0 = 24 + 8 * es.length := by
    rw [t2]; exact Nat.mod_eq_of_lt (by omega)
  have hcnt : get32host e m 16 = es.length := by rw [t1]; omega
  have hpkt : send_user_blocklist_pkt e m =
      (put32be (put16be m 0 (24 + 8 * es.length)) 16
        (get32host e (put16be m 0 (24 + 8 * es.length)) 16), 24 + 8 * es.length) := by
    simp only [send_user_blocklist_pkt, hlen]
  have hcnt2 : get32host e (put16be m 0 (24 + 8 * es.length)) 16 = es.length := by
    rw [← hcnt]
    exact get32host_congr e m _ 16 (fun i h1 h2 => put16be_other _ _ _ _ (by omega))
  rw [hpkt, hcnt2]
  simp only []
  have hother : ∀ i, (2 ≤ i ∧ i < 16) ∨ 20 ≤ i →
      put32be (put16be m 0 (24 + 8 * es.length)) 16 es.length i = m i := by
    intro i hi
    rw [put32be_other _ _ _ _ (by omega), put16be_other _ _ _ _ (by omega)]
  refine ⟨?_, trivial, ?_, ?_, ?_, ?_, ?_, ?_, ?_, ?_⟩
  · have hc0 : get32host e m 16 ≠ 0 := by rw [hcnt]; omega
    have hv : ¬ c.proto_ver < 19 := by omega
    have h8 : ¬ ((24 + 8 * es.length : Nat) : Int) < 8 := by omega
    simp only [send_user_blocklist, hc0, hv, if_false, hpkt, hcnt2, send_crypt, h8]
  · rw [← bytes_put16be m 0 (24 + 8 * es.length)]
    exact bytes_congr _ _ _ _ _ (fun j hj => put32be_other _ _ _ _ (by omega))
  · have h := get16be_put16be m 0 (24 + 8 * es.length)
    simp only [get16be] at h ⊢
    rw [put32be_other _ _ _ _ (by omega), put32be_other _ _ _ _ (by omega), h]
    exact Nat.mod_eq_of_lt (by omega)
  · rw [show be16 0x0031 = be16 SHDR_TYPE_UBLOCKS from rfl, ← y1]
    exact bytes_congr _ _ _ _ _ (fun j hj => by
      rw [hother _ (by omega), t3 _ (by omega)])
  · rw [← y2]
    exact bytes_congr _ _ _ _ _ (fun j hj => by
      rw [hother _ (by omega), t3 _ (by omega)])
  · rw [← y3]
    exact bytes_congr _ _ _ _ _ (fun j hj => by
      rw [hother _ (by omega), t3 _ (by omega)])
  · exact bytes_put32be _ _ _
  · rw [get32be_put32be]
    exact Nat.mod_eq_of_lt (by omega)
  · have hb : BlocksAt (put32be (put16be m 0 (24 + 8 * es.length)) 16 es.length) 24 es :=
      BlocksAt_congr m _ es 24 (fun i h1 _ => hother i (by omega)) (by simpa using t4)
    intro i hi
    exact BlocksAt_get _ es 24 hb i hi

/-- Witness of C16: three entries on a little-endian host at version 20:
the count is 3 and the length is 48. -/
theorem user_blocklist_packet_witness :
    (send_user_blocklist_pkt .little
      (user_blocklist_appends .little (user_blocklist_begin .little scratchA 7 9) blocks3)).2 =
        48 ∧
    get16be (send_user_blocklist_pkt .little
      (user_blocklist_appends .little (user_blocklist_begin .little scratchA 7 9) blocks3)).1
        0 = 48 ∧
    get32be (send_user_blocklist_pkt .little
      (user_blocklist_appends .little (user_blocklist_begin .little scratchA 7 9) blocks3)).1
        16 = 3 ∧
    bytes (send_user_blocklist_pkt .little
      (user_blocklist_appends .little (user_blocklist_begin .little scratchA 7 9) blocks3)).1
        0 48 =
      [0, 48, 0, 0x31, 0, 0, 0, 0, 0, 0, 0, 7, 0, 0, 0, 9, 0, 0, 0, 3, 0, 0, 0, 0,
       0, 0, 3, 233, 0, 0, 0, 1, 0, 0, 3, 234, 0, 0, 0, 2, 0, 0, 3, 235, 0, 0, 0, 3] := by
  have T := user_blocklist_packet .little envAll 3 scratchA ship0 world0 7 9 blocks3
    (by decide) (by decide) (by decide)
  exact ⟨T.2.1, T.2.2.2.1, T.2.2.2.2.2.2.2.2.1, by decide⟩

/-! ## The option list builder: lemmas -/

/-- The padding loop writes `padding` zero bytes after the data. -/
theorem user_options_pad_eq (base : Nat) :
    ∀ (padding : Nat) (m : Mem) (len : Nat),
      user_options_pad base padding m len = (memset m (base + len) 0 padding, len + padding) := by
  intro padding
  induction padding with
  | zero =>
    intro m len
    simp only [user_options_pad, Nat.add_zero, Prod.mk.injEq, and_true]
    funext i
    have : ¬ (base + len ≤ i ∧ i < base + len) := by omega
    simp [memset, this]
  | succ n ih =>
    intro m len
    simp only [user_options_pad, ih, Prod.mk.injEq]
    refine ⟨?_, by omega⟩
    funext i
    simp only [memset, put8]
    by_cases h1 : i = base + len
    · subst h1
      have a : ¬ (base + (len + 1) ≤ base + len ∧ base + len < base + (len + 1) + n) := by
        omega
      have b : base + len ≤ base + len ∧ base + len < base + len + (n + 1) := by omega
      simp [a, b]
    · by_cases h2 : base + (len + 1) ≤ i ∧ i < base + (len + 1) + n
      · have b : base + len ≤ i ∧ i < base + len + (n + 1) := by omega
        simp [h2, b]
      · have b : ¬ (base + len ≤ i ∧ i < base + len + (n + 1)) := by omega
        simp [h1, h2, b]

theorem user_opt_padded_eq (len : Nat) : len + (8 - (len &&& 7)) = user_opt_padded len := by
  rw [and_7]
  unfold user_opt_padded
  omega

/-- One `user_options_append` at slot `p >= 24`: where the returned pointer
is, how the two host-order counters grow, what the entry holds, and that
nothing else changes. -/
theorem user_options_append_spec (e : Endian) (m : Mem) (p opt len : Nat) (data : Mem)
    (hp : 24 ≤ p) :
    (user_options_append e m p opt len data).2 = p + 8 + user_opt_padded len ∧
    get16host e (user_options_append e m p opt len data).1 0 =
      (get16host e m 0 + (8 + user_opt_padded len)) % 65536 ∧
    get32host e (user_options_append e m p opt len data).1 16 =
      (get32host e m 16 + 1) % 4294967296 ∧
    (∀ i, (2 ≤ i ∧ i < 16) ∨ (20 ≤ i ∧ i < p) ∨ p + 8 + user_opt_padded len ≤ i →
      (user_options_append e m p opt len data).1 i = m i) ∧
    bytes (user_options_append e m p opt len data).1 p 4 = be32 opt ∧
    get32be (user_options_append e m p opt len data).1 (p + 4) =
      (8 + user_opt_padded len) % 4294967296 ∧
    bytes (user_options_append e m p opt len data).1 (p + 8) len = bytes data 0 len ∧
    (∀ i, p + 8 + len ≤ i → i < p + 8 + user_opt_padded len →
      (user_options_append e m p opt len data).1 i = 0) := by
  have hP := user_opt_padded_eq len
  have hPl : len < user_opt_padded len ∧ user_opt_padded len ≤ len + 8 := by
    unfold user_opt_padded; omega
  set P := user_opt_padded len with hPdef
  set m1 := put32be m p opt with hm1
  set m2 := memcpy m1 (p + 8) data 0 len with hm2
  set m3 := memset m2 (p + 8 + len) 0 (8 - (len &&& 7)) with hm3
  set m4 := put32be m3 (p + 4) (P + 8) with hm4
  set m5 := put16host e m4 0 (get16host e m4 0 + (P + 8)) with hm5
  have hdef : user_options_append e m p opt len data =
      (put32host e m5 16 (get32host e m5 16 + 1), p + P + 8) := by
    simp only [user_options_append, user_options_pad_eq, hP]
  have hpad : p + 8 + len + (8 - (len &&& 7)) = p + 8 + P := by omega
  have h4 : ∀ i, i < p ∨ p + 8 + P ≤ i → m4 i = m i := by
    intro i hi
    rw [hm4, put32be_other _ _ _ _ (by omega), hm3, memset_other _ _ _ _ _ (by omega), hm2,
      memcpy_other _ _ _ _ _ _ (by omega), hm1, put32be_other _ _ _ _ (by omega)]
  have h6 : ∀ i, 20 ≤ i → put32host e m5 16 (get32host e m5 16 + 1) i = m4 i := by
    intro i hi
    rw [put32host_other e _ 16 _ i (by omega), hm5, put16host_other _ _ _ _ _ (by omega)]
  have hl4 : get16host e m4 0 = get16host e m 0 :=
    get16host_congr e m m4 0 (h4 0 (by omega)) (h4 1 (by omega))
  have hc5 : get32host e m5 16 = get32host e m 16 := by
    apply get32host_congr
    intro i h1 h2
    rw [hm5, put16host_other _ _ _ _ _ (by omega), h4 i (by omega)]
  rw [hdef]
  refine ⟨by simp only []; omega, ?_, ?_, ?_, ?_, ?_, ?_, ?_⟩
  · simp only []
    rw [get16host_congr e m5 _ 0 (put32host_other e _ 16 _ 0 (by omega))
      (put32host_other e _ 16 _ 1 (by omega)), hm5, get16host_put16host, hl4]
    congr 1
    omega
  · simp only []
    rw [get32host_put32host, hc5]
  · intro i hi
    simp only []
    rw [put32host_other e _ 16 _ i (by omega), hm5, put16host_other _ _ _ _ _ (by omega),
      h4 i (by omega)]
  · simp only []
    rw [← bytes_put32be m p opt]
    apply bytes_congr
    intro j hj
    rw [h6 _ (by omega), hm4, put32be_other _ _ _ _ (by omega), hm3,
      memset_other _ _ _ _ _ (by omega), hm2, memcpy_other _ _ _ _ _ _ (by omega)]
  · simp only []
    have h := get32be_put32be m3 (p + 4) (P + 8)
    simp only [get32be] at h ⊢
    rw [h6 _ (by omega), h6 _ (by omega), h6 _ (by omega), h6 _ (by omega), h]
    congr 1
    omega
  · simp only []
    apply bytes_congr
    intro j hj
    rw [h6 _ (by omega), hm4, put32be_other _ _ _ _ (by omega), hm3,
      memset_other _ _ _ _ _ (by omega), hm2, memcpy_inside _ _ _ _ _ _ (by omega) (by omega)]
    congr 1
    omega
  · intro i hi1 hi2
    simp only []
    rw [h6 _ (by omega), hm4, put32be_other _ _ _ _ (by omega), hm3,
      memset_inside _ _ _ _ _ (by omega) (by omega)]

theorem OptionsAt_congr (m m' : Mem) :
    ∀ (es : List (Nat × Nat × Mem)) (off : Nat),
      (∀ i, off ≤ i → i < off + user_opts_size es → m' i = m i) →
      OptionsAt m off es → OptionsAt m' off es := by
  intro es
  induction es with
  | nil => intro off _ _; trivial
  | cons x rest ih =>
    intro off h hb
    obtain ⟨opt, len, data⟩ := x
    obtain ⟨h1, h2, h3, h4, h5, h6⟩ := hb
    simp only [user_opts_size] at h
    have hPl : len < user_opt_padded len := by unfold user_opt_padded; omega
    refine ⟨?_, ?_, h3, ?_, ?_, ?_⟩
    · rw [← h1]
      exact bytes_congr _ _ _ _ _ (fun j hj => h _ (by omega) (by omega))
    · rw [← h2]
      simp only [get32be]
      rw [h _ (by omega) (by omega), h _ (by omega) (by omega), h _ (by omega) (by omega),
        h _ (by omega) (by omega)]
    · rw [← h4]
      exact bytes_congr _ _ _ _ _ (fun j hj => h _ (by omega) (by omega))
    · intro i hi1 hi2
      rw [h i (by omega) (by omega)]
      exact h5 i hi1 hi2
    · exact ih _ (fun i hi1 hi2 => h i (by omega) (by omega)) h6

/-- A chain of appends from slot `p >= 24`. -/
theorem user_options_appends_spec (e : Endian) :
    ∀ (es : List (Nat × Nat × Mem)) (m : Mem) (p : Nat), 24 ≤ p →
      user_opts_size es < 4294967296 →
      (user_options_appends e (m, p) es).2 = p + user_opts_size es ∧
      get16host e (user_options_appends e (m, p) es).1 0 =
        (get16host e m 0 + user_opts_size es) % 65536 ∧
      get32host e (user_options_appends e (m, p) es).1 16 =
        (get32host e m 16 + es.length) % 4294967296 ∧
      (∀ i, (2 ≤ i ∧ i < 16) ∨ (20 ≤ i ∧ i < p) →
        (user_options_appends e (m, p) es).1 i = m i) ∧
      OptionsAt (user_options_appends e (m, p) es).1 p es := by
  intro es
  induction es with
  | nil =>
    intro m p _ _
    have h32 : get32host e m 16 < 4294967296 := by
      cases e <;> simp only [get32host] <;> omega
    refine ⟨rfl, ?_, ?_, fun i _ => rfl, trivial⟩
    · show get16host e m 0 = (get16host e m 0 + 0) % 65536
      rw [Nat.add_zero]
      exact (Nat.mod_eq_of_lt (get16host_lt e m 0)).symm
    · show get32host e m 16 = (get32host e m 16 + 0) % 4294967296
      rw [Nat.add_zero]
      exact (Nat.mod_eq_of_lt h32).symm
  | cons x rest ih =>
    intro m p hp hsz
    obtain ⟨opt, len, data⟩ := x
    simp only [user_opts_size] at hsz
    obtain ⟨s1, s2, s3, s4, s5, s6, s7, s8⟩ := user_options_append_spec e m p opt len data hp
    have hstep : user_options_appends e (m, p) ((opt, len, data) :: rest) =
        user_options_appends e
          ((user_options_append e m p opt len data).1, p + 8 + user_opt_padded len) rest := by
      simp only [user_options_appends]
      rw [← s1]
    obtain ⟨t1, t2, t3, t4, t5⟩ := ih (user_options_append e m p opt len data).1
      (p + 8 + user_opt_padded len) (by omega) (by omega)
    have hPl : len < user_opt_padded len := by unfold user_opt_padded; omega
    rw [hstep]
    simp only [user_opts_size, List.length_cons]
    refine ⟨by rw [t1]; omega, ?_, ?_, ?_, ?_, ?_, ?_, ?_, ?_, t5⟩
    · rw [t2, s2]; omega
    · rw [t3, s3]; omega
    · intro i hi
      rw [t4 i (by omega), s4 i (by omega)]
    · rw [← s5]
      exact bytes_congr _ _ _ _ _ (fun j hj => t4 _ (by omega))
    · have h6 : (8 + user_opt_padded len) % 4294967296 = 8 + user_opt_padded len :=
        Nat.mod_eq_of_lt (by omega)
      rw [← h6, ← s6]
      simp only [get32be]
      rw [t4 _ (by omega), t4 _ (by omega), t4 _ (by omega), t4 _ (by omega)]
    · unfold user_opt_padded; omega
    · rw [← s7]
      exact bytes_congr _ _ _ _ _ (fun j hj => t4 _ (by omega))
    · intro i hi1 hi2
      rw [t4 i (by omega)]
      exact s8 i hi1 hi2

theorem user_opts_size_ge (es : List (Nat × Nat × Mem)) : 16 * es.length ≤ user_opts_size es := by
  induction es with
  | nil => simp [user_opts_size]
  | cons x rest ih =>
    obtain ⟨opt, len, data⟩ := x
    simp only [user_opts_size, List.length_cons]
    unfold user_opt_padded
    omega

theorem user_options_begin_bytes (e : Endian) (sb : Mem) (g b : Nat) :
    bytes (user_options_begin e sb g b).1 2 2 = be16 SHDR_TYPE_USEROPT ∧
    bytes (user_options_begin e sb g b).1 8 4 = be32 g ∧
    bytes (user_options_begin e sb g b).1 12 4 = be32 b := by
  refine ⟨?_, ?_, ?_⟩ <;> cases e <;>
    simp [user_options_begin, bytes_two, bytes_four, be16, be32, put32host, put16host,
      put32be, put16be, put8]

/-! ## The option list builder: theorems -/

/-- C17 as stated fails: an option with 8 data bytes, already a multiple of
8, appended at slot 24 right after `user_options_begin`: the claim gives
`P = 8`, an entry of 16 bytes, the pointer at 40 and the running length 40;
the code writes 8 more zero bytes, the length field holds 24, the returned
pointer is 48 and the running length is 48. -/
theorem user_options_append_aligned_pads :
    (user_options_append .little (user_options_begin .little scratchA 1 2).1 24 5 8
      scratchB).2 = 48 ∧
    get16host .little (user_options_append .little (user_options_begin .little scratchA 1 2).1
      24 5 8 scratchB).1 0 = 48 ∧
    get32be (user_options_append .little (user_options_begin .little scratchA 1 2).1 24 5 8
      scratchB).1 28 = 24 ∧
    bytes (user_options_append .little (user_options_begin .little scratchA 1 2).1 24 5 8
      scratchB).1 40 8 = [0, 0, 0, 0, 0, 0, 0, 0] ∧
    ¬ (user_options_append .little (user_options_begin .little scratchA 1 2).1 24 5 8
      scratchB).2 = 24 + (8 + 8) := by
  decide

/-- C17 as amended: for every data length `len` (with `len + 16 < 2^32`) and
slot pointer `p >= 24`, `user_options_append` pads the data with 1 to 8 zero
bytes up to `P`, the next multiple of 8 above `len` (8 pad bytes when `len`
is already a multiple of 8): the entry occupies `8 + P` bytes, its length
field holds `8 + P`, the returned pointer is `p + 8 + P`, and the running
host-order packet length grows by `8 + P` modulo 65536. -/
theorem user_options_append_padding (e : Endian) (m : Mem) (p opt len : Nat) (data : Mem)
    (hp : 24 ≤ p) (hlen : len + 16 < 4294967296) :
    user_opt_padded len % 8 = 0 ∧ len < user_opt_padded len ∧
    user_opt_padded len ≤ len + 8 ∧
    (len % 8 = 0 → user_opt_padded len = len + 8) ∧
    (user_options_append e m p opt len data).2 = p + (8 + user_opt_padded len) ∧
    get16host e (user_options_append e m p opt len data).1 0 =
      (get16host e m 0 + (8 + user_opt_padded len)) % 65536 ∧
    get32be (user_options_append e m p opt len data).1 (p + 4) = 8 + user_opt_padded len ∧
    bytes (user_options_append e m p opt len data).1 (p + 8) len = bytes data 0 len ∧
    (∀ i, p + 8 + len ≤ i → i < p + 8 + user_opt_padded len →
      (user_options_append e m p opt len data).1 i = 0) := by
  obtain ⟨s1, s2, _, _, _, s6, s7, s8⟩ := user_options_append_spec e m p opt len data hp
  have hP : user_opt_padded len % 8 = 0 ∧ len < user_opt_padded len ∧
      user_opt_padded len ≤ len + 8 ∧ (len % 8 = 0 → user_opt_padded len = len + 8) := by
    unfold user_opt_padded
    omega
  refine ⟨hP.1, hP.2.1, hP.2.2.1, hP.2.2.2, by rw [s1]; omega, s2, ?_, s7, s8⟩
  rw [s6]
  exact Nat.mod_eq_of_lt (by omega)

/-- Witness of the amended C17: 3 data bytes at slot 24 after
`user_options_begin` on a little-endian host. -/
theorem user_options_append_padding_witness :
    (user_options_append .little (user_options_begin .little scratchA 1 2).1 24 5 3
      scratchB).2 = 24 + (8 + user_opt_padded 3) ∧
    get32be (user_options_append .little (user_options_begin .little scratchA 1 2).1 24 5 3
      scratchB).1 (24 + 4) = 8 + user_opt_padded 3 ∧
    user_opt_padded 3 = 8 :=
  ⟨(user_options_append_padding .little (user_options_begin .little scratchA 1 2).1 24 5 3
      scratchB (by decide) (by decide)).2.2.2.2.1,
   (user_options_append_padding .little (user_options_begin .little scratchA 1 2).1 24 5 3
      scratchB (by decide) (by decide)).2.2.2.2.2.2.1,
   by decide⟩

/-- C18: for every non-empty list of options appended through the returned
pointers after `user_options_begin`, with a total size of at most 65535,
`send_user_options` hands one packet to `send_raw`; its declared length
(bytes 0-1, big-endian) is 24 plus the sum of the entries' sizes and is the
length handed on; the count at offset 16 is the number of options,
big-endian; and the entries lie one after the other from offset 24, each
with its length field equal to the bytes it occupies (8 plus the padded data
size, a multiple of 8), its data bytes, and only zero bytes up to the next
entry. -/
theorem user_options_packet (e : Endian) (env : Env) (fuel : Nat) (sb : Mem) (c : ship_t)
    (w : World) (g b : Nat) (es : List (Nat × Nat × Mem))
    (hne : es ≠ []) (hsize : 24 + user_opts_size es ≤ 65535) :
    send_user_options e env fuel
        (user_options_appends e (user_options_begin e sb g b) es).1 c w =
      send_raw env fuel
        (send_user_options_pkt e
          (user_options_appends e (user_options_begin e sb g b) es).1).1 c
        ((24 + user_opts_size es : Nat) : Int) w ∧
    (send_user_options_pkt e
      (user_options_appends e (user_options_begin e sb g b) es).1).2 =
        24 + user_opts_size es ∧
    get16be (send_user_options_pkt e
      (user_options_appends e (user_options_begin e sb g b) es).1).1 0 =
        24 + user_opts_size es ∧
    bytes (send_user_options_pkt e
      (user_options_appends e (user_options_begin e sb g b) es).1).1 0 2 =
        be16 (24 + user_opts_size es) ∧
    bytes (send_user_options_pkt e
      (user_options_appends e (user_options_begin e sb g b) es).1).1 2 2 = be16 0x0024 ∧
    bytes (send_user_options_pkt e
      (user_options_appends e (user_options_begin e sb g b) es).1).1 8 4 = be32 g ∧
    bytes (send_user_options_pkt e
      (user_options_appends e (user_options_begin e sb g b) es).1).1 12 4 = be32 b ∧
    get32be (send_user_options_pkt e
      (user_options_appends e (user_options_begin e sb g b) es).1).1 16 = es.length ∧
    bytes (send_user_options_pkt e
      (user_options_appends e (user_options_begin e sb g b) es).1).1 16 4 =
        be32 es.length ∧
    OptionsAt (send_user_options_pkt e
      (user_options_appends e (user_options_begin e sb g b) es).1).1 24 es := by
  obtain ⟨b1, b2, b3⟩ := user_options_begin_count e sb g b
  obtain ⟨y1, y2, y3⟩ := user_options_begin_bytes e sb g b
  have hbeg : user_options_begin e sb g b = ((user_options_begin e sb g b).1, 24) := by
    rw [← b3]
  have hlen16 := user_opts_size_ge es
  have hpos : 1 ≤ es.length := by
    cases es with
    | nil => exact absurd rfl hne
    | cons _ _ => simp
  obtain ⟨t1, t2, t3, t4, t5⟩ := user_options_appends_spec e es (user_options_begin e sb g b).1
    24 (le_refl _) (by omega)
  rw [← hbeg] at t1 t2 t3 t4 t5
  set m := (user_options_appends e (user_options_begin e sb g b) es).1 with hm
  rw [b1] at t3
  rw [b2] at t2
  have hlen : get16host e m 0 = 24 + user_opts_size es := by
    rw [t2]; exact Nat.mod_eq_of_lt (by omega)
  have hcnt : get32host e m 16 = es.length := by
    rw [t3, Nat.zero_add]; exact Nat.mod_eq_of_lt (by omega)
  have hpkt : send_user_options_pkt e m =
      (put32be (put16be m 0 (24 + user_opts_size es)) 16
        (get32host e (put16be m 0 (24 + user_opts_size es)) 16), 24 + user_opts_size es) := by
    simp only [send_user_options_pkt, hlen]
  have hcnt2 : get32host e (put16be m 0 (24 + user_opts_size es)) 16 = es.length := by
    rw [← hcnt]
    exact get32host_congr e m _ 16 (fun i h1 h2 => put16be_other _ _ _ _ (by omega))
  rw [hpkt, hcnt2]
  simp only []
  have hother : ∀ i, (2 ≤ i ∧ i < 16) ∨ 20 ≤ i →
      put32be (put16be m 0 (24 + user_opts_size es)) 16 es.length i = m i := by
    intro i hi
    rw [put32be_other _ _ _ _ (by omega), put16be_other _ _ _ _ (by omega)]
  refine ⟨?_, trivial, ?_, ?_, ?_, ?_, ?_, ?_, ?_, ?_⟩
  · have hc0 : get32host e m 16 ≠ 0 := by rw [hcnt]; omega
    have h8 : ¬ ((24 + user_opts_size es : Nat) : Int) < 8 := by omega
    simp only [send_user_options, hc0, if_false, hpkt, hcnt2, send_crypt, h8]
  · have h := get16be_put16be m 0 (24 + user_opts_size es)
    simp only [get16be] at h ⊢
    rw [put32be_other _ _ _ _ (by omega), put32be_other _ _ _ _ (by omega), h]
    exact Nat.mod_eq_of_lt (by omega)
  · rw [← bytes_put16be m 0 (24 + user_opts_size es)]
    exact bytes_congr _ _ _ _ _ (fun j hj => put32be_other _ _ _ _ (by omega))
  · rw [show be16 0x0024 = be16 SHDR_TYPE_USEROPT from rfl, ← y1]
    exact bytes_congr _ _ _ _ _ (fun j hj => by
      rw [hother _ (by omega), t4 _ (by omega)])
  · rw [← y2]
    exact bytes_congr _ _ _ _ _ (fun j hj => by
      rw [hother _ (by omega), t4 _ (by omega)])
  · rw [← y3]
    exact bytes_congr _ _ _ _ _ (fun j hj => by
      rw [hother _ (by omega), t4 _ (by omega)])
  · rw [get32be_put32be]
    exact Nat.mod_eq_of_lt (by omega)
  · exact bytes_put32be _ _ _
  · exact OptionsAt_congr m _ es 24 (fun i h1 _ => hother i (by omega)) t5

/-- Witness of C18: three options (3, 8 and 0 data bytes) on a little-endian
host: 80 bytes, count 3, entries of 16, 24 and 16 bytes. -/
theorem user_options_packet_witness :
    (send_user_options_pkt .little
      (user_options_appends .little (user_options_begin .little scratchA 7 9) options3).1).2 =
        24 + user_opts_size options3 ∧
    user_opts_size options3 = 56 ∧
    get32be (send_user_options_pkt .little
      (user_options_appends .little (user_options_begin .little scratchA 7 9) options3).1).1
        16 = 3 ∧
    bytes (send_user_options_pkt .little
      (user_options_appends .little (user_options_begin .little scratchA 7 9) options3).1).1
        0 80 =
      [0, 80, 0, 0x24, 0, 0, 0, 0, 0, 0, 0, 7, 0, 0, 0, 9, 0, 0, 0, 3, 0, 0, 0, 0,
       0, 0, 0, 1, 0, 0, 0, 16, 101, 102, 103, 0, 0, 0, 0, 0,
       0, 0, 0, 2, 0, 0, 0, 24, 101, 102, 103, 104, 105, 106, 107, 108, 0, 0, 0, 0, 0, 0, 0, 0,
       0, 0, 0, 6, 0, 0, 0, 16, 0, 0, 0, 0, 0, 0, 0, 0] := by
  have T := user_options_packet .little envAll 3 scratchA ship0 world0 7 9 options3
    (List.cons_ne_nil _ _) (by decide)
  exact ⟨T.2.1, by decide, T.2.2.2.2.2.2.2.1, by decide⟩

/-! ## Further frame lemmas -/

theorem strncpy_other (dst : Mem) (doff : Nat) (s : CStr) (n i : Nat)
    (h : i < doff ∨ doff + n ≤ i) : strncpy dst doff s n i = dst i := by
  have : ¬ (doff ≤ i ∧ i < doff + n) := by omega
  simp [strncpy, this]

theorem strncpy_inside (dst : Mem) (doff : Nat) (s : CStr) (n i : Nat)
    (h1 : doff ≤ i) (h2 : i < doff + n) : strncpy dst doff s n i = s.getD (i - doff) 0 := by
  simp [strncpy, h1, h2]

theorem strcpy_other (dst : Mem) (doff : Nat) (s : CStr) (i : Nat)
    (h : i < doff ∨ doff + s.length < i) : strcpy dst doff s i = dst i := by
  have : ¬ (doff ≤ i ∧ i ≤ doff + s.length) := by omega
  simp [strcpy, this]

theorem round_fff8 (x : Nat) (hx : x ≤ 65528) :
    (if x &&& 0x07 ≠ 0 then (x + 8) &&& 0xFFF8 else x) = round_up8 x := by
  rw [and_7, and_fff8]
  unfold round_up8
  split_ifs <;> omega

theorem round_up8_spec (x : Nat) :
    round_up8 x % 8 = 0 ∧ x ≤ round_up8 x ∧ round_up8 x < x + 8 := by
  unfold round_up8; omega

theorem get16be_congr (m m' : Mem) (off : Nat) (h0 : m' off = m off)
    (h1 : m' (off + 1) = m (off + 1)) : get16be m' off = get16be m off := by
  simp [get16be, h0, h1]

/-! ## `send_error`: theorems -/

theorem send_error_pkt_layout (sb : Mem) (type flags err : Nat) (data : Mem) (n : Nat)
    (hn : n ≤ 65519) :
    (send_error_pkt sb type flags err data n).2 = 16 + n ∧
    get16be (send_error_pkt sb type flags err data n).1 0 = 16 + n ∧
    bytes (send_error_pkt sb type flags err data n).1 0 2 = be16 (16 + n) ∧
    bytes (send_error_pkt sb type flags err data n).1 2 2 = be16 type ∧
    bytes (send_error_pkt sb type flags err data n).1 4 2 = be16 flags ∧
    bytes (send_error_pkt sb type flags err data n).1 6 2 = [0, 0] ∧
    bytes (send_error_pkt sb type flags err data n).1 8 4 = be32 err ∧
    bytes (send_error_pkt sb type flags err data n).1 12 4 = [0, 0, 0, 0] ∧
    bytes (send_error_pkt sb type flags err data n).1 16 n = bytes data 0 n := by
  have hsz : (((sizeof_shipgate_error_pkt : Nat) + (n : Int)) % 65536).toNat = 16 + n := by
    simp only [sizeof_shipgate_error_pkt, sizeof_shipgate_hdr_t]
    omega
  have hp : ∀ i, (send_error_pkt sb type flags err data n).1 i =
      memcpy (put32be (put8 (put8 (put16be (put16be (put16be (memset sb 0 0 16) 0 (16 + n)) 2
        type) 4 flags) 6 0) 7 0) 8 err) 16 data 0 n i := by
    intro i
    simp only [send_error_pkt, hsz, Int.toNat_ofNat]
    rfl
  refine ⟨by simp only [send_error_pkt, hsz], ?_, ?_, ?_, ?_, ?_, ?_, ?_, ?_⟩
  · simp only [get16be, hp]
    simp [memcpy, put32be, put16be, put8, memset]
    omega
  · simp [bytes_two, hp, be16, memcpy, put32be, put16be, put8, memset]
  · simp [bytes_two, hp, be16, memcpy, put32be, put16be, put8, memset]
  · simp [bytes_two, hp, be16, memcpy, put32be, put16be, put8, memset]
  · simp [bytes_two, hp, memcpy, put32be, put16be, put8, memset]
  · simp [bytes_four, hp, be32, memcpy, put32be, put16be, put8, memset]
  · simp [bytes_four, hp, memcpy, put32be, put16be, put8, memset]
  · apply bytes_congr
    intro i hi
    rw [hp, memcpy_inside _ _ _ _ _ _ (by omega) (by omega)]
    congr 1
    omega

/-- C21 as stated fails: with `data_sz = 65520`, which is not above
`65536 - 16`, `send_error` returns -1 and nothing is sent (the 16-bit size
`16 + 65520` wraps to 0 and `send_crypt` refuses it), although the transport
accepts everything. -/
theorem send_error_at_65520 :
    ¬ ((65520 : Int) > 65536 - 16) ∧
    (send_error_pkt scratchA 1 2 3 scratchB 65520).2 = 0 ∧
    send_error envAll 3 scratchA ship0 1 2 3 scratchB 65520 world0 =
      some (-1, ship0, world0) := by
  refine ⟨by decide, by decide, ?_⟩
  have h : (send_error_pkt scratchA 1 2 3 scratchB 65520).2 = 0 := by decide
  simp [send_error, send_crypt, h, sizeof_shipgate_error_pkt, sizeof_shipgate_hdr_t]

/-- C21 as amended: for an `int` `data_sz`, `send_error` returns -1 with
connection and world unchanged (nothing sent) when `data_sz >= 65520` or
`data_sz < 0`; for every `0 <= data_sz <= 65519` it hands a packet of
`16 + data_sz` bytes to `send_raw`, with declared length `16 + data_sz`, the
caller's type and flags in the header, `err` big-endian at offsets 8-11,
zeros at 12-15 and the data from offset 16; on a connection with an empty
queue and a transport that keeps accepting it then returns 0 and the
transport receives exactly these bytes. -/
theorem send_error_size (env : Env) (sb : Mem) (c : ship_t) (type flags err : Nat)
    (data : Mem) (data_sz : Int) (w : World)
    (hint : -2147483648 ≤ data_sz ∧ data_sz ≤ 2147483647) :
    ((data_sz < 0 ∨ 65520 ≤ data_sz) →
      ∀ fuel, send_error env fuel sb c type flags err data data_sz w = some (-1, c, w)) ∧
    ((0 ≤ data_sz ∧ data_sz ≤ 65519) →
      (send_error_pkt sb type flags err data data_sz).2 = 16 + data_sz.toNat ∧
      (∀ fuel, send_error env fuel sb c type flags err data data_sz w =
        send_raw env fuel (send_error_pkt sb type flags err data data_sz).1 c
          (16 + data_sz) w) ∧
      get16be (send_error_pkt sb type flags err data data_sz).1 0 = 16 + data_sz.toNat ∧
      bytes (send_error_pkt sb type flags err data data_sz).1 2 2 = be16 type ∧
      bytes (send_error_pkt sb type flags err data data_sz).1 4 2 = be16 flags ∧
      bytes (send_error_pkt sb type flags err data data_sz).1 8 4 = be32 err ∧
      bytes (send_error_pkt sb type flags err data data_sz).1 12 4 = [0, 0, 0, 0] ∧
      bytes (send_error_pkt sb type flags err data data_sz).1 16 data_sz.toNat =
        bytes data 0 data_sz.toNat ∧
      (c.sendbuf_cur = 0 → Accepting env →
        ∃ n w1, (∀ fuel, n ≤ fuel →
            send_error env fuel sb c type flags err data data_sz w = some (0, c, w1)) ∧
          w1.wire = w.wire ++
            bytes (send_error_pkt sb type flags err data data_sz).1 0 (16 + data_sz.toNat))) := by
  constructor
  · intro h fuel
    by_cases hg : data_sz % 18446744073709551616 > 65536 - (sizeof_shipgate_error_pkt : Nat)
    · simp only [send_error, hg, if_true]
    · have h65520 : data_sz = 65520 := by
        simp only [sizeof_shipgate_error_pkt, sizeof_shipgate_hdr_t] at hg
        omega
      subst h65520
      have h0 : (send_error_pkt sb type flags err data 65520).2 = 0 := by
        simp only [send_error_pkt, sizeof_shipgate_error_pkt, sizeof_shipgate_hdr_t]
        rfl
      simp only [send_error, hg, if_false, h0, send_crypt]
      simp
  · intro h
    obtain ⟨n, rfl⟩ : ∃ n : Nat, data_sz = n := ⟨data_sz.toNat, by omega⟩
    have hn : n ≤ 65519 := by omega
    obtain ⟨l1, l2, _, l4, l5, _, l7, l8, l9⟩ :=
      send_error_pkt_layout sb type flags err data n hn
    have hg : ¬ ((n : Int) % 18446744073709551616 >
        65536 - (sizeof_shipgate_error_pkt : Nat)) := by
      simp only [sizeof_shipgate_error_pkt, sizeof_shipgate_hdr_t]
      omega
    have hsend : ∀ fuel, send_error env fuel sb c type flags err data n w =
        send_raw env fuel (send_error_pkt sb type flags err data n).1 c (16 + (n : Int)) w := by
      intro fuel
      have h8 : ¬ (((16 + n : Nat) : Int) < 8) := by omega
      simp only [send_error, hg, if_false, l1, send_crypt, h8]
      congr 1
    simp only [Int.toNat_ofNat]
    refine ⟨l1, hsend, l2, l4, l5, l7, l8, l9, ?_⟩
    intro hq hacc
    obtain ⟨k, w1, h1, h2, _⟩ := send_raw_accepting env
      (send_error_pkt sb type flags err data n).1 c (16 + n) w hq hacc
    refine ⟨k, w1, fun fuel hf => ?_, h2⟩
    rw [hsend fuel, ← h1 fuel hf]
    congr 1

/-- Witness of the amended C21: 4 data bytes are sent in a 20-byte packet;
70000 data bytes are refused. -/
theorem send_error_size_witness :
    (∀ fuel, send_error envAll fuel scratchA ship0 1 2 3 scratchB 70000 world0 =
      some (-1, ship0, world0)) ∧
    (send_error_pkt scratchA 1 2 3 scratchB 4).2 = 16 + (4 : Int).toNat ∧
    bytes (send_error_pkt scratchA 1 2 3 scratchB 4).1 0 20 =
      [0, 20, 0, 1, 0, 2, 0, 0, 0, 0, 0, 3, 0, 0, 0, 0, 101, 102, 103, 104] :=
  ⟨(send_error_size envAll scratchA ship0 1 2 3 scratchB 70000 world0
      ⟨by decide, by decide⟩).1 (Or.inr (by decide)),
   ((send_error_size envAll scratchA ship0 1 2 3 scratchB 4 world0
      ⟨by decide, by decide⟩).2 ⟨by decide, by decide⟩).1,
   by decide⟩

/-! ## Scripts: layout lemmas and theorems -/

theorem cstr_field_eq (s : CStr) (n : Nat) :
    (List.range n).map (fun i => s.getD i 0) = cstr_field s n := by
  unfold cstr_field
  apply List.ext_getElem
  · simp; omega
  · intro i h1 h2
    simp only [List.getElem_map, List.getElem_range, List.getElem_append, List.length_take]
    split_ifs with h
    · simp [List.getElem_take, List.getD_eq_getElem?_getD]
      have : i < s.length := by omega
      simp [this]
    · simp
      have : s.length ≤ i := by simp at h1 h2; omega
      simp [List.getD_eq_getElem?_getD, List.getElem?_eq_none this]

theorem bytes_strncpy (m : Mem) (off : Nat) (s : CStr) (n : Nat) :
    bytes (strncpy m off s n) off n = cstr_field s n := by
  rw [← cstr_field_eq]
  unfold bytes
  apply List.map_congr_left
  intro i hi
  rw [strncpy_inside _ _ _ _ _ (by omega) (by have := List.mem_range.mp hi; omega)]
  congr 1
  omega

theorem bytes_file (bs : List Nat) (len : Nat) (h : len ≤ bs.length) :
    bytes (fun i => bs.getD i 0) 0 len = bs.take len := by
  unfold bytes
  apply List.ext_getElem
  · simp; omega
  · intro i h1 h2
    simp at h1
    have : i < bs.length := by omega
    simp [List.getElem_take, List.getD_eq_getElem?_getD, this]

theorem bytes_zero_four (m : Mem) (off : Nat) (h : ∀ j, j < 4 → m (off + j) = 0) :
    bytes m off 4 = be32 0 := by
  rw [bytes_four]
  have h0 := h 0 (by omega)
  have h1 := h 1 (by omega)
  have h2 := h 2 (by omega)
  have h3 := h 3 (by omega)
  simp only [Nat.add_zero] at h0
  simp [be32, h0, h1, h2, h3]

/-- The metadata that `send_script_check`, `send_script_delete` and
`send_script` write over a zeroed region of at least 56 bytes. -/
theorem chunk_header_layout (sb : Mem) (T kind clen ccrc event : Nat) (fn : CStr)
    (hT : 56 ≤ T) (hk : kind < 256) :
    IsChunkHeader
      (if event ≠ 0 then
        put32be (put32be (strncpy (put32be (put8 (put16be (put16be (memset sb 0 0 T) 0 T) 2
          SHDR_TYPE_SCHUNK) 8 kind) 12 clen) 24 fn 32) 16 ccrc) 20 event
       else
        put32be (strncpy (put32be (put8 (put16be (put16be (memset sb 0 0 T) 0 T) 2
          SHDR_TYPE_SCHUNK) 8 kind) 12 clen) 24 fn 32) 16 ccrc)
      kind clen ccrc event fn ∧
    (∀ i, (4 ≤ i ∧ i < 8) ∨ (9 ≤ i ∧ i < 12) ∨ (56 ≤ i ∧ i < T) →
      (if event ≠ 0 then
        put32be (put32be (strncpy (put32be (put8 (put16be (put16be (memset sb 0 0 T) 0 T) 2
          SHDR_TYPE_SCHUNK) 8 kind) 12 clen) 24 fn 32) 16 ccrc) 20 event
       else
        put32be (strncpy (put32be (put8 (put16be (put16be (memset sb 0 0 T) 0 T) 2
          SHDR_TYPE_SCHUNK) 8 kind) 12 clen) 24 fn 32) 16 ccrc) i = 0) ∧
    get16be
      (if event ≠ 0 then
        put32be (put32be (strncpy (put32be (put8 (put16be (put16be (memset sb 0 0 T) 0 T) 2
          SHDR_TYPE_SCHUNK) 8 kind) 12 clen) 24 fn 32) 16 ccrc) 20 event
       else
        put32be (strncpy (put32be (put8 (put16be (put16be (memset sb 0 0 T) 0 T) 2
          SHDR_TYPE_SCHUNK) 8 kind) 12 clen) 24 fn 32) 16 ccrc) 0 = T % 65536 := by
  set m6 := put32be (strncpy (put32be (put8 (put16be (put16be (memset sb 0 0 T) 0 T) 2
    SHDR_TYPE_SCHUNK) 8 kind) 12 clen) 24 fn 32) 16 ccrc with hm6
  have h6z : ∀ i, (4 ≤ i ∧ i < 8) ∨ (9 ≤ i ∧ i < 12) ∨ (20 ≤ i ∧ i < 24) ∨ (56 ≤ i ∧ i < T) →
      m6 i = 0 := by
    intro i hi
    rw [hm6, put32be_other _ _ _ _ (by omega), strncpy_other _ _ _ _ _ (by omega),
      put32be_other _ _ _ _ (by omega), put8_other _ _ _ _ (by omega),
      put16be_other _ _ _ _ (by omega), put16be_other _ _ _ _ (by omega),
      memset_inside _ _ _ _ _ (by omega) (by omega)]
  have h6 : bytes m6 2 2 = be16 0x002B ∧ m6 8 = kind ∧ bytes m6 12 4 = be32 clen ∧
      bytes m6 16 4 = be32 ccrc ∧ bytes m6 24 32 = cstr_field fn 32 ∧
      get16be m6 0 = T % 65536 := by
    refine ⟨?_, ?_, ?_, ?_, ?_, ?_⟩
    · rw [show be16 0x002B = be16 SHDR_TYPE_SCHUNK from rfl,
        ← bytes_put16be (put16be (memset sb 0 0 T) 0 T) 2 SHDR_TYPE_SCHUNK]
      apply bytes_congr
      intro j hj
      rw [hm6, put32be_other _ _ _ _ (by omega), strncpy_other _ _ _ _ _ (by omega),
        put32be_other _ _ _ _ (by omega), put8_other _ _ _ _ (by omega)]
    · rw [hm6, put32be_other _ _ _ _ (by omega), strncpy_other _ _ _ _ _ (by omega),
        put32be_other _ _ _ _ (by omega)]
      simp only [put8, if_true]
      exact Nat.mod_eq_of_lt hk
    · rw [← bytes_put32be (put8 (put16be (put16be (memset sb 0 0 T) 0 T) 2
        SHDR_TYPE_SCHUNK) 8 kind) 12 clen]
      apply bytes_congr
      intro j hj
      rw [hm6, put32be_other _ _ _ _ (by omega), strncpy_other _ _ _ _ _ (by omega)]
    · rw [hm6]
      exact bytes_put32be _ _ _
    · rw [← bytes_strncpy (put32be (put8 (put16be (put16be (memset sb 0 0 T) 0 T) 2
        SHDR_TYPE_SCHUNK) 8 kind) 12 clen) 24 fn 32]
      apply bytes_congr
      intro j hj
      rw [hm6, put32be_other _ _ _ _ (by omega)]
    · rw [← get16be_put16be (memset sb 0 0 T) 0 T]
      apply get16be_congr
      · rw [hm6, put32be_other _ _ _ _ (by omega), strncpy_other _ _ _ _ _ (by omega),
          put32be_other _ _ _ _ (by omega), put8_other _ _ _ _ (by omega),
          put16be_other _ _ _ _ (by omega)]
      · rw [hm6, put32be_other _ _ _ _ (by omega), strncpy_other _ _ _ _ _ (by omega),
          put32be_other _ _ _ _ (by omega), put8_other _ _ _ _ (by omega),
          put16be_other _ _ _ _ (by omega)]
  obtain ⟨a1, a2, a3, a4, a5, a6⟩ := h6
  by_cases he : event = 0
  · have hne : ¬ (event ≠ 0) := by simpa using he
    simp only [hne, if_false]
    refine ⟨⟨a1, a2, a3, a4, ?_, a5⟩, fun i hi => h6z i (by omega), a6⟩
    rw [he]
    exact bytes_zero_four m6 20 (fun j hj => h6z _ (by omega))
  · simp only [he, ne_eq, not_false_eq_true, if_true]
    refine ⟨⟨?_, ?_, ?_, ?_, bytes_put32be _ _ _, ?_⟩, ?_, ?_⟩
    · rw [← a1]
      exact bytes_congr _ _ _ _ _ (fun j hj => put32be_other _ _ _ _ (by omega))
    · rw [put32be_other _ _ _ _ (by omega)]
      exact a2
    · rw [← a3]
      exact bytes_congr _ _ _ _ _ (fun j hj => put32be_other _ _ _ _ (by omega))
    · rw [← a4]
      exact bytes_congr _ _ _ _ _ (fun j hj => put32be_other _ _ _ _ (by omega))
    · rw [← a5]
      exact bytes_congr _ _ _ _ _ (fun j hj => put32be_other _ _ _ _ (by omega))
    · intro i hi
      rw [put32be_other _ _ _ _ (by omega)]
      exact h6z i (by omega)
    · rw [← a6]
      exact get16be_congr _ _ _ (put32be_other _ _ _ _ (by omega))
        (put32be_other _ _ _ _ (by omega))

theorem lua_gate_open (c : ship_t) (h : 16 ≤ c.proto_ver ∧ c.flags &&& LOGIN_FLAG_LUA ≠ 0) :
    ¬ (c.proto_ver < 16 ∨ c.flags &&& LOGIN_FLAG_LUA = 0) := by
  intro hh
  rcases hh with hh | hh
  · omega
  · exact h.2 hh

/-- C22, evaluated at a failing input: the script is 33000 bytes long, above
32768, the connection passes the scripting gate (version 17, flag set) and
the file yields 33000 bytes; `send_script` builds a packet of 33056 bytes,
returns 0 (for every large enough fuel) and the transport has received 33056
bytes. `send_script_chunk` with the same length returns -1 with nothing
sent. -/
theorem send_script_oversized_is_sent :
    32768 < script33000.len ∧
    (16 ≤ shipV17Lua.proto_ver ∧ shipV17Lua.flags &&& LOGIN_FLAG_LUA ≠ 0) ∧
    (send_script_pkt scratchA script33000 (some file33000)).2 = 33056 ∧
    (∃ n w1, (∀ fuel, n ≤ fuel →
        send_script envAll fuel scratchA shipV17Lua script33000 (some file33000) world0 =
          some (0, shipV17Lua, w1)) ∧ w1.wire.length = 33056) ∧
    (∀ fuel, send_script_chunk envAll fuel scratchA shipV17Lua script33000.remote_fn
        SCHUNK_TYPE_SCRIPT 33000 1 (some file33000) world0 = some (-1, shipV17Lua, world0)) := by
  have hlen : (send_script_pkt scratchA script33000 (some file33000)).2 = 33056 := by decide
  have hg : ¬ (shipV17Lua.proto_ver < 16 ∨ shipV17Lua.flags &&& LOGIN_FLAG_LUA = 0) := by
    decide
  refine ⟨by decide, ⟨by decide, by decide⟩, hlen, ?_, ?_⟩
  · obtain ⟨n, w1, h1, h2⟩ := send_crypt_transmits envAll
      (send_script_pkt scratchA script33000 (some file33000)).1 shipV17Lua 33056 world0
      (by omega) rfl envAll_accepting
    refine ⟨n, w1, fun fuel hf => ?_, ?_⟩
    · have hl : file33000.length = 33000 := List.length_replicate _ _
      have hm : ¬ (min script33000.len file33000.length ≠ script33000.len) := by
        rw [hl]
        decide
      simp only [send_script, hg, if_false]
      rw [if_neg hm, hlen]
      exact h1 fuel hf
    · rw [h2, List.length_append, bytes_length]
      rfl
  · intro fuel
    have h2 : (33000 : Nat) > 32768 := by decide
    simp only [send_script_chunk, hg, if_false, h2, if_true]

/-- C23, evaluated at a failing input: on a connection that passes the
scripting gate, with a file that cannot be opened, and with a file of 3 bytes
for a script of 100, `send_script` returns 0, the result of a success, where
a failure result is required (connection and world are unchanged: nothing is
sent). `send_script_chunk` returns -1 in both situations. -/
theorem send_script_unreadable_returns_zero :
    (16 ≤ shipV17Lua.proto_ver ∧ shipV17Lua.flags &&& LOGIN_FLAG_LUA ≠ 0) ∧
    (∀ fuel, send_script envAll fuel scratchA shipV17Lua scriptA none world0 =
      some (0, shipV17Lua, world0)) ∧
    ([1, 2, 3].length < scriptA.len ∧
      ∀ fuel, send_script envAll fuel scratchA shipV17Lua scriptA (some [1, 2, 3]) world0 =
        some (0, shipV17Lua, world0)) ∧
    (∀ fuel, send_script_chunk envAll fuel scratchA shipV17Lua scriptA.remote_fn
        SCHUNK_TYPE_SCRIPT scriptA.len scriptA.crc none world0 =
      some (-1, shipV17Lua, world0)) ∧
    (∀ fuel, send_script_chunk envAll fuel scratchA shipV17Lua scriptA.remote_fn
        SCHUNK_TYPE_SCRIPT scriptA.len scriptA.crc (some [1, 2, 3]) world0 =
      some (-1, shipV17Lua, world0)) := by
  have hg : ¬ (shipV17Lua.proto_ver < 16 ∨ shipV17Lua.flags &&& LOGIN_FLAG_LUA = 0) := by
    decide
  have hm : min scriptA.len [1, 2, 3].length ≠ scriptA.len := by decide
  have h2 : ¬ (scriptA.len > 32768) := by decide
  refine ⟨⟨by decide, by decide⟩, fun fuel => ?_, ⟨by decide, fun fuel => ?_⟩, fun fuel => ?_,
    fun fuel => ?_⟩
  · simp only [send_script, hg, if_false]
  · simp only [send_script, hg, if_false]
    rw [if_pos hm]
  · simp only [send_script_chunk, hg, if_false, h2]
  · simp only [send_script_chunk, hg, if_false, h2]
    rw [if_pos hm]

theorem IsChunkHeader_congr (m m' : Mem) (k l cr a : Nat) (fn : CStr)
    (h : ∀ i, i < 56 → m' i = m i) (hm : IsChunkHeader m k l cr a fn) :
    IsChunkHeader m' k l cr a fn := by
  obtain ⟨a1, a2, a3, a4, a5, a6⟩ := hm
  refine ⟨?_, ?_, ?_, ?_, ?_, ?_⟩
  · rw [← a1]
    exact bytes_congr _ _ _ _ _ (fun j hj => h _ (by omega))
  · rw [h 8 (by omega)]
    exact a2
  · rw [← a3]
    exact bytes_congr _ _ _ _ _ (fun j hj => h _ (by omega))
  · rw [← a4]
    exact bytes_congr _ _ _ _ _ (fun j hj => h _ (by omega))
  · rw [← a5]
    exact bytes_congr _ _ _ _ _ (fun j hj => h _ (by omega))
  · rw [← a6]
    exact bytes_congr _ _ _ _ _ (fun j hj => h _ (by omega))

theorem send_script_pkt_eq (sb : Mem) (scr : ship_script_t) (bs : List Nat)
    (hlen : scr.len ≤ 32768) (hfile : scr.len ≤ bs.length) :
    send_script_pkt sb scr (some bs) =
      (memcpy
        (if scr.event ≠ 0 then
          put32be (put32be (strncpy (put32be (put8 (put16be (put16be
            (memset sb 0 0 (round_up8 (56 + scr.len))) 0 (round_up8 (56 + scr.len))) 2
            SHDR_TYPE_SCHUNK) 8 (if scr.module ≠ 0 then 0x02 else 0x01)) 12 scr.len) 24
            scr.remote_fn 32) 16 scr.crc) 20 scr.event
         else
          put32be (strncpy (put32be (put8 (put16be (put16be
            (memset sb 0 0 (round_up8 (56 + scr.len))) 0 (round_up8 (56 + scr.len))) 2
            SHDR_TYPE_SCHUNK) 8 (if scr.module ≠ 0 then 0x02 else 0x01)) 12 scr.len) 24
            scr.remote_fn 32) 16 scr.crc)
        56 (fun i => bs.getD i 0) 0 scr.len, round_up8 (56 + scr.len)) := by
  have h56 : (sizeof_shipgate_schunk_pkt + scr.len) % 65536 = 56 + scr.len := by
    have : sizeof_shipgate_schunk_pkt = 56 := rfl
    rw [this]
    omega
  have hpl := round_fff8 (56 + scr.len) (by omega)
  simp only [send_script_pkt, h56, hpl, Nat.min_eq_left hfile]
  rfl

/-- C24: on a connection that passes the scripting gate, for a script of at
most 32768 bytes whose file yields its `len` bytes, `send_script` hands to
`send_raw` one packet of `T` bytes, `T` the least multiple of 8 that is at
least `56 + len`: declared length `T`, type 0x002B, `chunk_type` 0x02 for a
module and 0x01 otherwise, `chunk_length = len`, `chunk_crc = crc` and
`action = event` big-endian (zero when `event` is 0), the file name field
holding the first `min(32, strlen)` bytes of `remote_fn` followed by zeros,
the file bytes from offset 56 and zeros from `56 + len` to `T - 1`; on a
connection with an empty queue and a transport that keeps accepting, the
call returns 0 and the transport receives exactly these `T` bytes. -/
theorem send_script_layout (env : Env) (sb : Mem) (c : ship_t) (scr : ship_script_t)
    (bs : List Nat) (w : World)
    (hgate : 16 ≤ c.proto_ver ∧ c.flags &&& LOGIN_FLAG_LUA ≠ 0)
    (hlen : scr.len ≤ 32768) (hfile : scr.len ≤ bs.length) :
    (send_script_pkt sb scr (some bs)).2 = round_up8 (56 + scr.len) ∧
    (∀ fuel, send_script env fuel sb c scr (some bs) w =
      send_raw env fuel (send_script_pkt sb scr (some bs)).1 c (round_up8 (56 + scr.len)) w) ∧
    get16be (send_script_pkt sb scr (some bs)).1 0 = round_up8 (56 + scr.len) ∧
    IsChunkHeader (send_script_pkt sb scr (some bs)).1 (if scr.module ≠ 0 then 0x02 else 0x01)
      scr.len scr.crc scr.event scr.remote_fn ∧
    bytes (send_script_pkt sb scr (some bs)).1 56 scr.len = bs.take scr.len ∧
    (∀ i, 56 + scr.len ≤ i → i < round_up8 (56 + scr.len) →
      (send_script_pkt sb scr (some bs)).1 i = 0) ∧
    (c.sendbuf_cur = 0 → Accepting env →
      ∃ n w1, (∀ fuel, n ≤ fuel →
          send_script env fuel sb c scr (some bs) w = some (0, c, w1)) ∧
        w1.wire = w.wire ++
          bytes (send_script_pkt sb scr (some bs)).1 0 (round_up8 (56 + scr.len))) := by
  have hg := lua_gate_open c hgate
  have hp := send_script_pkt_eq sb scr bs hlen hfile
  obtain ⟨r1, r2, r3⟩ := round_up8_spec (56 + scr.len)
  have hk : (if scr.module ≠ 0 then 0x02 else 0x01) < 256 := by split_ifs <;> omega
  obtain ⟨L1, L2, L3⟩ := chunk_header_layout sb (round_up8 (56 + scr.len))
    (if scr.module ≠ 0 then 0x02 else 0x01) scr.len scr.crc scr.event scr.remote_fn
    (by omega) hk
  have hm : ¬ (min scr.len bs.length ≠ scr.len) := by omega
  have hsend : ∀ fuel, send_script env fuel sb c scr (some bs) w =
      send_raw env fuel (send_script_pkt sb scr (some bs)).1 c
        (round_up8 (56 + scr.len)) w := by
    intro fuel
    have h8 : ¬ (((round_up8 (56 + scr.len) : Nat) : Int) < 8) := by omega
    simp only [send_script, hg, if_false]
    rw [if_neg hm]
    simp only [hp, send_crypt, h8, if_false]
  refine ⟨by rw [hp], hsend, ?_, ?_, ?_, ?_, ?_⟩
  · rw [hp]
    have e : ∀ M : Mem,
        get16be (memcpy M 56 (fun i => bs.getD i 0) 0 scr.len) 0 = get16be M 0 :=
      fun M => get16be_congr _ _ 0 (memcpy_other _ _ _ _ _ _ (by omega))
        (memcpy_other _ _ _ _ _ _ (by omega))
    dsimp only
    rw [e, L3]
    omega
  · rw [hp]
    dsimp only
    exact IsChunkHeader_congr _ _ _ _ _ _ _
      (fun i hi => memcpy_other _ 56 _ 0 scr.len i (Or.inl hi)) L1
  · rw [hp, ← bytes_file bs scr.len hfile]
    apply bytes_congr
    intro i hi
    dsimp only
    rw [memcpy_inside _ _ _ _ _ _ (by omega) (by omega)]
    congr 1
    omega
  · intro i h1 h2
    rw [hp]
    dsimp only
    rw [memcpy_other _ _ _ _ _ _ (by omega)]
    exact L2 i (by omega)
  · intro hq hacc
    obtain ⟨k, w1, h1, h2, _⟩ := send_raw_accepting env
      (send_script_pkt sb scr (some bs)).1 c (round_up8 (56 + scr.len)) w hq hacc
    exact ⟨k, w1, fun fuel hf => by rw [hsend fuel, ← h1 fuel hf], h2⟩

/-- Witness of C24: the module `m.lua` of 5 bytes with event hook 9 is sent
in a packet of 64 bytes. -/
theorem send_script_layout_witness :
    (16 ≤ shipV17Lua.proto_ver ∧ shipV17Lua.flags &&& LOGIN_FLAG_LUA ≠ 0) ∧
    scriptM.len ≤ 32768 ∧ scriptM.len ≤ [11, 12, 13, 14, 15].length ∧
    (send_script_pkt scratchA scriptM (some [11, 12, 13, 14, 15])).2 =
      round_up8 (56 + scriptM.len) ∧
    bytes (send_script_pkt scratchA scriptM (some [11, 12, 13, 14, 15])).1 0 64 =
      [0, 64, 0, 43, 0, 0, 0, 0, 2, 0, 0, 0, 0, 0, 0, 5, 1, 2, 3, 4, 0, 0, 0, 9,
       109, 46, 108, 117, 97, 0, 0, 0, 0, 0, 0, 0, 0, 0, 0, 0,
       0, 0, 0, 0, 0, 0, 0, 0, 0, 0, 0, 0, 0, 0, 0, 0,
       11, 12, 13, 14, 15, 0, 0, 0] :=
  ⟨⟨by decide, by decide⟩, by decide, by decide,
   (send_script_layout envAll scratchA shipV17Lua scriptM [11, 12, 13, 14, 15] world0
      ⟨by decide, by decide⟩ (by decide) (by decide)).1,
   by decide⟩

/-- C25: with `LOGIN_FLAG_LUA` set, `send_script_check` (from version 16)
and `send_script_delete` (from version 20) each hand to `send_raw` a packet
of exactly 56 bytes, header and metadata only, with declared length 56 and
type 0x002B. For check, `chunk_type = 0x80 | kind`, and `chunk_length` and
`chunk_crc` carry `scr->len` and `scr->crc` big-endian; for delete,
`chunk_type = 0x40 | kind`, and `chunk_length` and `chunk_crc` are zero
whatever `scr->len` and `scr->crc` are. `kind` is 0x02 for a module and 0x01
for a script, `action` carries `scr->event`, and the file name field is
`remote_fn` cut at 32 bytes and zero-padded. On a connection with an empty
queue and a transport that keeps accepting, the 56 bytes reach the
transport. -/
theorem script_check_delete_layout (env : Env) (sb : Mem) (c : ship_t) (scr : ship_script_t)
    (w : World) (hflag : c.flags &&& LOGIN_FLAG_LUA ≠ 0) :
    (16 ≤ c.proto_ver →
      (send_script_check_pkt sb scr).2 = 56 ∧
      (∀ fuel, send_script_check env fuel sb c scr w =
        send_raw env fuel (send_script_check_pkt sb scr).1 c 56 w) ∧
      get16be (send_script_check_pkt sb scr).1 0 = 56 ∧
      IsChunkHeader (send_script_check_pkt sb scr).1
        (0x80 ||| (if scr.module ≠ 0 then 0x02 else 0x01)) scr.len scr.crc scr.event
        scr.remote_fn ∧
      (c.sendbuf_cur = 0 → Accepting env →
        ∃ n w1, (∀ fuel, n ≤ fuel →
            send_script_check env fuel sb c scr w = some (0, c, w1)) ∧
          w1.wire = w.wire ++ bytes (send_script_check_pkt sb scr).1 0 56)) ∧
    (20 ≤ c.proto_ver →
      (send_script_delete_pkt sb scr).2 = 56 ∧
      (∀ fuel, send_script_delete env fuel sb c scr w =
        send_raw env fuel (send_script_delete_pkt sb scr).1 c 56 w) ∧
      get16be (send_script_delete_pkt sb scr).1 0 = 56 ∧
      IsChunkHeader (send_script_delete_pkt sb scr).1
        (0x40 ||| (if scr.module ≠ 0 then 0x02 else 0x01)) 0 0 scr.event scr.remote_fn ∧
      (c.sendbuf_cur = 0 → Accepting env →
        ∃ n w1, (∀ fuel, n ≤ fuel →
            send_script_delete env fuel sb c scr w = some (0, c, w1)) ∧
          w1.wire = w.wire ++ bytes (send_script_delete_pkt sb scr).1 0 56)) := by
  constructor
  · intro hv
    have hg := lua_gate_open c ⟨hv, hflag⟩
    have hk : (0x80 ||| (if scr.module ≠ 0 then 0x02 else 0x01)) < 256 := by
      split_ifs <;> decide
    obtain ⟨L1, _, L3⟩ := chunk_header_layout sb 56
      (0x80 ||| (if scr.module ≠ 0 then 0x02 else 0x01)) scr.len scr.crc scr.event
      scr.remote_fn (by omega) hk
    have hsend : ∀ fuel, send_script_check env fuel sb c scr w =
        send_raw env fuel (send_script_check_pkt sb scr).1 c 56 w := by
      intro fuel
      simp only [send_script_check, hg, if_false]
      rfl
    refine ⟨rfl, hsend, L3, L1, ?_⟩
    intro hq hacc
    obtain ⟨k, w1, h1, h2, _⟩ := send_raw_accepting env
      (send_script_check_pkt sb scr).1 c 56 w hq hacc
    exact ⟨k, w1, fun fuel hf => by rw [hsend fuel, ← h1 fuel hf]; rfl, h2⟩
  · intro hv
    have hg : ¬ (c.proto_ver < 20 ∨ c.flags &&& LOGIN_FLAG_LUA = 0) := by
      intro hh
      rcases hh with hh | hh
      · omega
      · exact hflag hh
    have hk : (0x40 ||| (if scr.module ≠ 0 then 0x02 else 0x01)) < 256 := by
      split_ifs <;> decide
    obtain ⟨L1, _, L3⟩ := chunk_header_layout sb 56
      (0x40 ||| (if scr.module ≠ 0 then 0x02 else 0x01)) 0 0 scr.event
      scr.remote_fn (by omega) hk
    have hsend : ∀ fuel, send_script_delete env fuel sb c scr w =
        send_raw env fuel (send_script_delete_pkt sb scr).1 c 56 w := by
      intro fuel
      simp only [send_script_delete, hg, if_false]
      rfl
    refine ⟨rfl, hsend, L3, L1, ?_⟩
    intro hq hacc
    obtain ⟨k, w1, h1, h2, _⟩ := send_raw_accepting env
      (send_script_delete_pkt sb scr).1 c 56 w hq hacc
    exact ⟨k, w1, fun fuel hf => by rw [hsend fuel, ← h1 fuel hf]; rfl, h2⟩

/-- Witness of C25: the check and delete packets of the module `m.lua`
(length 5, crc 0x01020304, event hook 9) on a connection at version 20 with
the scripting flag. -/
theorem script_check_delete_layout_witness :
    shipV20Lua.flags &&& LOGIN_FLAG_LUA ≠ 0 ∧ 20 ≤ shipV20Lua.proto_ver ∧
    (send_script_check_pkt scratchA scriptM).2 = 56 ∧
    (send_script_delete_pkt scratchA scriptM).2 = 56 ∧
    bytes (send_script_check_pkt scratchA scriptM).1 0 56 =
      [0, 56, 0, 43, 0, 0, 0, 0, 130, 0, 0, 0, 0, 0, 0, 5, 1, 2, 3, 4, 0, 0, 0, 9,
       109, 46, 108, 117, 97, 0, 0, 0, 0, 0, 0, 0, 0, 0, 0, 0,
       0, 0, 0, 0, 0, 0, 0, 0, 0, 0, 0, 0, 0, 0, 0, 0] ∧
    bytes (send_script_delete_pkt scratchA scriptM).1 0 56 =
      [0, 56, 0, 43, 0, 0, 0, 0, 66, 0, 0, 0, 0, 0, 0, 0, 0, 0, 0, 0, 0, 0, 0, 9,
       109, 46, 108, 117, 97, 0, 0, 0, 0, 0, 0, 0, 0, 0, 0, 0,
       0, 0, 0, 0, 0, 0, 0, 0, 0, 0, 0, 0, 0, 0, 0, 0] :=
  ⟨by decide, by decide,
   ((script_check_delete_layout envAll scratchA shipV20Lua scriptM world0 (by decide)).1
      (by decide)).1,
   ((script_check_delete_layout envAll scratchA shipV20Lua scriptM world0 (by decide)).2
      (by decide)).1,
   by decide, by decide⟩

/-! ## Script data: theorems -/

theorem send_sdata_pkt_eq (sb : Mem) (gc block event : Nat) (data : Mem) (len : Nat)
    (hlen : len ≤ 32768) :
    send_sdata_pkt sb gc block event data len =
      (memcpy (put32be (put32be (put32be (put32be (put16be (put16be
        (memset sb 0 0 (round_up8 (28 + len))) 0 (round_up8 (28 + len))) 2 SHDR_TYPE_SDATA)
        8 event) 12 len) 16 gc) 20 block) 28 data 0 len, round_up8 (28 + len)) := by
  have h28 : (sizeof_shipgate_sdata_pkt + len) % 65536 = 28 + len := by
    have : sizeof_shipgate_sdata_pkt = 28 := rfl
    rw [this]
    omega
  have hpl := round_fff8 (28 + len) (by omega)
  simp only [send_sdata_pkt, h28, hpl]

/-- C30: on a connection that passes the scripting gate, `send_sdata`
returns -1 with connection and world unchanged (nothing sent) when
`len > 32768`; for `len <= 32768` it hands to `send_raw` one packet of `T`
bytes, `T` the least multiple of 8 that is at least `28 + len`, with declared
length `T`, type 0x002C, the event id at offsets 8-11, `data_len = len` at
12-15, the guildcard at 16-19 and the block at 20-23, all big-endian, bytes
24-27 zero, the data from offset 28 and zeros from `28 + len` to `T - 1`; on
a connection with an empty queue and a transport that keeps accepting, the
call returns 0 and the transport receives exactly these `T` bytes. -/
theorem send_sdata_layout (env : Env) (sb : Mem) (c : ship_t) (gc block event : Nat)
    (data : Mem) (len : Nat) (w : World)
    (hgate : 16 ≤ c.proto_ver ∧ c.flags &&& LOGIN_FLAG_LUA ≠ 0) :
    (32768 < len →
      ∀ fuel, send_sdata env fuel sb c gc block event data len w = some (-1, c, w)) ∧
    (len ≤ 32768 →
      (send_sdata_pkt sb gc block event data len).2 = round_up8 (28 + len) ∧
      (∀ fuel, send_sdata env fuel sb c gc block event data len w =
        send_raw env fuel (send_sdata_pkt sb gc block event data len).1 c
          (round_up8 (28 + len)) w) ∧
      get16be (send_sdata_pkt sb gc block event data len).1 0 = round_up8 (28 + len) ∧
      bytes (send_sdata_pkt sb gc block event data len).1 2 2 = be16 0x002C ∧
      bytes (send_sdata_pkt sb gc block event data len).1 8 4 = be32 event ∧
      bytes (send_sdata_pkt sb gc block event data len).1 12 4 = be32 len ∧
      bytes (send_sdata_pkt sb gc block event data len).1 16 4 = be32 gc ∧
      bytes (send_sdata_pkt sb gc block event data len).1 20 4 = be32 block ∧
      bytes (send_sdata_pkt sb gc block event data len).1 24 4 = [0, 0, 0, 0] ∧
      bytes (send_sdata_pkt sb gc block event data len).1 28 len = bytes data 0 len ∧
      (∀ i, 28 + len ≤ i → i < round_up8 (28 + len) →
        (send_sdata_pkt sb gc block event data len).1 i = 0) ∧
      (c.sendbuf_cur = 0 → Accepting env →
        ∃ n w1, (∀ fuel, n ≤ fuel →
            send_sdata env fuel sb c gc block event data len w = some (0, c, w1)) ∧
          w1.wire = w.wire ++
            bytes (send_sdata_pkt sb gc block event data len).1 0 (round_up8 (28 + len)))) := by
  have hg := lua_gate_open c hgate
  constructor
  · intro h fuel
    have h2 : len > 32768 := h
    simp only [send_sdata, hg, if_false, h2, if_true]
  · intro hlen
    have hp := send_sdata_pkt_eq sb gc block event data len hlen
    obtain ⟨r1, r2, r3⟩ := round_up8_spec (28 + len)
    have hsend : ∀ fuel, send_sdata env fuel sb c gc block event data len w =
        send_raw env fuel (send_sdata_pkt sb gc block event data len).1 c
          (round_up8 (28 + len)) w := by
      intro fuel
      have h2 : ¬ (len > 32768) := by omega
      have h8 : ¬ (((round_up8 (28 + len) : Nat) : Int) < 8) := by omega
      simp only [send_sdata, hg, if_false, h2]
      simp only [hp, send_crypt, h8, if_false]
    refine ⟨by rw [hp], hsend, ?_, ?_, ?_, ?_, ?_, ?_, ?_, ?_, ?_, ?_⟩
    · rw [hp]
      dsimp only
      refine Eq.trans (get16be_congr (put16be (memset sb 0 0 (round_up8 (28 + len))) 0
        (round_up8 (28 + len))) _ 0 ?_ ?_)
        ((get16be_put16be _ _ _).trans (Nat.mod_eq_of_lt (by omega)))
      · rw [memcpy_other _ _ _ _ _ _ (by omega), put32be_other _ _ _ _ (by omega),
          put32be_other _ _ _ _ (by omega), put32be_other _ _ _ _ (by omega),
          put32be_other _ _ _ _ (by omega), put16be_other _ _ _ _ (by omega)]
      · rw [memcpy_other _ _ _ _ _ _ (by omega), put32be_other _ _ _ _ (by omega),
          put32be_other _ _ _ _ (by omega), put32be_other _ _ _ _ (by omega),
          put32be_other _ _ _ _ (by omega), put16be_other _ _ _ _ (by omega)]
    · rw [hp]
      dsimp only
      rw [show be16 0x002C = be16 SHDR_TYPE_SDATA from rfl,
        ← bytes_put16be (put16be (memset sb 0 0 (round_up8 (28 + len))) 0
          (round_up8 (28 + len))) 2 SHDR_TYPE_SDATA]
      apply bytes_congr
      intro j hj
      rw [memcpy_other _ _ _ _ _ _ (by omega), put32be_other _ _ _ _ (by omega),
        put32be_other _ _ _ _ (by omega), put32be_other _ _ _ _ (by omega),
        put32be_other _ _ _ _ (by omega)]
    · rw [hp]
      dsimp only
      rw [← bytes_put32be (put16be (put16be (memset sb 0 0 (round_up8 (28 + len))) 0
          (round_up8 (28 + len))) 2 SHDR_TYPE_SDATA) 8 event]
      apply bytes_congr
      intro j hj
      rw [memcpy_other _ _ _ _ _ _ (by omega), put32be_other _ _ _ _ (by omega),
        put32be_other _ _ _ _ (by omega), put32be_other _ _ _ _ (by omega)]
    · rw [hp]
      dsimp only
      rw [← bytes_put32be (put32be (put16be (put16be (memset sb 0 0 (round_up8 (28 + len))) 0
          (round_up8 (28 + len))) 2 SHDR_TYPE_SDATA) 8 event) 12 len]
      apply bytes_congr
      intro j hj
      rw [memcpy_other _ _ _ _ _ _ (by omega), put32be_other _ _ _ _ (by omega),
        put32be_other _ _ _ _ (by omega)]
    · rw [hp]
      dsimp only
      rw [← bytes_put32be (put32be (put32be (put16be (put16be
          (memset sb 0 0 (round_up8 (28 + len))) 0
          (round_up8 (28 + len))) 2 SHDR_TYPE_SDATA) 8 event) 12 len) 16 gc]
      apply bytes_congr
      intro j hj
      rw [memcpy_other _ _ _ _ _ _ (by omega), put32be_other _ _ _ _ (by omega)]
    · rw [hp]
      dsimp only
      rw [← bytes_put32be (put32be (put32be (put32be (put16be (put16be
          (memset sb 0 0 (round_up8 (28 + len))) 0
          (round_up8 (28 + len))) 2 SHDR_TYPE_SDATA) 8 event) 12 len) 16 gc) 20 block]
      apply bytes_congr
      intro j hj
      rw [memcpy_other _ _ _ _ _ _ (by omega)]
    · rw [hp]
      dsimp only
      rw [show ([0, 0, 0, 0] : List Nat) = be32 0 from rfl]
      apply bytes_zero_four
      intro j hj
      rw [memcpy_other _ _ _ _ _ _ (by omega), put32be_other _ _ _ _ (by omega),
        put32be_other _ _ _ _ (by omega), put32be_other _ _ _ _ (by omega),
        put32be_other _ _ _ _ (by omega), put16be_other _ _ _ _ (by omega),
        put16be_other _ _ _ _ (by omega), memset_inside _ _ _ _ _ (by omega) (by omega)]
    · rw [hp]
      apply bytes_congr
      intro i hi
      dsimp only
      rw [memcpy_inside _ _ _ _ _ _ (by omega) (by omega)]
      congr 1
      omega
    · intro i h1 h2
      rw [hp]
      dsimp only
      rw [memcpy_other _ _ _ _ _ _ (by omega), put32be_other _ _ _ _ (by omega),
        put32be_other _ _ _ _ (by omega), put32be_other _ _ _ _ (by omega),
        put32be_other _ _ _ _ (by omega), put16be_other _ _ _ _ (by omega),
        put16be_other _ _ _ _ (by omega), memset_inside _ _ _ _ _ (by omega) (by omega)]
    · intro hq hacc
      obtain ⟨k, w1, h1, h2, _⟩ := send_raw_accepting env
        (send_sdata_pkt sb gc block event data len).1 c (round_up8 (28 + len)) w hq hacc
      exact ⟨k, w1, fun fuel hf => by rw [hsend fuel, ← h1 fuel hf], h2⟩

/-- Witness of C30: 3 data bytes are sent in a packet of 32 bytes; 40000
data bytes are refused. -/
theorem send_sdata_layout_witness :
    (16 ≤ shipV17Lua.proto_ver ∧ shipV17Lua.flags &&& LOGIN_FLAG_LUA ≠ 0) ∧
    (∀ fuel, send_sdata envAll fuel scratchA shipV17Lua 1 2 3 scratchB 40000 world0 =
      some (-1, shipV17Lua, world0)) ∧
    (send_sdata_pkt scratchA 1 2 3 scratchB 3).2 = round_up8 (28 + 3) ∧
    bytes (send_sdata_pkt scratchA 1 2 3 scratchB 3).1 0 32 =
      [0, 32, 0, 44, 0, 0, 0, 0, 0, 0, 0, 3, 0, 0, 0, 3, 0, 0, 0, 1, 0, 0, 0, 2,
       0, 0, 0, 0, 101, 102, 103, 0] :=
  ⟨⟨by decide, by decide⟩,
   (send_sdata_layout envAll scratchA shipV17Lua 1 2 3 scratchB 40000 world0
      ⟨by decide, by decide⟩).1 (by decide),
   ((send_sdata_layout envAll scratchA shipV17Lua 1 2 3 scratchB 3 world0
      ⟨by decide, by decide⟩).2 (by decide)).1,
   by decide⟩

/-! ## The scratch buffer: what `send_raw` reads of it -/

theorem memcpy_src_congr (dst : Mem) (doff : Nat) (src src' : Mem) (soff n : Nat)
    (h : ∀ j, j < n → src (soff + j) = src' (soff + j)) :
    memcpy dst doff src soff n = memcpy dst doff src' soff n := by
  funext i
  simp only [memcpy]
  split_ifs with hi
  · exact h _ (by omega)
  · rfl

theorem ship_send_congr (env : Env) (w : World) (sb sb' : Mem) (len total : Int)
    (h : ∀ i : Nat, (i : Int) < len → sb i = sb' i) (h0 : 0 ≤ total) :
    ship_send env w sb total (len - total) = ship_send env w sb' total (len - total) := by
  have hb : bytes sb total.toNat
        (min (env.send w.log.length (len - total)) (len - total)).toNat =
      bytes sb' total.toNat
        (min (env.send w.log.length (len - total)) (len - total)).toNat :=
    bytes_congr _ _ _ _ _ (fun i hi => h _ (by omega))
  simp only [ship_send, hb]

theorem send_loop_nonneg (env : Env) (sb : Mem) (len : Int) :
    ∀ (fuel : Nat) (total : Int) (w : World) (t : Int) (w1 : World), 0 ≤ total →
      send_loop env sb len fuel total w = some (some t, w1) → 0 ≤ t := by
  intro fuel
  induction fuel with
  | zero =>
    intro total w t w1 h0 h
    by_cases hlt : total < len
    · simp [send_loop, hlt] at h
    · simp only [send_loop, hlt, if_false, Option.some.injEq, Prod.mk.injEq] at h
      omega
  | succ n ih =>
    intro total w t w1 h0 h
    by_cases hlt : total < len
    · rw [send_loop_step env sb len n total w hlt] at h
      split_ifs at h with a b
      · exact ih _ _ _ _ h0 h
      · simp at h
      · exact ih _ _ _ _ (by omega) h
    · rw [send_loop_done env sb len _ total w hlt] at h
      simp only [Option.some.injEq, Prod.mk.injEq] at h
      omega

/-- The send loop reads the scratch buffer only below `len`. -/
theorem send_loop_congr (env : Env) (sb sb' : Mem) (len : Int)
    (h : ∀ i : Nat, (i : Int) < len → sb i = sb' i) :
    ∀ (fuel : Nat) (total : Int) (w : World), 0 ≤ total →
      send_loop env sb len fuel total w = send_loop env sb' len fuel total w := by
  intro fuel
  induction fuel with
  | zero =>
    intro total w _
    simp [send_loop]
  | succ n ih =>
    intro total w h0
    by_cases hlt : total < len
    · rw [send_loop_step env sb len n total w hlt, send_loop_step env sb' len n total w hlt,
        ship_send_congr env w sb sb' len total h h0]
      split_ifs with a b
      · exact ih _ _ h0
      · rfl
      · exact ih _ _ (by omega)
    · rw [send_loop_done env sb len _ total w hlt, send_loop_done env sb' len _ total w hlt]

theorem send_raw_queue_congr (env : Env) (sb sb' : Mem) (c : ship_t) (len total : Int)
    (h : ∀ i : Nat, (i : Int) < len → sb i = sb' i) (h0 : 0 ≤ total) :
    send_raw_queue env sb c len total = send_raw_queue env sb' c len total := by
  have hm : ∀ (dst : Mem) (doff : Nat),
      memcpy dst doff sb total.toNat (len - total).toNat =
        memcpy dst doff sb' total.toNat (len - total).toNat :=
    fun dst doff => memcpy_src_congr _ _ _ _ _ _ (fun j hj => h _ (by omega))
  simp only [send_raw_queue, hm]

/-- The result of `send_raw` depends on the scratch buffer only through its
first `len` bytes. -/
theorem send_raw_congr (env : Env) (fuel : Nat) (sb sb' : Mem) (c : ship_t) (len : Int)
    (w : World) (h : ∀ i : Nat, (i : Int) < len → sb i = sb' i) :
    send_raw env fuel sb c len w = send_raw env fuel sb' c len w := by
  by_cases hq : c.sendbuf_cur = 0
  · rw [send_raw_empty _ _ _ _ _ _ hq, send_raw_empty _ _ _ _ _ _ hq,
      send_loop_congr env sb sb' len h fuel 0 w (le_refl _)]
    cases hl : send_loop env sb' len fuel 0 w with
    | none => rfl
    | some p =>
      obtain ⟨r, w1⟩ := p
      cases r with
      | none => rfl
      | some t =>
        have ht := send_loop_nonneg env sb' len fuel 0 w t w1 (le_refl _) hl
        simp only [send_raw_queue_congr env sb sb' c len t h ht]
  · simp only [send_raw, hq, if_false]
    rw [send_raw_queue_congr env sb sb' c len 0 h (le_refl _)]

/-- The same packet handed to `send_crypt` from two scratch buffers gives the
same result: return value, connection (queue included) and world. -/
theorem send_crypt_same (env : Env) (fuel : Nat) (c : ship_t) (w : World) (p p' : Mem × Nat)
    (h : SamePacket p p') :
    send_crypt env fuel p.1 c p.2 w = send_crypt env fuel p'.1 c p'.2 w := by
  obtain ⟨h1, h2⟩ := h
  rw [← h1]
  simp only [send_crypt]
  split_ifs
  · rfl
  · exact send_raw_congr env fuel p.1 p'.1 c p.2 w (fun i hi => h2 i (by omega))

/-! ## The scratch buffer: every store makes two buffers agree where it writes -/

theorem put8_agree (S : Nat → Prop) (m m' : Mem) (off v : Nat)
    (h : AgreeOn (fun i => S i ∧ i ≠ off) m m') : AgreeOn S (put8 m off v) (put8 m' off v) := by
  intro i hi
  by_cases hr : i = off
  · simp [put8, hr]
  · rw [put8_other _ _ _ _ hr, put8_other _ _ _ _ hr]
    exact h i ⟨hi, hr⟩

theorem put16be_agree (S : Nat → Prop) (m m' : Mem) (off v : Nat)
    (h : AgreeOn (fun i => S i ∧ (i < off ∨ off + 2 ≤ i)) m m') :
    AgreeOn S (put16be m off v) (put16be m' off v) := by
  intro i hi
  by_cases hr : i < off ∨ off + 2 ≤ i
  · rw [put16be_other _ _ _ _ hr, put16be_other _ _ _ _ hr]
    exact h i ⟨hi, hr⟩
  · have : i = off ∨ i = off + 1 := by omega
    rcases this with rfl | rfl <;> simp [put16be]

theorem put32be_agree (S : Nat → Prop) (m m' : Mem) (off v : Nat)
    (h : AgreeOn (fun i => S i ∧ (i < off ∨ off + 4 ≤ i)) m m') :
    AgreeOn S (put32be m off v) (put32be m' off v) := by
  intro i hi
  by_cases hr : i < off ∨ off + 4 ≤ i
  · rw [put32be_other _ _ _ _ hr, put32be_other _ _ _ _ hr]
    exact h i ⟨hi, hr⟩
  · have : i = off ∨ i = off + 1 ∨ i = off + 2 ∨ i = off + 3 := by omega
    rcases this with rfl | rfl | rfl | rfl <;> simp [put32be]

theorem put16host_agree (e : Endian) (S : Nat → Prop) (m m' : Mem) (off v : Nat)
    (h : AgreeOn (fun i => S i ∧ (i < off ∨ off + 2 ≤ i)) m m') :
    AgreeOn S (put16host e m off v) (put16host e m' off v) := by
  intro i hi
  by_cases hr : i < off ∨ off + 2 ≤ i
  · rw [put16host_other _ _ _ _ _ hr, put16host_other _ _ _ _ _ hr]
    exact h i ⟨hi, hr⟩
  · have : i = off ∨ i = off + 1 := by omega
    rcases this with rfl | rfl <;> cases e <;> simp [put16host, put16be]

theorem put32host_agree (e : Endian) (S : Nat → Prop) (m m' : Mem) (off v : Nat)
    (h : AgreeOn (fun i => S i ∧ (i < off ∨ off + 4 ≤ i)) m m') :
    AgreeOn S (put32host e m off v) (put32host e m' off v) := by
  intro i hi
  by_cases hr : i < off ∨ off + 4 ≤ i
  · rw [put32host_other _ _ _ _ _ hr, put32host_other _ _ _ _ _ hr]
    exact h i ⟨hi, hr⟩
  · have : i = off ∨ i = off + 1 ∨ i = off + 2 ∨ i = off + 3 := by omega
    rcases this with rfl | rfl | rfl | rfl <;> cases e <;> simp [put32host, put32be]

theorem memset_agree (S : Nat → Prop) (m m' : Mem) (off v n : Nat)
    (h : AgreeOn (fun i => S i ∧ (i < off ∨ off + n ≤ i)) m m') :
    AgreeOn S (memset m off v n) (memset m' off v n) := by
  intro i hi
  by_cases hr : i < off ∨ off + n ≤ i
  · rw [memset_other _ _ _ _ _ hr, memset_other _ _ _ _ _ hr]
    exact h i ⟨hi, hr⟩
  · rw [memset_inside _ _ _ _ _ (by omega) (by omega),
      memset_inside _ _ _ _ _ (by omega) (by omega)]

theorem memcpy_agree (S : Nat → Prop) (m m' : Mem) (doff : Nat) (src : Mem) (soff n : Nat)
    (h : AgreeOn (fun i => S i ∧ (i < doff ∨ doff + n ≤ i)) m m') :
    AgreeOn S (memcpy m doff src soff n) (memcpy m' doff src soff n) := by
  intro i hi
  by_cases hr : i < doff ∨ doff + n ≤ i
  · rw [memcpy_other _ _ _ _ _ _ hr, memcpy_other _ _ _ _ _ _ hr]
    exact h i ⟨hi, hr⟩
  · rw [memcpy_inside _ _ _ _ _ _ (by omega) (by omega),
      memcpy_inside _ _ _ _ _ _ (by omega) (by omega)]

theorem strncpy_agree (S : Nat → Prop) (m m' : Mem) (doff : Nat) (s : CStr) (n : Nat)
    (h : AgreeOn (fun i => S i ∧ (i < doff ∨ doff + n ≤ i)) m m') :
    AgreeOn S (strncpy m doff s n) (strncpy m' doff s n) := by
  intro i hi
  by_cases hr : i < doff ∨ doff + n ≤ i
  · rw [strncpy_other _ _ _ _ _ hr, strncpy_other _ _ _ _ _ hr]
    exact h i ⟨hi, hr⟩
  · rw [strncpy_inside _ _ _ _ _ (by omega) (by omega),
      strncpy_inside _ _ _ _ _ (by omega) (by omega)]

/-- After `memset(sendbuf, 0, n)` two scratch buffers agree below `n`. -/
theorem memset_agree_below (m m' : Mem) (v n : Nat) :
    AgreeOn (fun i => i < n) (memset m 0 v n) (memset m' 0 v n) :=
  memset_agree _ m m' 0 v n (fun i hi => by
    have := hi.2
    have := hi.1
    omega)

theorem AgreeOn_mono (S T : Nat → Prop) (m m' : Mem) (hST : ∀ i, T i → S i)
    (h : AgreeOn S m m') : AgreeOn T m m' :=
  fun i hi => h i (hST i hi)

/-! ## The scratch buffer: the encoders -/

theorem send_ping_same (sb sb' : Mem) (reply : Int) :
    SamePacket (send_ping_pkt sb reply) (send_ping_pkt sb' reply) := by
  refine ⟨rfl, ?_⟩
  show AgreeOn (fun i => i < 8) _ _
  simp only [send_ping_pkt]
  split_ifs
  all_goals
    apply put16be_agree
    apply put8_agree
    apply put8_agree
    apply put16be_agree
    apply put16be_agree
    intro i hi
    exfalso
    omega

theorem send_cdata_same (e : Endian) (sb sb' : Mem) (gc slot : Nat) (cdata : Mem)
    (sz block : Nat) :
    SamePacket (send_cdata_pkt e sb gc slot cdata sz block)
      (send_cdata_pkt e sb' gc slot cdata sz block) := by
  refine ⟨rfl, ?_⟩
  show AgreeOn (fun i => i < 20 + sz) _ _
  simp only [send_cdata_pkt]
  apply memcpy_agree
  apply put32host_agree
  apply put32be_agree
  apply put32be_agree
  apply put8_agree
  apply put8_agree
  apply put16be_agree
  apply put16be_agree
  apply put16be_agree
  intro i hi
  exfalso
  omega

theorem send_global_msg_same (sb sb' : Mem) (requester : Nat) (text : Mem) (text_len : Nat) :
    SamePacket (send_global_msg_pkt sb requester text text_len)
      (send_global_msg_pkt sb' requester text text_len) := by
  refine ⟨rfl, ?_⟩
  show AgreeOn (fun i => i < (16 + text_len % 65536) % 65536) _ _
  simp only [send_global_msg_pkt]
  apply memcpy_agree
  apply put32be_agree
  apply put32be_agree
  apply put8_agree
  apply put8_agree
  apply put16be_agree
  apply put16be_agree
  apply put16be_agree
  intro i hi
  exfalso
  have : sizeof_shipgate_global_msg_pkt = 16 := rfl
  omega

theorem send_error_same (sb sb' : Mem) (type flags err : Nat) (data : Mem) (data_sz : Int)
    (h0 : 0 ≤ data_sz) :
    SamePacket (send_error_pkt sb type flags err data data_sz)
      (send_error_pkt sb' type flags err data data_sz) := by
  refine ⟨rfl, ?_⟩
  show AgreeOn (fun i => i < (((sizeof_shipgate_error_pkt : Nat) + data_sz) % 65536).toNat) _ _
  simp only [send_error_pkt]
  apply memcpy_agree
  apply put32be_agree
  apply put8_agree
  apply put8_agree
  apply put16be_agree
  apply put16be_agree
  apply put16be_agree
  apply memset_agree
  intro i hi
  exfalso
  have : sizeof_shipgate_error_pkt = 16 := rfl
  omega

theorem send_usrloginreply_same (sb sb' : Mem) (c : ship_t) (gc block : Nat) (good : Int)
    (p : Nat) :
    SamePacket (send_usrloginreply_pkt sb c gc block good p)
      (send_usrloginreply_pkt sb' c gc block good p) := by
  refine ⟨rfl, ?_⟩
  show AgreeOn (fun i => i < sizeof_shipgate_usrlogin_reply_pkt) _ _
  simp only [send_usrloginreply_pkt]
  split_ifs
  all_goals
    apply put32be_agree
    apply put32be_agree
    apply put32be_agree
    apply put8_agree
    apply put8_agree
    apply put16be_agree
    apply put16be_agree
    apply put16be_agree
    apply memset_agree
    intro i hi
    exfalso
    omega

theorem send_kick_same (sb sb' : Mem) (requester user block : Nat) (reason : Option CStr) :
    SamePacket (send_kick_pkt sb requester user block reason)
      (send_kick_pkt sb' requester user block reason) := by
  refine ⟨rfl, ?_⟩
  show AgreeOn (fun i => i < sizeof_shipgate_kick_pkt) _ _
  cases reason with
  | none =>
    simp only [send_kick_pkt]
    apply put32be_agree
    apply put32be_agree
    apply put32be_agree
    apply put8_agree
    apply put8_agree
    apply put16be_agree
    apply put16be_agree
    apply put16be_agree
    apply memset_agree
    intro i hi
    exfalso
    omega
  | some s =>
    simp only [send_kick_pkt]
    apply strncpy_agree
    apply put32be_agree
    apply put32be_agree
    apply put32be_agree
    apply put8_agree
    apply put8_agree
    apply put16be_agree
    apply put16be_agree
    apply put16be_agree
    apply memset_agree
    intro i hi
    exfalso
    omega

/-! ## The scratch buffer: the block list builder -/

theorem user_blocklist_begin_agree (e : Endian) (sb sb' : Mem) (g b : Nat) :
    AgreeOn (fun i => i < 24) (user_blocklist_begin e sb g b)
      (user_blocklist_begin e sb' g b) := by
  simp only [user_blocklist_begin]
  apply put32host_agree
  apply put32host_agree
  apply put32be_agree
  apply put32be_agree
  apply put8_agree
  apply put8_agree
  apply put16host_agree
  apply put16be_agree
  apply put16host_agree
  intro i hi
  exfalso
  omega

/-- The two counters `user_blocklist_append` stores are computed from the
header it found. -/
theorem user_blocklist_append_eq (e : Endian) (m : Mem) (gc flags : Nat) :
    user_blocklist_append e m gc flags =
      put32host e (put16host e (put32be (put32be m (24 + 8 * get32host e m 16) gc)
        (24 + 8 * get32host e m 16 + 4) flags) 0 (get16host e m 0 + 8)) 16
        (get32host e m 16 + 1) := by
  set k := get32host e m 16 with hk
  set m2 := put32be (put32be m (24 + 8 * k) gc) (24 + 8 * k + 4) flags with hm2
  have h2 : ∀ i, i < 24 → m2 i = m i := by
    intro i hi
    rw [hm2, put32be_other _ _ _ _ (by omega), put32be_other _ _ _ _ (by omega)]
  have hl2 : get16host e m2 0 = get16host e m 0 :=
    get16host_congr e m m2 0 (h2 0 (by omega)) (h2 1 (by omega))
  have hc3 : get32host e (put16host e m2 0 (get16host e m2 0 + 8)) 16 = k := by
    rw [hk]
    apply get32host_congr
    intro i hi1 hi2
    rw [put16host_other _ _ _ _ _ (by omega), h2 i (by omega)]
  have hdef : user_blocklist_append e m gc flags =
      put32host e (put16host e m2 0 (get16host e m2 0 + 8)) 16
        (get32host e (put16host e m2 0 (get16host e m2 0 + 8)) 16 + 1) := rfl
  rw [hdef, hc3, hl2]

theorem user_blocklist_append_agree (e : Endian) (m m' : Mem) (gc flags : Nat)
    (h : AgreeOn (fun i => i < 24 + 8 * get32host e m 16) m m') :
    AgreeOn (fun i => i < 24 + 8 * (get32host e m 16 + 1))
      (user_blocklist_append e m gc flags) (user_blocklist_append e m' gc flags) := by
  have hk : get32host e m' 16 = get32host e m 16 :=
    get32host_congr e m m' 16 (fun i h1 h2 => (h i (by omega)).symm)
  have hl : get16host e m' 0 = get16host e m 0 :=
    get16host_congr e m m' 0 (h 0 (by omega)).symm (h 1 (by omega)).symm
  rw [user_blocklist_append_eq, user_blocklist_append_eq, hk, hl]
  apply put32host_agree
  apply put16host_agree
  apply put32be_agree
  apply put32be_agree
  intro i hi
  exact h i (by omega)

theorem user_blocklist_appends_agree (e : Endian) :
    ∀ (es : List (Nat × Nat)) (m m' : Mem), get32host e m 16 + es.length < 4294967296 →
      AgreeOn (fun i => i < 24 + 8 * get32host e m 16) m m' →
      AgreeOn (fun i => i < 24 + 8 * (get32host e m 16 + es.length))
        (user_blocklist_appends e m es) (user_blocklist_appends e m' es) := by
  intro es
  induction es with
  | nil => intro m m' _ h; exact h
  | cons x rest ih =>
    intro m m' hb h
    obtain ⟨gc, flags⟩ := x
    simp only [List.length_cons] at hb
    obtain ⟨s1, _⟩ := user_blocklist_append_spec e m gc flags
    have s1' : get32host e (user_blocklist_append e m gc flags) 16 = get32host e m 16 + 1 := by
      rw [s1]
      exact Nat.mod_eq_of_lt (by omega)
    have A := user_blocklist_append_agree e m m' gc flags h
    rw [← s1'] at A
    have I := ih (user_blocklist_append e m gc flags) (user_blocklist_append e m' gc flags)
      (by rw [s1']; omega) A
    rw [s1'] at I
    intro i hi
    simp only [List.length_cons] at hi
    exact I i (by omega)

/-- The packet `send_user_blocklist` hands on after `begin` and a chain of
appends does not depend on what the scratch buffer held before. -/
theorem send_user_blocklist_same (e : Endian) (sb sb' : Mem) (g b : Nat)
    (es : List (Nat × Nat)) (hn : es.length < 4294967296) :
    get32host e (user_blocklist_appends e (user_blocklist_begin e sb g b) es) 16 =
      get32host e (user_blocklist_appends e (user_blocklist_begin e sb' g b) es) 16 ∧
    SamePacket
      (send_user_blocklist_pkt e (user_blocklist_appends e (user_blocklist_begin e sb g b) es))
      (send_user_blocklist_pkt e
        (user_blocklist_appends e (user_blocklist_begin e sb' g b) es)) := by
  obtain ⟨b1, b2⟩ := user_blocklist_begin_count e sb g b
  have A := user_blocklist_appends_agree e es (user_blocklist_begin e sb g b)
    (user_blocklist_begin e sb' g b) (by rw [b1]; omega)
    (by rw [b1]; exact user_blocklist_begin_agree e sb sb' g b)
  obtain ⟨_, t2, _, _⟩ := user_blocklist_appends_spec e es (user_blocklist_begin e sb g b)
    (by rw [b1]; omega)
  rw [b1] at A
  rw [b2] at t2
  set M := user_blocklist_appends e (user_blocklist_begin e sb g b) es with hM
  set M' := user_blocklist_appends e (user_blocklist_begin e sb' g b) es with hM'
  have hc : get32host e M' 16 = get32host e M 16 :=
    get32host_congr e M M' 16 (fun i h1 h2 => (A i (by omega)).symm)
  have hl : get16host e M' 0 = get16host e M 0 :=
    get16host_congr e M M' 0 (A 0 (by omega)).symm (A 1 (by omega)).symm
  have hle : get16host e M 0 ≤ 24 + 8 * (0 + es.length) := by
    rw [t2]
    have := Nat.mod_le (24 + 8 * es.length) 65536
    omega
  have hc2 : get32host e (put16be M' 0 (get16host e M 0)) 16 =
      get32host e (put16be M 0 (get16host e M 0)) 16 := by
    apply get32host_congr
    intro i h1 h2
    rw [put16be_other _ _ _ _ (by omega), put16be_other _ _ _ _ (by omega)]
    exact (A i (by omega)).symm
  refine ⟨hc.symm, ?_, ?_⟩
  · simp only [send_user_blocklist_pkt, hl]
  · show AgreeOn (fun i => i < get16host e M 0) _ _
    simp only [send_user_blocklist_pkt, hl, hc2]
    apply put32be_agree
    apply put16be_agree
    intro i hi
    exact A i (by omega)

/-! ## The scratch buffer: the option list builder -/

theorem user_options_begin_agree (e : Endian) (sb sb' : Mem) (g b : Nat) :
    AgreeOn (fun i => i < 24) (user_options_begin e sb g b).1
      (user_options_begin e sb' g b).1 := by
  simp only [user_options_begin]
  apply put32host_agree
  apply put32host_agree
  apply put32be_agree
  apply put32be_agree
  apply put8_agree
  apply put8_agree
  apply put16host_agree
  apply put16be_agree
  apply put16host_agree
  intro i hi
  exfalso
  omega

/-- The two counters `user_options_append` stores are computed from the
header it found, and the padding loop is a `memset`. -/
theorem user_options_append_eq (e : Endian) (m : Mem) (p opt len : Nat) (data : Mem)
    (hp : 24 ≤ p) :
    user_options_append e m p opt len data =
      (put32host e (put16host e (put32be (memset (memcpy (put32be m p opt) (p + 8) data 0 len)
        (p + 8 + len) 0 (8 - (len &&& 7))) (p + 4) (user_opt_padded len + 8)) 0
        (get16host e m 0 + (user_opt_padded len + 8))) 16 (get32host e m 16 + 1),
       p + user_opt_padded len + 8) := by
  have hP := user_opt_padded_eq len
  set P := user_opt_padded len with hPdef
  set m4 := put32be (memset (memcpy (put32be m p opt) (p + 8) data 0 len)
    (p + 8 + len) 0 (8 - (len &&& 7))) (p + 4) (P + 8) with hm4
  have hdef : user_options_append e m p opt len data =
      (put32host e (put16host e m4 0 (get16host e m4 0 + (P + 8))) 16
        (get32host e (put16host e m4 0 (get16host e m4 0 + (P + 8))) 16 + 1), p + P + 8) := by
    simp only [user_options_append, user_options_pad_eq, hP]
  have h4 : ∀ i, i < p → m4 i = m i := by
    intro i hi
    rw [hm4, put32be_other _ _ _ _ (by omega), memset_other _ _ _ _ _ (by omega),
      memcpy_other _ _ _ _ _ _ (by omega), put32be_other _ _ _ _ (by omega)]
  have hl4 : get16host e m4 0 = get16host e m 0 :=
    get16host_congr e m m4 0 (h4 0 (by omega)) (h4 1 (by omega))
  have hc5 : get32host e (put16host e m4 0 (get16host e m4 0 + (P + 8))) 16 =
      get32host e m 16 := by
    apply get32host_congr
    intro i h1 h2
    rw [put16host_other _ _ _ _ _ (by omega), h4 i (by omega)]
  rw [hdef, hc5, hl4]

theorem user_options_append_agree (e : Endian) (m m' : Mem) (p opt len : Nat) (data : Mem)
    (hp : 24 ≤ p) (h : AgreeOn (fun i => i < p) m m') :
    AgreeOn (fun i => i < p + 8 + user_opt_padded len)
      (user_options_append e m p opt len data).1
      (user_options_append e m' p opt len data).1 := by
  have hP := user_opt_padded_eq len
  have hk : get32host e m' 16 = get32host e m 16 :=
    get32host_congr e m m' 16 (fun i h1 h2 => (h i (by omega)).symm)
  have hl : get16host e m' 0 = get16host e m 0 :=
    get16host_congr e m m' 0 (h 0 (by omega)).symm (h 1 (by omega)).symm
  rw [user_options_append_eq e m p opt len data hp,
    user_options_append_eq e m' p opt len data hp, hk, hl]
  dsimp only
  apply put32host_agree
  apply put16host_agree
  apply put32be_agree
  apply memset_agree
  apply memcpy_agree
  apply put32be_agree
  intro i hi
  exact h i (by omega)

theorem user_options_appends_agree (e : Endian) :
    ∀ (es : List (Nat × Nat × Mem)) (m m' : Mem) (p : Nat), 24 ≤ p →
      AgreeOn (fun i => i < p) m m' →
      (user_options_appends e (m, p) es).2 = (user_options_appends e (m', p) es).2 ∧
      AgreeOn (fun i => i < p + user_opts_size es) (user_options_appends e (m, p) es).1
        (user_options_appends e (m', p) es).1 := by
  intro es
  induction es with
  | nil => intro m m' p _ h; exact ⟨rfl, h⟩
  | cons x rest ih =>
    intro m m' p hp h
    obtain ⟨opt, len, data⟩ := x
    obtain ⟨s1, _⟩ := user_options_append_spec e m p opt len data hp
    obtain ⟨s1', _⟩ := user_options_append_spec e m' p opt len data hp
    have E : user_options_append e m p opt len data =
        ((user_options_append e m p opt len data).1, p + 8 + user_opt_padded len) :=
      Prod.ext rfl s1
    have E' : user_options_append e m' p opt len data =
        ((user_options_append e m' p opt len data).1, p + 8 + user_opt_padded len) :=
      Prod.ext rfl s1'
    have A := user_options_append_agree e m m' p opt len data hp h
    obtain ⟨I1, I2⟩ := ih (user_options_append e m p opt len data).1
      (user_options_append e m' p opt len data).1 (p + 8 + user_opt_padded len) (by omega) A
    have U : ∀ x : Mem, user_options_appends e (x, p) ((opt, len, data) :: rest) =
        user_options_appends e (user_options_append e x p opt len data) rest := fun _ => rfl
    rw [U m, U m', E, E']
    refine ⟨I1, ?_⟩
    intro i hi
    simp only [user_opts_size] at hi
    exact I2 i (by omega)

/-- The packet `send_user_options` hands on after `begin` and a chain of
appends does not depend on what the scratch buffer held before. -/
theorem send_user_options_same (e : Endian) (sb sb' : Mem) (g b : Nat)
    (es : List (Nat × Nat × Mem)) (hn : user_opts_size es < 4294967296) :
    get32host e (user_options_appends e (user_options_begin e sb g b) es).1 16 =
      get32host e (user_options_appends e (user_options_begin e sb' g b) es).1 16 ∧
    SamePacket
      (send_user_options_pkt e (user_options_appends e (user_options_begin e sb g b) es).1)
      (send_user_options_pkt e
        (user_options_appends e (user_options_begin e sb' g b) es).1) := by
  obtain ⟨b1, b2, b3⟩ := user_options_begin_count e sb g b
  have B : ∀ x : Mem, user_options_begin e x g b = ((user_options_begin e x g b).1, 24) :=
    fun _ => rfl
  obtain ⟨_, A⟩ := user_options_appends_agree e es (user_options_begin e sb g b).1
    (user_options_begin e sb' g b).1 24 (le_refl _) (user_options_begin_agree e sb sb' g b)
  obtain ⟨_, t2, _, _⟩ := user_options_appends_spec e es (user_options_begin e sb g b).1 24
    (le_refl _) hn
  rw [b2] at t2
  rw [← B sb] at A t2
  rw [← B sb'] at A
  set M := (user_options_appends e (user_options_begin e sb g b) es).1 with hM
  set M' := (user_options_appends e (user_options_begin e sb' g b) es).1 with hM'
  have hc : get32host e M' 16 = get32host e M 16 :=
    get32host_congr e M M' 16 (fun i h1 h2 => (A i (by omega)).symm)
  have hl : get16host e M' 0 = get16host e M 0 :=
    get16host_congr e M M' 0 (A 0 (by omega)).symm (A 1 (by omega)).symm
  have hle : get16host e M 0 ≤ 24 + user_opts_size es := by
    rw [t2]
    exact Nat.mod_le _ _
  have hc2 : get32host e (put16be M' 0 (get16host e M 0)) 16 =
      get32host e (put16be M 0 (get16host e M 0)) 16 := by
    apply get32host_congr
    intro i h1 h2
    rw [put16be_other _ _ _ _ (by omega), put16be_other _ _ _ _ (by omega)]
    exact (A i (by omega)).symm
  refine ⟨hc.symm, ?_, ?_⟩
  · simp only [send_user_options_pkt, hl]
  · show AgreeOn (fun i => i < get16host e M 0) _ _
    simp only [send_user_options_pkt, hl, hc2]
    apply put32be_agree
    apply put16be_agree
    intro i hi
    exact A i (by omega)

/-! ## The scratch buffer: theorem -/

/-- C27: no prior content of the scratch buffer reaches the transmission
buffer. For two scratch buffers `sb` and `sb'` of arbitrary content and the
same arguments and connection, `send_ping`, `send_cdata`, `send_global_msg`,
`send_error` (for a size that is not negative), `send_usrloginreply`,
`send_kick`, and the sequences `user_blocklist_begin`, appends,
`send_user_blocklist` and `user_options_begin`, appends, `send_user_options`
(for totals below 65536) each hand the same packet to `send_crypt`: the same
length and the same byte at every offset below it; and the whole call gives
the same result (return value, connection with its queue, bytes on the
wire). -/
theorem scratch_contents_not_sent (e : Endian) (env : Env) (fuel : Nat) (sb sb' : Mem)
    (c : ship_t) (w : World) (reply : Int) (gc slot block sz : Nat) (cdata : Mem)
    (requester text_len : Nat) (text : Mem) (type flags err : Nat) (data : Mem)
    (data_sz good : Int) (p user : Nat) (reason : Option CStr) (g b : Nat)
    (bl : List (Nat × Nat)) (ol : List (Nat × Nat × Mem))
    (hdata : 0 ≤ data_sz) (hbl : 24 + 8 * bl.length < 65536)
    (hol : 24 + user_opts_size ol < 65536) :
    (SamePacket (send_ping_pkt sb reply) (send_ping_pkt sb' reply) ∧
      send_ping env fuel sb c reply w = send_ping env fuel sb' c reply w) ∧
    (SamePacket (send_cdata_pkt e sb gc slot cdata sz block)
        (send_cdata_pkt e sb' gc slot cdata sz block) ∧
      send_cdata e env fuel sb c gc slot cdata sz block w =
        send_cdata e env fuel sb' c gc slot cdata sz block w) ∧
    (SamePacket (send_global_msg_pkt sb requester text text_len)
        (send_global_msg_pkt sb' requester text text_len) ∧
      send_global_msg env fuel sb c requester text text_len w =
        send_global_msg env fuel sb' c requester text text_len w) ∧
    (SamePacket (send_error_pkt sb type flags err data data_sz)
        (send_error_pkt sb' type flags err data data_sz) ∧
      send_error env fuel sb c type flags err data data_sz w =
        send_error env fuel sb' c type flags err data data_sz w) ∧
    (SamePacket (send_usrloginreply_pkt sb c gc block good p)
        (send_usrloginreply_pkt sb' c gc block good p) ∧
      send_usrloginreply env fuel sb c gc block good p w =
        send_usrloginreply env fuel sb' c gc block good p w) ∧
    (SamePacket (send_kick_pkt sb requester user block reason)
        (send_kick_pkt sb' requester user block reason) ∧
      send_kick env fuel sb c requester user block reason w =
        send_kick env fuel sb' c requester user block reason w) ∧
    (SamePacket
        (send_user_blocklist_pkt e (user_blocklist_appends e (user_blocklist_begin e sb g b) bl))
        (send_user_blocklist_pkt e
          (user_blocklist_appends e (user_blocklist_begin e sb' g b) bl)) ∧
      send_user_blocklist e env fuel
          (user_blocklist_appends e (user_blocklist_begin e sb g b) bl) c w =
        send_user_blocklist e env fuel
          (user_blocklist_appends e (user_blocklist_begin e sb' g b) bl) c w) ∧
    (SamePacket
        (send_user_options_pkt e (user_options_appends e (user_options_begin e sb g b) ol).1)
        (send_user_options_pkt e
          (user_options_appends e (user_options_begin e sb' g b) ol).1) ∧
      send_user_options e env fuel
          (user_options_appends e (user_options_begin e sb g b) ol).1 c w =
        send_user_options e env fuel
          (user_options_appends e (user_options_begin e sb' g b) ol).1 c w) := by
  obtain ⟨kb, Sb⟩ := send_user_blocklist_same e sb sb' g b bl (by omega)
  obtain ⟨ko, So⟩ := send_user_options_same e sb sb' g b ol (by omega)
  refine ⟨⟨send_ping_same sb sb' reply, ?_⟩, ⟨send_cdata_same e sb sb' gc slot cdata sz block, ?_⟩,
    ⟨send_global_msg_same sb sb' requester text text_len, ?_⟩,
    ⟨send_error_same sb sb' type flags err data data_sz hdata, ?_⟩,
    ⟨send_usrloginreply_same sb sb' c gc block good p, ?_⟩,
    ⟨send_kick_same sb sb' requester user block reason, ?_⟩, ⟨Sb, ?_⟩, ⟨So, ?_⟩⟩
  · exact send_crypt_same env fuel c w _ _ (send_ping_same sb sb' reply)
  · exact send_crypt_same env fuel c w _ _ (send_cdata_same e sb sb' gc slot cdata sz block)
  · exact send_crypt_same env fuel c w _ _
      (send_global_msg_same sb sb' requester text text_len)
  · simp only [send_error]
    split_ifs
    · rfl
    · exact send_crypt_same env fuel c w _ _
        (send_error_same sb sb' type flags err data data_sz hdata)
  · exact send_crypt_same env fuel c w _ _ (send_usrloginreply_same sb sb' c gc block good p)
  · exact send_crypt_same env fuel c w _ _
      (send_kick_same sb sb' requester user block reason)
  · simp only [send_user_blocklist, ← kb]
    split_ifs
    · rfl
    · rfl
    · exact send_crypt_same env fuel c w _ _ Sb
  · simp only [send_user_options, ← ko]
    split_ifs
    · rfl
    · exact send_crypt_same env fuel c w _ _ So

/-- Witness of C27: the scratch contents `1, 2, 3, ...` and
`101, 102, 103, ...` differ at every offset, and the character-data packet
and the option list packet built over either are the same. -/
theorem scratch_contents_not_sent_witness :
    (0 : Int) ≤ 4 ∧ 24 + 8 * blocks3.length < 65536 ∧ 24 + user_opts_size options3 < 65536 ∧
    scratchA 0 ≠ scratchB 0 ∧
    SamePacket (send_cdata_pkt .little scratchA 1 2 scratchB 4 3)
      (send_cdata_pkt .little scratchB 1 2 scratchB 4 3) ∧
    SamePacket
      (send_user_options_pkt .little
        (user_options_appends .little (user_options_begin .little scratchA 7 9) options3).1)
      (send_user_options_pkt .little
        (user_options_appends .little (user_options_begin .little scratchB 7 9) options3).1) ∧
    bytes (send_cdata_pkt .little scratchA 1 2 scratchB 4 3).1 0 24 =
      bytes (send_cdata_pkt .little scratchB 1 2 scratchB 4 3).1 0 24 :=
  ⟨by decide, by decide, by decide, by decide,
   (scratch_contents_not_sent .little envAll 3 scratchA scratchB ship0 world0 1 1 2 3 4 scratchB
      1 5 scratchB 1 2 3 scratchB 4 1 3 2 none 7 9 blocks3 options3 (by decide) (by decide)
      (by decide)).2.1.1,
   (scratch_contents_not_sent .little envAll 3 scratchA scratchB ship0 world0 1 1 2 3 4 scratchB
      1 5 scratchB 1 2 3 scratchB 4 1 3 2 none 7 9 blocks3 options3 (by decide) (by decide)
      (by decide)).2.2.2.2.2.2.2.1,
   by decide⟩

/-! ## The frame of the encoders -/

theorem SameFrame_refl (c : ship_t) : SameFrame c c :=
  ⟨rfl, rfl, rfl, rfl, rfl, rfl, rfl, rfl, rfl, rfl, rfl, rfl, rfl, rfl, rfl⟩

theorem Framed_same (c : ship_t) (rv : Int) (w : World) : Framed c (some (rv, c, w)) := by
  intro rv1 c1 w1 h
  simp only [Option.some.injEq, Prod.mk.injEq] at h
  obtain ⟨_, rfl, _⟩ := h
  exact SameFrame_refl c

/-- The queueing part of `send_raw` writes `sendbuf`, `sendbuf_cur` and
`sendbuf_size` only. -/
theorem send_raw_queue_frame (env : Env) (sb : Mem) (c : ship_t) (len total : Int) :
    SameFrame c (send_raw_queue env sb c len total).2 := by
  unfold send_raw_queue SameFrame
  dsimp only
  split_ifs <;> simp

theorem send_raw_frame (env : Env) (fuel : Nat) (sb : Mem) (c : ship_t) (len : Int)
    (w : World) : Framed c (send_raw env fuel sb c len w) := by
  intro rv c1 w1 h
  simp only [send_raw] at h
  split at h
  · simp at h
  · simp only [Option.some.injEq, Prod.mk.injEq] at h
    obtain ⟨_, rfl, _⟩ := h
    exact SameFrame_refl c
  · simp only [Option.some.injEq, Prod.mk.injEq] at h
    obtain ⟨_, rfl, _⟩ := h
    exact send_raw_queue_frame env sb c len _

theorem send_crypt_frame (env : Env) (fuel : Nat) (sb : Mem) (c : ship_t) (len : Int)
    (w : World) : Framed c (send_crypt env fuel sb c len w) := by
  unfold send_crypt
  split_ifs
  · exact Framed_same c _ w
  · exact send_raw_frame env fuel sb c len w

/-- C28: every encoder of `packets.c` leaves the connection record as it
was outside the pending queue: whatever `forward_dreamcast`, `forward_pc`,
`forward_bb`, `send_welcome`, `send_ship_status`, `send_ping`, `send_cdata`,
`send_usrloginreply`, `send_counts`, `send_error`, `send_friend_message`,
`send_kick`, `send_friendlist`, `send_global_msg`, `send_user_options`,
`send_bb_opts`, `send_simple_mail`, `send_script_chunk`, `send_script_check`,
`send_script_delete`, `send_script`, `send_sset`, `send_sdata`, `send_qflag`,
`send_sctl`, `send_shutdown`, `send_user_blocklist` and `send_user_error`
return, the connection they return has the `proto_ver`, `flags`, `name`,
`key_idx`, `clients`, `games`, `menu_code`, `port`, `ship_number`,
`privileges`, addresses, nonces and `sendbuf_start` of `c`. On the silent
skips (version or capability gate, empty name, empty builder) the call
returns 0 with the whole connection, its queue included, and the world
unchanged. -/
theorem encoders_frame (env : Env) (fuel : Nat) (c : ship_t) (w : World) :
    ((∀ sb inner sender gc block,
        Framed c (forward_dreamcast env fuel sb c inner sender gc block w) ∧
        Framed c (forward_pc env fuel sb c inner sender gc block w) ∧
        Framed c (forward_bb env fuel sb c inner sender gc block w)) ∧
      (∀ sb vmajor vminor vmicro, Framed c (send_welcome env fuel sb c vmajor vminor vmicro w)) ∧
      (∀ sb o status, Framed c (send_ship_status env fuel sb c o status w)) ∧
      (∀ sb reply, Framed c (send_ping env fuel sb c reply w)) ∧
      (∀ e sb gc slot cdata sz block,
        Framed c (send_cdata e env fuel sb c gc slot cdata sz block w)) ∧
      (∀ sb gc block good p, Framed c (send_usrloginreply env fuel sb c gc block good p w)) ∧
      (∀ sb ship_id clients games, Framed c (send_counts env fuel sb c ship_id clients games w)) ∧
      (∀ sb type flags err data data_sz,
        Framed c (send_error env fuel sb c type flags err data data_sz w)) ∧
      (∀ sb on_ dest_gc dest_block friend_gc friend_block friend_ship friend_name nickname,
        Framed c (send_friend_message env fuel sb c on_ dest_gc dest_block friend_gc
          friend_block friend_ship friend_name nickname w)) ∧
      (∀ sb requester user block reason,
        Framed c (send_kick env fuel sb c requester user block reason w)) ∧
      (∀ sz sb requester block count entries,
        Framed c (send_friendlist sz env fuel sb c requester block count entries w)) ∧
      (∀ sb requester text text_len,
        Framed c (send_global_msg env fuel sb c requester text text_len w)) ∧
      (∀ e sb, Framed c (send_user_options e env fuel sb c w)) ∧
      (∀ sz sb gc block opts, Framed c (send_bb_opts sz env fuel sb c gc block opts w)) ∧
      (∀ d sb stack gc block sender name msg,
        Framed c (send_simple_mail d env fuel sb stack c gc block sender name msg w)) ∧
      (∀ sb remote_fn type file_len crc file,
        Framed c (send_script_chunk env fuel sb c remote_fn type file_len crc file w)) ∧
      (∀ sb scr, Framed c (send_script_check env fuel sb c scr w) ∧
        Framed c (send_script_delete env fuel sb c scr w)) ∧
      (∀ sb scr file, Framed c (send_script env fuel sb c scr file w)) ∧
      (∀ sb action oscr, Framed c (send_sset env fuel sb c action oscr w)) ∧
      (∀ sb gc block event data len,
        Framed c (send_sdata env fuel sb c gc block event data len w)) ∧
      (∀ sb type gc block fid qid value ctl,
        Framed c (send_qflag env fuel sb c type gc block fid qid value ctl w)) ∧
      (∀ sb ctl acc, Framed c (send_sctl env fuel sb c ctl acc w)) ∧
      (∀ sb restart acc when_, Framed c (send_shutdown env fuel sb c restart acc when_ w)) ∧
      (∀ e sb, Framed c (send_user_blocklist e env fuel sb c w)) ∧
      (∀ sb pkt_type err_code gc block message,
        Framed c (send_user_error env fuel sb c pkt_type err_code gc block message w))) ∧
    ((c.proto_ver < 16 ∨ c.flags &&& LOGIN_FLAG_LUA = 0 →
        (∀ sb scr file, send_script env fuel sb c scr file w = some (0, c, w)) ∧
        (∀ sb scr, send_script_check env fuel sb c scr w = some (0, c, w)) ∧
        (∀ sb remote_fn type file_len crc file,
          send_script_chunk env fuel sb c remote_fn type file_len crc file w =
            some (0, c, w)) ∧
        (∀ sb action oscr, send_sset env fuel sb c action oscr w = some (0, c, w)) ∧
        (∀ sb gc block event data len,
          send_sdata env fuel sb c gc block event data len w = some (0, c, w))) ∧
      (c.proto_ver < 20 ∨ c.flags &&& LOGIN_FLAG_LUA = 0 →
        ∀ sb scr, send_script_delete env fuel sb c scr w = some (0, c, w)) ∧
      (c.proto_ver < 17 →
        ∀ sb type gc block fid qid value ctl,
          send_qflag env fuel sb c type gc block fid qid value ctl w = some (0, c, w)) ∧
      (c.proto_ver < 19 →
        (∀ sb ctl acc, send_sctl env fuel sb c ctl acc w = some (0, c, w)) ∧
        (∀ sb restart acc when_,
          send_shutdown env fuel sb c restart acc when_ w = some (0, c, w)) ∧
        (∀ sb pkt_type err_code gc block message,
          send_user_error env fuel sb c pkt_type err_code gc block message w =
            some (0, c, w)) ∧
        (∀ e sb, send_user_blocklist e env fuel sb c w = some (0, c, w))) ∧
      (∀ sb o status, o.name 0 = 0 →
        send_ship_status env fuel sb c o status w = some (0, c, w)) ∧
      (∀ e sb, get32host e sb 16 = 0 →
        send_user_options e env fuel sb c w = some (0, c, w) ∧
        send_user_blocklist e env fuel sb c w = some (0, c, w))) := by
  constructor
  · refine ⟨?_, ?_, ?_, ?_, ?_, ?_, ?_, ?_, ?_, ?_, ?_, ?_, ?_, ?_, ?_, ?_, ?_, ?_, ?_, ?_, ?_, ?_,
      ?_, ?_, ?_⟩
    · intro sb inner sender gc block
      exact ⟨send_crypt_frame _ _ _ _ _ _, send_crypt_frame _ _ _ _ _ _,
        send_crypt_frame _ _ _ _ _ _⟩
    · intro sb vmajor vminor vmicro
      exact send_raw_frame _ _ _ _ _ _
    · intro sb o status
      unfold send_ship_status
      split_ifs
      · exact Framed_same c _ w
      · exact send_crypt_frame _ _ _ _ _ _
    · intro sb reply
      exact send_crypt_frame _ _ _ _ _ _
    · intro e sb gc slot cdata sz block
      exact send_crypt_frame _ _ _ _ _ _
    · intro sb gc block good p
      exact send_crypt_frame _ _ _ _ _ _
    · intro sb ship_id clients games
      exact send_crypt_frame _ _ _ _ _ _
    · intro sb type flags err data data_sz
      unfold send_error
      split_ifs
      · exact Framed_same c _ w
      · exact send_crypt_frame _ _ _ _ _ _
    · intro sb on_ dest_gc dest_block friend_gc friend_block friend_ship friend_name nickname
      exact send_crypt_frame _ _ _ _ _ _
    · intro sb requester user block reason
      exact send_crypt_frame _ _ _ _ _ _
    · intro sz sb requester block count entries
      exact send_crypt_frame _ _ _ _ _ _
    · intro sb requester text text_len
      exact send_crypt_frame _ _ _ _ _ _
    · intro e sb
      unfold send_user_options
      split_ifs
      · exact Framed_same c _ w
      · exact send_crypt_frame _ _ _ _ _ _
    · intro sz sb gc block opts
      exact send_crypt_frame _ _ _ _ _ _
    · intro d sb stack gc block sender name msg
      exact send_crypt_frame _ _ _ _ _ _
    · intro sb remote_fn type file_len crc file
      unfold send_script_chunk
      cases file with
      | none =>
        dsimp only
        split_ifs <;> exact Framed_same c _ w
      | some bs =>
        dsimp only
        split_ifs
        · exact Framed_same c _ w
        · exact Framed_same c _ w
        · exact Framed_same c _ w
        · exact send_crypt_frame _ _ _ _ _ _
    · intro sb scr
      constructor
      · unfold send_script_check
        split_ifs
        · exact Framed_same c _ w
        · exact send_crypt_frame _ _ _ _ _ _
      · unfold send_script_delete
        split_ifs
        · exact Framed_same c _ w
        · exact send_crypt_frame _ _ _ _ _ _
    · intro sb scr file
      unfold send_script
      cases file with
      | none =>
        dsimp only
        split_ifs <;> exact Framed_same c _ w
      | some bs =>
        dsimp only
        split_ifs
        · exact Framed_same c _ w
        · exact Framed_same c _ w
        · exact send_crypt_frame _ _ _ _ _ _
    · intro sb action oscr
      unfold send_sset
      split_ifs
      · exact Framed_same c _ w
      · exact Framed_same c _ w
      · exact send_crypt_frame _ _ _ _ _ _
    · intro sb gc block event data len
      unfold send_sdata
      split_ifs
      · exact Framed_same c _ w
      · exact Framed_same c _ w
      · exact send_crypt_frame _ _ _ _ _ _
    · intro sb type gc block fid qid value ctl
      unfold send_qflag
      split_ifs
      · exact Framed_same c _ w
      · exact send_crypt_frame _ _ _ _ _ _
    · intro sb ctl acc
      unfold send_sctl
      split_ifs
      · exact Framed_same c _ w
      · exact send_crypt_frame _ _ _ _ _ _
    · intro sb restart acc when_
      unfold send_shutdown
      split_ifs
      · exact Framed_same c _ w
      · exact send_crypt_frame _ _ _ _ _ _
    · intro e sb
      unfold send_user_blocklist
      split_ifs
      · exact Framed_same c _ w
      · exact Framed_same c _ w
      · exact send_crypt_frame _ _ _ _ _ _
    · intro sb pkt_type err_code gc block message
      unfold send_user_error
      split_ifs
      · exact Framed_same c _ w
      · exact send_crypt_frame _ _ _ _ _ _
  · refine ⟨fun h => ⟨?_, ?_, ?_, ?_, ?_⟩, fun h => ?_, fun h => ?_, fun h => ⟨?_, ?_, ?_, ?_⟩,
      ?_, ?_⟩
    · intro sb scr file
      simp only [send_script, h, if_true]
    · intro sb scr
      simp only [send_script_check, h, if_true]
    · intro sb remote_fn type file_len crc file
      simp only [send_script_chunk, h, if_true]
    · intro sb action oscr
      simp only [send_sset, h, if_true]
    · intro sb gc block event data len
      simp only [send_sdata, h, if_true]
    · intro sb scr
      simp only [send_script_delete, h, if_true]
    · intro sb type gc block fid qid value ctl
      simp only [send_qflag, h, if_true]
    · intro sb ctl acc
      simp only [send_sctl, h, if_true]
    · intro sb restart acc when_
      simp only [send_shutdown, h, if_true]
    · intro sb pkt_type err_code gc block message
      simp only [send_user_error, h, if_true]
    · intro e sb
      simp only [send_user_blocklist, h, if_true, ite_self]
    · intro sb o status h
      simp only [send_ship_status, h, if_true]
    · intro e sb h
      constructor
      · simp only [send_user_options, h, if_true]
      · simp only [send_user_blocklist, h, if_true]

/-- Witness of C28: at protocol version 14 `send_sctl` is a silent skip,
and so is `send_ship_status` for a ship without a name. -/
theorem encoders_frame_witness :
    shipV14.proto_ver < 19 ∧ ship0.name 0 = 0 ∧
    send_sctl envAll 3 scratchA shipV14 1 2 world0 = some (0, shipV14, world0) ∧
    send_ship_status envAll 3 scratchA shipV14 ship0 1 world0 = some (0, shipV14, world0) :=
  ⟨by decide, by decide,
   ((encoders_frame envAll 3 shipV14 world0).2.2.2.2.1 (by decide)).1 scratchA 1 2,
   (encoders_frame envAll 3 shipV14 world0).2.2.2.2.2.1 scratchA ship0 1 (by decide)⟩

/-! ## Character data and global messages: theorems -/

/-- C26, evaluated at a failing input: on a little-endian host,
`send_cdata` with `gc = 0x0A0B0C0D`, `slot = 0x11121314` and
`block = 0x01020304` stores the guildcard and the slot big-endian at offsets
8 and 12, but the block at offsets 16-19 as `04 03 02 01`, the host order,
where the big-endian encoding is `01 02 03 04`; these are the bytes the
transport receives. On a big-endian host the same call stores
`01 02 03 04`. -/
theorem send_cdata_block_host_order :
    bytes (send_cdata_pkt .little scratchA 0x0A0B0C0D 0x11121314 scratchB 4 0x01020304).1 8 4 =
      be32 0x0A0B0C0D ∧
    bytes (send_cdata_pkt .little scratchA 0x0A0B0C0D 0x11121314 scratchB 4 0x01020304).1 12 4 =
      be32 0x11121314 ∧
    bytes (send_cdata_pkt .little scratchA 0x0A0B0C0D 0x11121314 scratchB 4 0x01020304).1 16 4 =
      [4, 3, 2, 1] ∧
    be32 0x01020304 = [1, 2, 3, 4] ∧
    bytes (send_cdata_pkt .big scratchA 0x0A0B0C0D 0x11121314 scratchB 4 0x01020304).1 16 4 =
      [1, 2, 3, 4] ∧
    (send_cdata .little envAll 3 scratchA ship0 0x0A0B0C0D 0x11121314 scratchB 4 0x01020304
        world0).map (fun r => (r.1, r.2.2.wire)) =
      some (0, [0, 24, 0, 21, 128, 0, 0, 0, 10, 11, 12, 13, 17, 18, 19, 20, 4, 3, 2, 1,
        101, 102, 103, 104]) := by
  refine ⟨by decide, by decide, by decide, by decide, by decide, by decide⟩

/-- C29, evaluated at a failing input: for a text of 5 bytes
`send_global_msg` declares and transmits 21 bytes, which is not a multiple
of 8: the 16 bytes of header and the 5 text bytes, with no padding. -/
theorem send_global_msg_not_padded :
    (send_global_msg_pkt scratchA 1 scratchB 5).2 = 21 ∧
    ¬ ((send_global_msg_pkt scratchA 1 scratchB 5).2 % 8 = 0) ∧
    get16be (send_global_msg_pkt scratchA 1 scratchB 5).1 0 = 21 ∧
    (send_global_msg envAll 3 scratchA ship0 1 scratchB 5 world0).map
        (fun r => (r.1, r.2.2.wire)) =
      some (0, [0, 21, 0, 35, 0, 0, 0, 0, 0, 0, 0, 1, 0, 0, 0, 0,
        101, 102, 103, 104, 105]) := by
  refine ⟨by decide, by decide, by decide, by decide⟩

/-! ## Round-up idioms: theorem -/

theorem and_fffffff8 (x : Nat) : x &&& 0xFFFFFFF8 = x / 8 % 536870912 * 8 := by
  have h := and_mask x 29 3
  simpa [Nat.shiftLeft_eq, Nat.shiftRight_eq_div_pow] using h

theorem round_not7 (x : Nat) (hx : x ≤ 65528) :
    (if x &&& 7 ≠ 0 then ((x + 7) &&& 0xFFFFFFF8) % 65536 else x) = round_up8 x := by
  rw [and_7, and_fffffff8]
  unfold round_up8
  split_ifs <;> omega

/-- C39: the two round-up idioms of the file agree and are right on their
domain. For every `x <= 65528`, `if(x & 0x07) x = (x + 8) & 0xFFF8` (the
forwarders, `send_script`, `send_sdata`) and `if(len & 7) len = (len + 7) &
(~7)` (`send_user_error`) both give `round_up8 x`, which is a multiple of 8,
at least `x`, below every other multiple of 8 that is at least `x`, equal to
`x` when `x` is a multiple of 8, and at most `x + 7`. The lengths that
`forward_dreamcast`, `send_sdata` and `send_user_error` pass on are these
idioms applied to the unrounded size. -/
theorem round_idioms_agree (x : Nat) (hx : x ≤ 65528) :
    round8_fff8 x = round_up8 x ∧ round8_not7 x = round_up8 x ∧
    round8_fff8 x = round8_not7 x ∧
    round_up8 x % 8 = 0 ∧ x ≤ round_up8 x ∧
    (∀ y, y % 8 = 0 → x ≤ y → round_up8 x ≤ y) ∧
    (x % 8 = 0 → round8_fff8 x = x ∧ round8_not7 x = x) ∧
    round8_fff8 x ≤ x + 7 ∧ round8_not7 x ≤ x + 7 ∧
    (∀ sb dc sender gc block, (forward_dreamcast_pkt sb dc sender gc block).2 =
      round8_fff8 (sizeof_shipgate_fw_9_pkt + get16le dc dc_pkt_len_off)) ∧
    (∀ sb gc block event data len, (send_sdata_pkt sb gc block event data len).2 =
      round8_fff8 ((sizeof_shipgate_sdata_pkt + len) % 65536)) ∧
    (∀ sb pkt_type err_code gc block s,
      (send_user_error_pkt sb pkt_type err_code gc block (some s)).2 =
        round8_not7 ((strlen s % 65536 + sizeof_shipgate_user_err_pkt) % 65536)) := by
  have hA : round8_fff8 x = round_up8 x := round_fff8 x hx
  have hB : round8_not7 x = round_up8 x := round_not7 x hx
  have hspec := round_up8_spec x
  refine ⟨hA, hB, by rw [hA, hB], hspec.1, hspec.2.1, ?_, ?_, ?_, ?_,
    fun _ _ _ _ _ => rfl, fun _ _ _ _ _ _ => rfl, fun _ _ _ _ _ _ => rfl⟩
  · intro y hy hxy
    unfold round_up8
    omega
  · intro h8
    rw [hA, hB]
    unfold round_up8
    omega
  · rw [hA]
    unfold round_up8
    omega
  · rw [hB]
    unfold round_up8
    omega

/-- Witness of C39: 29 is rounded to 32 by both idioms, 65528 is left as it
is. -/
theorem round_idioms_agree_witness :
    29 ≤ 65528 ∧ round8_fff8 29 = round_up8 29 ∧ round8_not7 29 = 32 ∧
    round8_fff8 65528 = 65528 :=
  ⟨by decide, (round_idioms_agree 29 (by decide)).1, by decide, by decide⟩

/-! ## Ping, welcome, friend messages: theorems -/

theorem strcpy_inside (dst : Mem) (doff : Nat) (s : CStr) (i : Nat)
    (h1 : doff ≤ i) (h2 : i ≤ doff + s.length) : strcpy dst doff s i = s.getD (i - doff) 0 := by
  simp [strcpy, h1, h2]

/-- The bytes `strcpy` writes: the string, then its terminating zero. -/
theorem bytes_strcpy (m : Mem) (off : Nat) (s : CStr) :
    bytes (strcpy m off s) off s.length = s ∧ strcpy m off s (off + s.length) = 0 := by
  constructor
  · unfold bytes
    apply List.ext_getElem
    · simp
    · intro i h1 h2
      simp at h1
      simp only [List.getElem_map, List.getElem_range]
      rw [strcpy_inside _ _ _ _ (by omega) (by omega)]
      have : off + i - off = i := by omega
      simp [this, List.getD_eq_getElem?_getD, h1]
  · rw [strcpy_inside _ _ _ _ (by omega) (by omega)]
    have : off + s.length - off = s.length := by omega
    simp [this, List.getD_eq_getElem?_getD]

/-- C34: for every connection and every `reply`, `send_ping` hands to
`send_raw` exactly the 8 bytes `00 08 00 13 F 00 00 00`, with `F = 0x80` when
`reply != 0` and `0x00` otherwise: a bare header with declared length 8, type
0x0013, flags 0x8000 or 0 big-endian, `reserved` and `version` 0, whatever
`proto_ver` is; on a connection with an empty queue and a transport that
keeps accepting, these 8 bytes are what the transport receives. -/
theorem send_ping_bytes (env : Env) (sb : Mem) (c : ship_t) (reply : Int) (w : World) :
    (send_ping_pkt sb reply).2 = 8 ∧
    bytes (send_ping_pkt sb reply).1 0 8 =
      [0x00, 0x08, 0x00, 0x13, if reply ≠ 0 then 0x80 else 0x00, 0x00, 0x00, 0x00] ∧
    (∀ fuel, send_ping env fuel sb c reply w =
      send_raw env fuel (send_ping_pkt sb reply).1 c 8 w) ∧
    (c.sendbuf_cur = 0 → Accepting env →
      ∃ n w1, (∀ fuel, n ≤ fuel → send_ping env fuel sb c reply w = some (0, c, w1)) ∧
        w1.wire = w.wire ++
          [0x00, 0x08, 0x00, 0x13, if reply ≠ 0 then 0x80 else 0x00, 0x00, 0x00, 0x00]) := by
  have hb : bytes (send_ping_pkt sb reply).1 0 8 =
      [0x00, 0x08, 0x00, 0x13, if reply ≠ 0 then 0x80 else 0x00, 0x00, 0x00, 0x00] := by
    by_cases hr : reply = 0
    · simp [hr, send_ping_pkt, bytes, List.range_succ, put16be, put8, sizeof_shipgate_hdr_t,
        SHDR_TYPE_PING]
    · simp [hr, send_ping_pkt, bytes, List.range_succ, put16be, put8, sizeof_shipgate_hdr_t,
        SHDR_TYPE_PING, SHDR_RESPONSE]
  have hsend : ∀ fuel, send_ping env fuel sb c reply w =
      send_raw env fuel (send_ping_pkt sb reply).1 c 8 w := by
    intro fuel
    simp [send_ping, send_crypt, send_ping_pkt, sizeof_shipgate_hdr_t]
  refine ⟨rfl, hb, hsend, ?_⟩
  intro hq hacc
  obtain ⟨k, w1, h1, h2, _⟩ := send_raw_accepting env (send_ping_pkt sb reply).1 c 8 w hq hacc
  refine ⟨k, w1, fun fuel hf => ?_, ?_⟩
  · rw [hsend fuel]
    exact h1 fuel hf
  · rw [h2, hb]

/-- Witness of C34: a ping reply on a connection with an empty queue and a
transport that accepts everything. -/
theorem send_ping_bytes_witness :
    ship0.sendbuf_cur = 0 ∧
    ∃ n w1, (∀ fuel, n ≤ fuel → send_ping envAll fuel scratchA ship0 1 world0 =
        some (0, ship0, w1)) ∧
      w1.wire = world0.wire ++
        [0x00, 0x08, 0x00, 0x13, if (1 : Int) ≠ 0 then 0x80 else 0x00, 0x00, 0x00, 0x00] :=
  ⟨rfl, (send_ping_bytes envAll scratchA ship0 1 world0).2.2.2 rfl envAll_accepting⟩

/-- C35: the required login message is 44 bytes, 45 with its terminating
zero, so the `strcpy` of `send_welcome` writes exactly the offsets 8 to 52 of
the packet, the 45-byte `msg` field, and nothing outside it. The welcome
packet handed to `send_raw` is 64 bytes with declared length 64 and type
0x0010, flags, `reserved` and `version` zero, the message and its zero at
offsets 8-52, the three version bytes at 53-55, the connection's gate nonce
at 56-59 and its ship nonce at 60-63. -/
theorem send_welcome_layout (env : Env) (fuel : Nat) (sb : Mem) (c : ship_t)
    (vmajor vminor vmicro : Nat) (w : World) :
    strlen shipgate_login_msg + 1 = 45 ∧
    (∀ (m : Mem) (i : Nat), i < 8 ∨ 53 ≤ i → strcpy m 8 shipgate_login_msg i = m i) ∧
    (send_welcome_pkt sb c vmajor vminor vmicro).2 = 64 ∧
    send_welcome env fuel sb c vmajor vminor vmicro w =
      send_raw env fuel (send_welcome_pkt sb c vmajor vminor vmicro).1 c 64 w ∧
    get16be (send_welcome_pkt sb c vmajor vminor vmicro).1 0 = 64 ∧
    bytes (send_welcome_pkt sb c vmajor vminor vmicro).1 2 2 = be16 0x0010 ∧
    bytes (send_welcome_pkt sb c vmajor vminor vmicro).1 4 4 = [0, 0, 0, 0] ∧
    bytes (send_welcome_pkt sb c vmajor vminor vmicro).1 8 45 = shipgate_login_msg ++ [0] ∧
    bytes (send_welcome_pkt sb c vmajor vminor vmicro).1 53 3 =
      [vmajor % 256, vminor % 256, vmicro % 256] ∧
    bytes (send_welcome_pkt sb c vmajor vminor vmicro).1 56 4 = bytes c.gate_nonce 0 4 ∧
    bytes (send_welcome_pkt sb c vmajor vminor vmicro).1 60 4 = bytes c.ship_nonce 0 4 := by
  have hlen : shipgate_login_msg.length = 44 := rfl
  have hp : ∀ i, (send_welcome_pkt sb c vmajor vminor vmicro).1 i =
      memcpy (memcpy (put8 (put8 (put8 (strcpy (put8 (put8 (put16be (put16be (put16be
        (memset sb 0 0 64) 0 64) 2 SHDR_TYPE_LOGIN) 4 0) 6 0) 7 0) 8 shipgate_login_msg)
        53 vmajor) 54 vminor) 55 vmicro) 60 c.ship_nonce 0 4) 56 c.gate_nonce 0 4 i :=
    fun _ => rfl
  refine ⟨rfl, ?_, rfl, rfl, ?_, ?_, ?_, ?_, ?_, ?_, ?_⟩
  · intro m i hi
    exact strcpy_other m 8 shipgate_login_msg i (by rw [hlen]; omega)
  · refine Eq.trans (get16be_congr (put16be (memset sb 0 0 64) 0 64) _ 0 ?_ ?_)
      (get16be_put16be _ _ _)
    · rw [hp, memcpy_other _ _ _ _ _ _ (by omega), memcpy_other _ _ _ _ _ _ (by omega),
        put8_other _ _ _ _ (by omega), put8_other _ _ _ _ (by omega),
        put8_other _ _ _ _ (by omega), strcpy_other _ _ _ _ (Or.inl (by omega)),
        put8_other _ _ _ _ (by omega), put8_other _ _ _ _ (by omega),
        put16be_other _ _ _ _ (by omega), put16be_other _ _ _ _ (by omega)]
    · rw [hp, memcpy_other _ _ _ _ _ _ (by omega), memcpy_other _ _ _ _ _ _ (by omega),
        put8_other _ _ _ _ (by omega), put8_other _ _ _ _ (by omega),
        put8_other _ _ _ _ (by omega), strcpy_other _ _ _ _ (Or.inl (by omega)),
        put8_other _ _ _ _ (by omega), put8_other _ _ _ _ (by omega),
        put16be_other _ _ _ _ (by omega), put16be_other _ _ _ _ (by omega)]
  · rw [show be16 0x0010 = be16 SHDR_TYPE_LOGIN from rfl,
      ← bytes_put16be (put16be (memset sb 0 0 64) 0 64) 2 SHDR_TYPE_LOGIN]
    apply bytes_congr
    intro j hj
    rw [hp, memcpy_other _ _ _ _ _ _ (by omega), memcpy_other _ _ _ _ _ _ (by omega),
      put8_other _ _ _ _ (by omega), put8_other _ _ _ _ (by omega),
      put8_other _ _ _ _ (by omega), strcpy_other _ _ _ _ (Or.inl (by omega)),
      put8_other _ _ _ _ (by omega), put8_other _ _ _ _ (by omega),
      put16be_other _ _ _ _ (by omega)]
  · rw [show ([0, 0, 0, 0] : List Nat) = be32 0 from rfl]
    apply bytes_zero_four
    intro j hj
    rw [hp, memcpy_other _ _ _ _ _ _ (by omega), memcpy_other _ _ _ _ _ _ (by omega),
      put8_other _ _ _ _ (by omega), put8_other _ _ _ _ (by omega),
      put8_other _ _ _ _ (by omega), strcpy_other _ _ _ _ (Or.inl (by omega))]
    have : j = 0 ∨ j = 1 ∨ j = 2 ∨ j = 3 := by omega
    rcases this with rfl | rfl | rfl | rfl <;> simp [put8, put16be]
  · rfl
  · simp [bytes, List.range_succ, hp, memcpy, put8]
  · apply bytes_congr
    intro j hj
    rw [hp, memcpy_inside _ _ _ _ _ _ (by omega) (by omega)]
    congr 1
    omega
  · apply bytes_congr
    intro j hj
    rw [hp, memcpy_other _ _ _ _ _ _ (by omega), memcpy_inside _ _ _ _ _ _ (by omega) (by omega)]
    congr 1
    omega

/-- Witness of C35: offset 60, beyond the message field, is not written by
the copy of the login message; the welcome packet of the connection `ship0`
for version 1.2.3. -/
theorem send_welcome_layout_witness :
    ((60 : Nat) < 8 ∨ 53 ≤ 60) ∧
    strcpy scratchA 8 shipgate_login_msg 60 = scratchA 60 ∧
    bytes (send_welcome_pkt scratchA ship0 1 2 3).1 0 8 = [0, 64, 0, 0x10, 0, 0, 0, 0] ∧
    bytes (send_welcome_pkt scratchA ship0 1 2 3).1 52 12 =
      [0, 1, 2, 3, 0, 0, 0, 0, 0, 0, 0, 0] :=
  ⟨Or.inr (by decide),
   (send_welcome_layout envAll 3 scratchA ship0 1 2 3 world0).2.1 scratchA 60
     (Or.inr (by decide)),
   by decide, by decide⟩

/-- C33: in the packet `send_friend_message` builds, for a friend name
shorter than 32 bytes: the length handed to `send_raw` and the declared
length are 96; the type is 0x001B when `on != 0` and 0x001C otherwise; the
friend name field (32-63) holds the name followed by zeros; and the nickname
field (64-95) is all zeros for a null nickname, and otherwise the first
`min(31, strlen)` bytes of the nickname followed by zeros, so that the byte
at offset 95 is zero for every nickname. -/
theorem send_friend_message_layout (env : Env) (fuel : Nat) (sb : Mem) (c : ship_t) (on_ : Int)
    (dest_gc dest_block friend_gc friend_block friend_ship : Nat) (friend_name : CStr)
    (nickname : Option CStr) (w : World) (hname : strlen friend_name < 32) :
    (send_friend_message_pkt sb on_ dest_gc dest_block friend_gc friend_block friend_ship
      friend_name nickname).2 = 96 ∧
    send_friend_message env fuel sb c on_ dest_gc dest_block friend_gc friend_block
        friend_ship friend_name nickname w =
      send_raw env fuel (send_friend_message_pkt sb on_ dest_gc dest_block friend_gc
        friend_block friend_ship friend_name nickname).1 c 96 w ∧
    get16be (send_friend_message_pkt sb on_ dest_gc dest_block friend_gc friend_block
      friend_ship friend_name nickname).1 0 = 96 ∧
    bytes (send_friend_message_pkt sb on_ dest_gc dest_block friend_gc friend_block
      friend_ship friend_name nickname).1 2 2 = be16 (if on_ ≠ 0 then 0x001B else 0x001C) ∧
    bytes (send_friend_message_pkt sb on_ dest_gc dest_block friend_gc friend_block
      friend_ship friend_name nickname).1 32 32 = cstr_field friend_name 32 ∧
    bytes (send_friend_message_pkt sb on_ dest_gc dest_block friend_gc friend_block
      friend_ship friend_name nickname).1 64 32 =
        (match nickname with
          | none => List.replicate 32 0
          | some s => cstr_field s 31 ++ [0]) ∧
    (send_friend_message_pkt sb on_ dest_gc dest_block friend_gc friend_block friend_ship
      friend_name nickname).1 95 = 0 := by
  have hlen : friend_name.length < 32 := hname
  set m0 := put32be (put32be (put32be (put32be (put32be (put8 (put8 (put16be (put16be
    (put16be (memset sb 0 0 96) 0 96) 2 (if on_ ≠ 0 then SHDR_TYPE_FRLOGIN else
    SHDR_TYPE_FRLOGOUT)) 4 0) 6 0) 7 0) 8 dest_gc) 12 dest_block) 16 friend_gc) 20
    friend_ship) 24 friend_block with hm0
  have hz : ∀ i, 28 ≤ i → i < 96 → m0 i = 0 := by
    intro i h1 h2
    rw [hm0, put32be_other _ _ _ _ (by omega), put32be_other _ _ _ _ (by omega),
      put32be_other _ _ _ _ (by omega), put32be_other _ _ _ _ (by omega),
      put32be_other _ _ _ _ (by omega), put8_other _ _ _ _ (by omega),
      put8_other _ _ _ _ (by omega), put16be_other _ _ _ _ (by omega),
      put16be_other _ _ _ _ (by omega), put16be_other _ _ _ _ (by omega),
      memset_inside _ _ _ _ _ (by omega) (by omega)]
  have h01 : get16be m0 0 = 96 ∧
      bytes m0 2 2 = be16 (if on_ ≠ 0 then 0x001B else 0x001C) := by
    constructor
    · refine Eq.trans (get16be_congr (put16be (memset sb 0 0 96) 0 96) _ 0 ?_ ?_)
        (get16be_put16be _ _ _)
      · rw [hm0, put32be_other _ _ _ _ (by omega), put32be_other _ _ _ _ (by omega),
          put32be_other _ _ _ _ (by omega), put32be_other _ _ _ _ (by omega),
          put32be_other _ _ _ _ (by omega), put8_other _ _ _ _ (by omega),
          put8_other _ _ _ _ (by omega), put16be_other _ _ _ _ (by omega),
          put16be_other _ _ _ _ (by omega)]
      · rw [hm0, put32be_other _ _ _ _ (by omega), put32be_other _ _ _ _ (by omega),
          put32be_other _ _ _ _ (by omega), put32be_other _ _ _ _ (by omega),
          put32be_other _ _ _ _ (by omega), put8_other _ _ _ _ (by omega),
          put8_other _ _ _ _ (by omega), put16be_other _ _ _ _ (by omega),
          put16be_other _ _ _ _ (by omega)]
    · rw [show be16 (if on_ ≠ 0 then 0x001B else 0x001C) =
          be16 (if on_ ≠ 0 then SHDR_TYPE_FRLOGIN else SHDR_TYPE_FRLOGOUT) from rfl,
        ← bytes_put16be (put16be (memset sb 0 0 96) 0 96) 2
          (if on_ ≠ 0 then SHDR_TYPE_FRLOGIN else SHDR_TYPE_FRLOGOUT)]
      apply bytes_congr
      intro j hj
      rw [hm0, put32be_other _ _ _ _ (by omega), put32be_other _ _ _ _ (by omega),
        put32be_other _ _ _ _ (by omega), put32be_other _ _ _ _ (by omega),
        put32be_other _ _ _ _ (by omega), put8_other _ _ _ _ (by omega),
        put8_other _ _ _ _ (by omega), put16be_other _ _ _ _ (by omega)]
  have hnamef : bytes (strcpy m0 32 friend_name) 32 32 = cstr_field friend_name 32 := by
    rw [← cstr_field_eq]
    unfold bytes
    apply List.map_congr_left
    intro i hi
    have hi32 := List.mem_range.mp hi
    by_cases hin : i ≤ friend_name.length
    · rw [strcpy_inside _ _ _ _ (by omega) (by omega)]
      congr 1
      omega
    · rw [strcpy_other _ _ _ _ (Or.inr (by omega)), hz _ (by omega) (by omega)]
      simp [List.getD_eq_getElem?_getD, List.getElem?_eq_none (show friend_name.length ≤ i by
        omega)]
  cases nickname with
  | none =>
    have hp : (send_friend_message_pkt sb on_ dest_gc dest_block friend_gc friend_block
        friend_ship friend_name none).1 = memset (strcpy m0 32 friend_name) 64 0 32 := rfl
    have hlow : ∀ i, i < 64 → memset (strcpy m0 32 friend_name) 64 0 32 i =
        strcpy m0 32 friend_name i := fun i hi => memset_other _ _ _ _ _ (Or.inl hi)
    refine ⟨rfl, rfl, ?_, ?_, ?_, ?_, ?_⟩
    · rw [hp, ← h01.1]
      exact get16be_congr _ _ 0
        (by rw [hlow _ (by omega), strcpy_other _ _ _ _ (Or.inl (by omega))])
        (by rw [hlow _ (by omega), strcpy_other _ _ _ _ (Or.inl (by omega))])
    · rw [hp, ← h01.2]
      apply bytes_congr
      intro j hj
      rw [hlow _ (by omega), strcpy_other _ _ _ _ (Or.inl (by omega))]
    · rw [hp, ← hnamef]
      apply bytes_congr
      intro j hj
      rw [hlow _ (by omega)]
    · rw [hp]
      apply List.ext_getElem
      · simp [bytes_length]
      · intro i h1 h2
        rw [bytes_length] at h1
        simp only [bytes, List.getElem_map, List.getElem_range, List.getElem_replicate]
        rw [memset_inside _ _ _ _ _ (by omega) (by omega)]
    · rw [hp, memset_inside _ _ _ _ _ (by omega) (by omega)]
  | some s =>
    have hp : (send_friend_message_pkt sb on_ dest_gc dest_block friend_gc friend_block
        friend_ship friend_name (some s)).1 =
        put8 (strncpy (strcpy m0 32 friend_name) 64 s 32) 95 0 := rfl
    have hlow : ∀ i, i < 64 → put8 (strncpy (strcpy m0 32 friend_name) 64 s 32) 95 0 i =
        strcpy m0 32 friend_name i := by
      intro i hi
      rw [put8_other _ _ _ _ (by omega), strncpy_other _ _ _ _ _ (Or.inl hi)]
    refine ⟨rfl, rfl, ?_, ?_, ?_, ?_, ?_⟩
    · rw [hp, ← h01.1]
      exact get16be_congr _ _ 0
        (by rw [hlow _ (by omega), strcpy_other _ _ _ _ (Or.inl (by omega))])
        (by rw [hlow _ (by omega), strcpy_other _ _ _ _ (Or.inl (by omega))])
    · rw [hp, ← h01.2]
      apply bytes_congr
      intro j hj
      rw [hlow _ (by omega), strcpy_other _ _ _ _ (Or.inl (by omega))]
    · rw [hp, ← hnamef]
      apply bytes_congr
      intro j hj
      rw [hlow _ (by omega)]
    · rw [hp, show (32 : Nat) = 31 + 1 from rfl, bytes_append]
      congr 1
      · rw [← cstr_field_eq]
        unfold bytes
        apply List.map_congr_left
        intro i hi
        have hi31 := List.mem_range.mp hi
        rw [put8_other _ _ _ _ (by omega), strncpy_inside _ _ _ _ _ (by omega) (by omega)]
        congr 1
        omega
    · rw [hp]
      simp [put8]

/-- Witness of C33: the friend `Al` logs on, nickname `hi`. -/
theorem send_friend_message_layout_witness :
    strlen [65, 108] < 32 ∧
    bytes (send_friend_message_pkt scratchA 1 1 2 3 4 5 [65, 108] (some msgHi)).1 0 4 =
      [0, 96, 0, 0x1B] ∧
    bytes (send_friend_message_pkt scratchA 1 1 2 3 4 5 [65, 108] (some msgHi)).1 64 32 =
      (match (some msgHi : Option CStr) with
        | none => List.replicate 32 0
        | some s => cstr_field s 31 ++ [0]) :=
  ⟨by decide, by decide,
   (send_friend_message_layout envAll 3 scratchA ship0 1 1 2 3 4 5 [65, 108] (some msgHi) world0
      (by decide)).2.2.2.2.2.1⟩

/-! ## User errors: theorems -/

theorem send_user_error_pkt_eq (sb : Mem) (pkt_type err_code gc block : Nat) (s : CStr)
    (hs : s.length ≤ 65504) :
    send_user_error_pkt sb pkt_type err_code gc block (some s) =
      (strcpy (put32be (put32be (put16be (put16be (put16be
        (memset sb 0 0 (round_up8 (24 + s.length))) 2 pkt_type) 0 (round_up8 (24 + s.length)))
        4 (SHDR_RESPONSE ||| (if err_code ≠ ERR_NO_ERROR then SHDR_FAILURE else 0))) 16 gc)
        20 block) 24 s, round_up8 (24 + s.length)) := by
  have h1 : (strlen s % 65536 + sizeof_shipgate_user_err_pkt) % 65536 = 24 + s.length := by
    have : sizeof_shipgate_user_err_pkt = 24 := rfl
    rw [this]
    unfold strlen
    omega
  have hpl := round_not7 (24 + s.length) (by omega)
  simp only [send_user_error_pkt, h1, hpl]

/-- C31: on a connection with `proto_ver >= 19`, for a message of `s` bytes
with `s <= 65504`, `send_user_error` hands to `send_raw` one packet of `T`
bytes, `T` the least multiple of 8 that is at least `24 + s`: declared length
`T`, the caller's `pkt_type`, header flags `0x8000`, or `0xC000` exactly when
`err_code != ERR_NO_ERROR`, `gc` at offsets 16-19 and `block` at 20-23
big-endian, the message bytes from offset 24 and zeros from `24 + s` to
`T - 1`; on a connection with an empty queue and a transport that keeps
accepting, the call returns 0 and the transport receives exactly these `T`
bytes. -/
theorem send_user_error_layout (env : Env) (sb : Mem) (c : ship_t)
    (pkt_type err_code gc block : Nat) (s : CStr) (w : World)
    (hver : 19 ≤ c.proto_ver) (hs : strlen s ≤ 65504) :
    (send_user_error_pkt sb pkt_type err_code gc block (some s)).2 =
      round_up8 (24 + strlen s) ∧
    (∀ fuel, send_user_error env fuel sb c pkt_type err_code gc block (some s) w =
      send_raw env fuel (send_user_error_pkt sb pkt_type err_code gc block (some s)).1 c
        (round_up8 (24 + strlen s)) w) ∧
    get16be (send_user_error_pkt sb pkt_type err_code gc block (some s)).1 0 =
      round_up8 (24 + strlen s) ∧
    bytes (send_user_error_pkt sb pkt_type err_code gc block (some s)).1 2 2 = be16 pkt_type ∧
    bytes (send_user_error_pkt sb pkt_type err_code gc block (some s)).1 4 2 =
      be16 (0x8000 ||| (if err_code ≠ ERR_NO_ERROR then 0x4000 else 0)) ∧
    bytes (send_user_error_pkt sb pkt_type err_code gc block (some s)).1 16 4 = be32 gc ∧
    bytes (send_user_error_pkt sb pkt_type err_code gc block (some s)).1 20 4 = be32 block ∧
    bytes (send_user_error_pkt sb pkt_type err_code gc block (some s)).1 24 (strlen s) = s ∧
    (∀ i, 24 + strlen s ≤ i → i < round_up8 (24 + strlen s) →
      (send_user_error_pkt sb pkt_type err_code gc block (some s)).1 i = 0) ∧
    (c.sendbuf_cur = 0 → Accepting env →
      ∃ n w1, (∀ fuel, n ≤ fuel →
          send_user_error env fuel sb c pkt_type err_code gc block (some s) w =
            some (0, c, w1)) ∧
        w1.wire = w.wire ++
          bytes (send_user_error_pkt sb pkt_type err_code gc block (some s)).1 0
            (round_up8 (24 + strlen s))) := by
  unfold strlen at hs ⊢
  have hp := send_user_error_pkt_eq sb pkt_type err_code gc block s hs
  obtain ⟨r1, r2, r3⟩ := round_up8_spec (24 + s.length)
  have hsend : ∀ fuel, send_user_error env fuel sb c pkt_type err_code gc block (some s) w =
      send_raw env fuel (send_user_error_pkt sb pkt_type err_code gc block (some s)).1 c
        (round_up8 (24 + s.length)) w := by
    intro fuel
    have hv : ¬ c.proto_ver < 19 := by omega
    have h8 : ¬ (((round_up8 (24 + s.length) : Nat) : Int) < 8) := by omega
    simp only [send_user_error, hv, if_false]
    simp only [hp, send_crypt, h8, if_false]
  refine ⟨by rw [hp], hsend, ?_, ?_, ?_, ?_, ?_, ?_, ?_, ?_⟩
  · rw [hp]
    dsimp only
    refine Eq.trans (get16be_congr (put16be (put16be (memset sb 0 0 (round_up8 (24 + s.length)))
      2 pkt_type) 0 (round_up8 (24 + s.length))) _ 0 ?_ ?_)
      ((get16be_put16be _ _ _).trans (Nat.mod_eq_of_lt (by omega)))
    · rw [strcpy_other _ _ _ _ (Or.inl (by omega)), put32be_other _ _ _ _ (by omega),
        put32be_other _ _ _ _ (by omega), put16be_other _ _ _ _ (by omega)]
    · rw [strcpy_other _ _ _ _ (Or.inl (by omega)), put32be_other _ _ _ _ (by omega),
        put32be_other _ _ _ _ (by omega), put16be_other _ _ _ _ (by omega)]
  · rw [hp]
    dsimp only
    rw [← bytes_put16be (memset sb 0 0 (round_up8 (24 + s.length))) 2 pkt_type]
    apply bytes_congr
    intro j hj
    rw [strcpy_other _ _ _ _ (Or.inl (by omega)), put32be_other _ _ _ _ (by omega),
      put32be_other _ _ _ _ (by omega), put16be_other _ _ _ _ (by omega),
      put16be_other _ _ _ _ (by omega)]
  · rw [hp]
    dsimp only
    rw [show be16 (0x8000 ||| (if err_code ≠ ERR_NO_ERROR then 0x4000 else 0)) =
        be16 (SHDR_RESPONSE ||| (if err_code ≠ ERR_NO_ERROR then SHDR_FAILURE else 0)) from rfl,
      ← bytes_put16be (put16be (put16be (memset sb 0 0 (round_up8 (24 + s.length))) 2 pkt_type)
        0 (round_up8 (24 + s.length))) 4
        (SHDR_RESPONSE ||| (if err_code ≠ ERR_NO_ERROR then SHDR_FAILURE else 0))]
    apply bytes_congr
    intro j hj
    rw [strcpy_other _ _ _ _ (Or.inl (by omega)), put32be_other _ _ _ _ (by omega),
      put32be_other _ _ _ _ (by omega)]
  · rw [hp]
    dsimp only
    rw [← bytes_put32be (put16be (put16be (put16be (memset sb 0 0 (round_up8 (24 + s.length)))
      2 pkt_type) 0 (round_up8 (24 + s.length))) 4
      (SHDR_RESPONSE ||| (if err_code ≠ ERR_NO_ERROR then SHDR_FAILURE else 0))) 16 gc]
    apply bytes_congr
    intro j hj
    rw [strcpy_other _ _ _ _ (Or.inl (by omega)), put32be_other _ _ _ _ (by omega)]
  · rw [hp]
    dsimp only
    rw [← bytes_put32be (put32be (put16be (put16be (put16be
      (memset sb 0 0 (round_up8 (24 + s.length)))
      2 pkt_type) 0 (round_up8 (24 + s.length))) 4
      (SHDR_RESPONSE ||| (if err_code ≠ ERR_NO_ERROR then SHDR_FAILURE else 0))) 16 gc)
      20 block]
    apply bytes_congr
    intro j hj
    rw [strcpy_other _ _ _ _ (Or.inl (by omega))]
  · rw [hp]
    exact (bytes_strcpy _ 24 s).1
  · intro i h1 h2
    rw [hp]
    dsimp only
    rcases Nat.eq_or_lt_of_le h1 with he | hlt
    · rw [← he]
      exact (bytes_strcpy _ 24 s).2
    · rw [strcpy_other _ _ _ _ (Or.inr (by omega)), put32be_other _ _ _ _ (by omega),
        put32be_other _ _ _ _ (by omega), put16be_other _ _ _ _ (by omega),
        put16be_other _ _ _ _ (by omega), put16be_other _ _ _ _ (by omega),
        memset_inside _ _ _ _ _ (by omega) (by omega)]
  · intro hq hacc
    obtain ⟨k, w1, h1, h2, _⟩ := send_raw_accepting env
      (send_user_error_pkt sb pkt_type err_code gc block (some s)).1 c
      (round_up8 (24 + s.length)) w hq hacc
    exact ⟨k, w1, fun fuel hf => by rw [hsend fuel, ← h1 fuel hf], h2⟩

/-- Witness of C31: the message `hi` with a non-zero error code is sent in a
packet of 32 bytes with flags 0xC000. -/
theorem send_user_error_layout_witness :
    19 ≤ ship0.proto_ver ∧ strlen msgHi ≤ 65504 ∧
    (send_user_error_pkt scratchA 0x30 5 1 2 (some msgHi)).2 = round_up8 (24 + strlen msgHi) ∧
    bytes (send_user_error_pkt scratchA 0x30 5 1 2 (some msgHi)).1 0 32 =
      [0, 32, 0, 0x30, 0xC0, 0, 0, 0, 0, 0, 0, 0, 0, 0, 0, 0, 0, 0, 0, 1, 0, 0, 0, 2,
       104, 105, 0, 0, 0, 0, 0, 0] :=
  ⟨by decide, by decide,
   (send_user_error_layout envAll scratchA ship0 0x30 5 1 2 msgHi world0 (by decide)
      (by decide)).1,
   by decide⟩

/-- C32, evaluated at a failing input: `send_user_error` with the message
`hi` and the error codes 5 and 6 builds the same 32 bytes, and the
`error_code` field at offsets 8-11 holds zero, not `00 00 00 05`; these are
the bytes the transport receives. -/
theorem send_user_error_drops_err_code :
    bytes (send_user_error_pkt scratchA 0x30 5 1 2 (some msgHi)).1 8 4 = [0, 0, 0, 0] ∧
    be32 5 = [0, 0, 0, 5] ∧
    (send_user_error_pkt scratchA 0x30 5 1 2 (some msgHi)).2 = 32 ∧
    bytes (send_user_error_pkt scratchA 0x30 5 1 2 (some msgHi)).1 0 32 =
      bytes (send_user_error_pkt scratchA 0x30 6 1 2 (some msgHi)).1 0 32 ∧
    (send_user_error envAll 3 scratchA ship0 0x30 5 1 2 (some msgHi) world0).map
        (fun r => (r.1, r.2.2.wire)) =
      some (0, [0, 32, 0, 0x30, 0xC0, 0, 0, 0, 0, 0, 0, 0, 0, 0, 0, 0, 0, 0, 0, 1, 0, 0, 0, 2,
        104, 105, 0, 0, 0, 0, 0, 0]) := by
  refine ⟨by decide, by decide, by decide, by decide, by decide⟩

/-! ## The pending queue: order, bounds, termination -/

theorem bytes_memcpy_append (m : Mem) (k : Nat) (sb : Mem) (len : Nat) :
    bytes (memcpy m k sb 0 len) 0 (k + len) = bytes m 0 k ++ bytes sb 0 len := by
  rw [bytes_append]
  congr 1
  · apply bytes_congr
    intro i hi
    rw [memcpy_other _ _ _ _ _ _ (by omega)]
  · apply bytes_congr
    intro i hi
    rw [memcpy_inside _ _ _ _ _ _ (by omega) (by omega)]
    congr 1
    omega

/-- With a queue that is not empty `send_raw` goes straight to the queueing
step, with `total = 0` and the world untouched. -/
theorem send_raw_queued (env : Env) (fuel : Nat) (sb : Mem) (c : ship_t) (len : Int)
    (w : World) (hcur : c.sendbuf_cur ≠ 0) :
    send_raw env fuel sb c len w =
      some ((send_raw_queue env sb c len 0).1, (send_raw_queue env sb c len 0).2, w) := by
  simp [send_raw, hcur]

/-- The queueing step for a whole packet of `len > 0` bytes when allocation
succeeds: the old pending bytes lie at the front of the buffer, the packet
right behind them. -/
theorem send_raw_queue_whole (env : Env) (sb : Mem) (c : ship_t) (len : Nat)
    (hwf : 0 ≤ c.sendbuf_start ∧ c.sendbuf_start ≤ c.sendbuf_cur) (hlen : 0 < len)
    (hok : ∀ n, env.realloc_ok n = true) :
    (send_raw_queue env sb c len 0).1 = 0 ∧
    (send_raw_queue env sb c len 0).2.sendbuf_cur = c.sendbuf_cur - c.sendbuf_start + len ∧
    (send_raw_queue env sb c len 0).2.sendbuf_start = c.sendbuf_start ∧
    bytes (send_raw_queue env sb c len 0).2.sendbuf 0
        (send_raw_queue env sb c len 0).2.sendbuf_cur.toNat =
      pending c ++ bytes sb 0 len := by
  have hl : (len : Int) ≠ 0 := by omega
  have hk : (c.sendbuf_cur - c.sendbuf_start + (len : Int)).toNat =
      (c.sendbuf_cur - c.sendbuf_start).toNat + len := by omega
  have hmove : bytes (memmove c.sendbuf 0 c.sendbuf c.sendbuf_start.toNat
        (c.sendbuf_cur - c.sendbuf_start).toNat) 0 (c.sendbuf_cur - c.sendbuf_start).toNat =
      pending c := by
    unfold pending memmove
    apply bytes_congr
    intro i hi
    rw [memcpy_inside _ _ _ _ _ _ (by omega) (by omega)]
    congr 1
    omega
  by_cases hs : c.sendbuf_start = 0
  · have hp : pending c = bytes c.sendbuf 0 c.sendbuf_cur.toNat := by
      simp [pending, hs]
    have hk0 : (c.sendbuf_cur + (len : Int)).toNat = c.sendbuf_cur.toNat + len := by omega
    by_cases hsz : c.sendbuf_cur + (len : Int) > c.sendbuf_size
    · have hq : send_raw_queue env sb c len 0 = (0, { c with
          sendbuf_size := c.sendbuf_cur + len
          sendbuf := memcpy c.sendbuf c.sendbuf_cur.toNat sb 0 len
          sendbuf_cur := c.sendbuf_cur + len }) := by
        simp [send_raw_queue, hl, hs, hsz, hok]
      rw [hq]
      refine ⟨rfl, by simp [hs], rfl, ?_⟩
      dsimp only
      rw [hk0, hp]
      exact bytes_memcpy_append _ _ _ _
    · have hq : send_raw_queue env sb c len 0 = (0, { c with
          sendbuf := memcpy c.sendbuf c.sendbuf_cur.toNat sb 0 len
          sendbuf_cur := c.sendbuf_cur + len }) := by
        simp [send_raw_queue, hl, hs, hsz]
      rw [hq]
      refine ⟨rfl, by simp [hs], rfl, ?_⟩
      dsimp only
      rw [hk0, hp]
      exact bytes_memcpy_append _ _ _ _
  · by_cases hsz : c.sendbuf_cur - c.sendbuf_start + (len : Int) > c.sendbuf_size
    · have hq : send_raw_queue env sb c len 0 = (0, { c with
          sendbuf_size := c.sendbuf_cur - c.sendbuf_start + len
          sendbuf := memcpy (memmove c.sendbuf 0 c.sendbuf c.sendbuf_start.toNat
              (c.sendbuf_cur - c.sendbuf_start).toNat)
            (c.sendbuf_cur - c.sendbuf_start).toNat sb 0 len
          sendbuf_cur := c.sendbuf_cur - c.sendbuf_start + len }) := by
        simp [send_raw_queue, hl, hs, hsz, hok]
      rw [hq]
      refine ⟨rfl, rfl, rfl, ?_⟩
      dsimp only
      rw [hk, bytes_memcpy_append, hmove]
    · have hq : send_raw_queue env sb c len 0 = (0, { c with
          sendbuf := memcpy (memmove c.sendbuf 0 c.sendbuf c.sendbuf_start.toNat
              (c.sendbuf_cur - c.sendbuf_start).toNat)
            (c.sendbuf_cur - c.sendbuf_start).toNat sb 0 len
          sendbuf_cur := c.sendbuf_cur - c.sendbuf_start + len }) := by
        simp [send_raw_queue, hl, hs, hsz]
      rw [hq]
      refine ⟨rfl, rfl, rfl, ?_⟩
      dsimp only
      rw [hk, bytes_memcpy_append, hmove]

/-- C36, evaluated at a failing input: the queue holds `102, 103, 104`
(`sendbuf_start = 2`, `sendbuf_cur = 5`) and the 8-byte packet `1 .. 8` is
sent with a working allocator. `send_raw` makes no transport call and returns
0, and the buffer holds `102, 103, 104, 1 .. 8` from offset 0; but
`sendbuf_start` is still 2, so the queue `sendbuf[sendbuf_start ..
sendbuf_cur)` is `104, 1 .. 8`: the packet does not lie behind the bytes
that were queued, of which `102` and `103` are gone. -/
theorem send_raw_enqueue_drops_oldest :
    shipQueued.sendbuf_cur ≠ 0 ∧
    pending shipQueued ++ bytes scratchA 0 8 = [102, 103, 104, 1, 2, 3, 4, 5, 6, 7, 8] ∧
    (send_raw envAll 3 scratchA shipQueued 8 world0).map
        (fun r => (r.1, r.2.2.log.length, bytes r.2.1.sendbuf 0 11, pending r.2.1)) =
      some (0, 0, [102, 103, 104, 1, 2, 3, 4, 5, 6, 7, 8], [104, 1, 2, 3, 4, 5, 6, 7, 8]) := by
  refine ⟨by decide, by decide, by decide⟩

theorem send_raw_success (env : Env) (fuel : Nat) (sb : Mem) (c : ship_t) (len : Int)
    (w : World) (c1 : ship_t) (w1 : World)
    (h : send_raw env fuel sb c len w = some (0, c1, w1)) :
    ∃ total, send_raw_queue env sb c len total = (0, c1) := by
  simp only [send_raw] at h
  split at h
  · simp at h
  · simp at h
  · rename_i total w2 _
    simp only [Option.some.injEq, Prod.mk.injEq] at h
    exact ⟨total, Prod.ext h.1 h.2.1⟩

/-- The queueing step keeps `sendbuf_cur <= sendbuf_size`, never shrinks
the buffer, and writes below the new size only. -/
theorem send_raw_queue_bounds_aux (env : Env) (sb : Mem) (c : ship_t) (len total : Int)
    (hinv : c.sendbuf_start ≤ c.sendbuf_cur ∧ c.sendbuf_cur ≤ c.sendbuf_size)
    (h0 : (send_raw_queue env sb c len total).1 = 0) :
    (send_raw_queue env sb c len total).2.sendbuf_cur ≤
      (send_raw_queue env sb c len total).2.sendbuf_size ∧
    c.sendbuf_size ≤ (send_raw_queue env sb c len total).2.sendbuf_size ∧
    (0 ≤ c.sendbuf_start →
      ∀ i : Nat, (send_raw_queue env sb c len total).2.sendbuf_size ≤ i →
        (send_raw_queue env sb c len total).2.sendbuf i = c.sendbuf i) := by
  unfold send_raw_queue at h0 ⊢
  dsimp only at h0 ⊢
  by_cases h1 : len - total ≠ 0
  · simp only [if_pos h1] at h0 ⊢
    by_cases h2 : c.sendbuf_start ≠ 0
    · simp only [if_pos h2] at h0 ⊢
      try dsimp only at h0 ⊢
      by_cases h3 : c.sendbuf_cur - c.sendbuf_start + (len - total) > c.sendbuf_size
      · simp only [if_pos h3] at h0 ⊢
        by_cases h4 : env.realloc_ok (c.sendbuf_cur - c.sendbuf_start + (len - total)) = true
        · simp only [if_pos h4] at h0 ⊢
          try dsimp only
          refine ⟨by omega, by omega, fun hs i hi => ?_⟩
          unfold memmove
          rw [memcpy_other _ _ _ _ _ _ (by omega), memcpy_other _ _ _ _ _ _ (by omega)]
        · simp only [if_neg h4] at h0
          try dsimp only at h0
          omega
      · simp only [if_neg h3] at h0 ⊢
        try dsimp only
        refine ⟨by omega, by omega, fun hs i hi => ?_⟩
        unfold memmove
        rw [memcpy_other _ _ _ _ _ _ (by omega), memcpy_other _ _ _ _ _ _ (by omega)]
    · simp only [if_neg h2] at h0 ⊢
      have hs0 : c.sendbuf_start = 0 := by
        by_contra hne
        exact h2 hne
      by_cases h3 : c.sendbuf_cur + (len - total) > c.sendbuf_size
      · simp only [if_pos h3] at h0 ⊢
        by_cases h4 : env.realloc_ok (c.sendbuf_cur + (len - total)) = true
        · simp only [if_pos h4] at h0 ⊢
          try dsimp only
          refine ⟨by omega, by omega, fun hs i hi => ?_⟩
          rw [memcpy_other _ _ _ _ _ _ (by omega)]
        · simp only [if_neg h4] at h0
          try dsimp only at h0
          omega
      · simp only [if_neg h3] at h0 ⊢
        try dsimp only
        refine ⟨by omega, by omega, fun hs i hi => ?_⟩
        rw [memcpy_other _ _ _ _ _ _ (by omega)]
  · simp only [if_neg h1]
    exact ⟨hinv.2, le_refl _, fun _ _ _ => trivial⟩

/-- C37: if `sendbuf_start <= sendbuf_cur <= sendbuf_size` holds before
`send_raw`, then after a return of 0 `sendbuf_cur <= sendbuf_size` holds
again and `sendbuf_size` has not decreased; and, `sendbuf_start` being an
offset (not negative), no byte of the buffer at or above the new
`sendbuf_size` has been written, neither by the compaction nor by the copy
of the unsent bytes. -/
theorem send_raw_queue_bounds (env : Env) (fuel : Nat) (sb : Mem) (c : ship_t) (len : Int)
    (w : World) (c1 : ship_t) (w1 : World)
    (hinv : c.sendbuf_start ≤ c.sendbuf_cur ∧ c.sendbuf_cur ≤ c.sendbuf_size)
    (hret : send_raw env fuel sb c len w = some (0, c1, w1)) :
    c1.sendbuf_cur ≤ c1.sendbuf_size ∧ c.sendbuf_size ≤ c1.sendbuf_size ∧
    (0 ≤ c.sendbuf_start →
      ∀ i : Nat, c1.sendbuf_size ≤ i → c1.sendbuf i = c.sendbuf i) := by
  obtain ⟨total, hq⟩ := send_raw_success env fuel sb c len w c1 w1 hret
  have h := send_raw_queue_bounds_aux env sb c len total hinv (by rw [hq])
  rw [hq] at h
  exact h

/-- Witness of C37: a packet of 20 bytes on the connection whose queue holds
3 bytes in a buffer of 16: the buffer grows to 23 bytes. -/
theorem send_raw_queue_bounds_witness :
    (shipQueued.sendbuf_start ≤ shipQueued.sendbuf_cur ∧
      shipQueued.sendbuf_cur ≤ shipQueued.sendbuf_size) ∧
    send_raw envAll 3 scratchA shipQueued 20 world0 =
      some (0, (send_raw_queue envAll scratchA shipQueued 20 0).2, world0) ∧
    (send_raw_queue envAll scratchA shipQueued 20 0).2.sendbuf_size = 23 ∧
    (send_raw_queue envAll scratchA shipQueued 20 0).2.sendbuf_cur ≤
      (send_raw_queue envAll scratchA shipQueued 20 0).2.sendbuf_size ∧
    shipQueued.sendbuf_size ≤ (send_raw_queue envAll scratchA shipQueued 20 0).2.sendbuf_size :=
  ⟨⟨by decide, by decide⟩, rfl, by decide,
   (send_raw_queue_bounds envAll 3 scratchA shipQueued 20 world0
      (send_raw_queue envAll scratchA shipQueued 20 0).2 world0 ⟨by decide, by decide⟩ rfl).1,
   (send_raw_queue_bounds envAll 3 scratchA shipQueued 20 world0
      (send_raw_queue envAll scratchA shipQueued 20 0).2 world0 ⟨by decide, by decide⟩
      rfl).2.1⟩

theorem ship_send_log (env : Env) (w : World) (sb : Mem) (off len : Int) :
    (ship_send env w sb off len).2.log.length = w.log.length + 1 := by
  simp [ship_send]

/-- With a transport that, offered bytes, takes at least one or fails hard,
the send loop has returned within `r` iterations when at most `r` bytes are
left, after at most `r` transport calls. -/
theorem send_loop_progress (env : Env) (sb : Mem) (len : Int)
    (h : ∀ i n, 0 < n → (0 < env.send i n ∧ env.send i n ≤ n) ∨ hardError (env.send i n)) :
    ∀ (r : Nat) (total : Int) (w : World), len - total ≤ r →
      ∃ res w1, (∀ fuel, r ≤ fuel → send_loop env sb len fuel total w = some (res, w1)) ∧
        w1.log.length ≤ w.log.length + r := by
  intro r
  induction r with
  | zero =>
    intro total w hr
    exact ⟨some total, w, fun fuel _ => send_loop_done env sb len fuel total w (by omega),
      by omega⟩
  | succ r ih =>
    intro total w hr
    by_cases hlt : total < len
    · rcases h w.log.length (len - total) (by omega) with ⟨hpos, hle⟩ | hhard
      · obtain ⟨res, w1, hI, hlog⟩ := ih (total + env.send w.log.length (len - total))
          (ship_send env w sb total (len - total)).2 (by omega)
        rw [ship_send_log] at hlog
        refine ⟨res, w1, fun fuel hf => ?_, by omega⟩
        obtain ⟨f, rfl⟩ : ∃ f, fuel = f + 1 := ⟨fuel - 1, by omega⟩
        rw [send_loop_step env sb len f total w hlt, if_neg (by omega)]
        exact hI f (by omega)
      · refine ⟨none, (ship_send env w sb total (len - total)).2, fun fuel hf => ?_, ?_⟩
        · obtain ⟨f, rfl⟩ : ∃ f, fuel = f + 1 := ⟨fuel - 1, by omega⟩
          rw [send_loop_step env sb len f total w hlt, if_pos hhard.1,
            if_neg (fun e => e.elim hhard.2.1 hhard.2.2)]
        · rw [ship_send_log]
          omega
    · exact ⟨some total, w, fun fuel _ => send_loop_done env sb len fuel total w hlt,
        by omega⟩

/-- With a transport that only ever answers 0, would-block or interrupted,
the send loop does not return, whatever the fuel. -/
theorem send_loop_stalls (env : Env) (sb : Mem) (len : Int)
    (h : ∀ i n, env.send i n = 0 ∨ env.send i n = GNUTLS_E_AGAIN ∨
      env.send i n = GNUTLS_E_INTERRUPTED) :
    ∀ (fuel : Nat) (total : Int) (w : World), total < len →
      send_loop env sb len fuel total w = none := by
  intro fuel
  induction fuel with
  | zero =>
    intro total w hlt
    simp [send_loop, hlt]
  | succ f ih =>
    intro total w hlt
    rw [send_loop_step env sb len f total w hlt]
    rcases h w.log.length (len - total) with h0 | ha | hi
    · rw [h0, if_neg (by decide), Int.add_zero]
      exact ih _ _ hlt
    · rw [ha, if_pos (by decide), if_pos (Or.inl rfl)]
      exact ih _ _ hlt
    · rw [hi, if_pos (by decide), if_pos (Or.inr rfl)]
      exact ih _ _ hlt

/-- C38: the send loop of `send_raw` on a connection with an empty queue.
With a transport that on every call either accepts at least one of the
offered bytes, and never more than offered, or returns a hard error, the
loop returns within `len` iterations, having made at most `len` transport
calls, and `send_raw` returns. With a transport that only ever answers 0
accepted bytes, would-block or interrupted, and `len > 0`, the loop does not
return for any number of iterations, and neither does `send_raw`. -/
theorem send_loop_terminates (env : Env) (sb : Mem) (c : ship_t) (len : Nat) (w : World)
    (hq : c.sendbuf_cur = 0) :
    ((∀ i n, 0 < n → (0 < env.send i n ∧ env.send i n ≤ n) ∨ hardError (env.send i n)) →
      ∃ r w1, (∀ fuel, len ≤ fuel → send_loop env sb len fuel 0 w = some (r, w1)) ∧
        w1.log.length ≤ w.log.length + len ∧
        ∃ res, ∀ fuel, len ≤ fuel → send_raw env fuel sb c len w = some res) ∧
    ((∀ i n, env.send i n = 0 ∨ env.send i n = GNUTLS_E_AGAIN ∨
        env.send i n = GNUTLS_E_INTERRUPTED) →
      0 < len →
      ∀ fuel, send_loop env sb len fuel 0 w = none ∧ send_raw env fuel sb c len w = none) := by
  constructor
  · intro h
    obtain ⟨r, w1, hI, hlog⟩ := send_loop_progress env sb len h len 0 w (by omega)
    refine ⟨r, w1, hI, hlog, ?_⟩
    cases r with
    | none =>
      refine ⟨(-1, c, w1), fun fuel hf => ?_⟩
      rw [send_raw_empty env fuel sb c len w hq, hI fuel hf]
    | some t =>
      refine ⟨((send_raw_queue env sb c len t).1, (send_raw_queue env sb c len t).2, w1),
        fun fuel hf => ?_⟩
      rw [send_raw_empty env fuel sb c len w hq, hI fuel hf]
  · intro h hlen fuel
    have hl := send_loop_stalls env sb len h fuel 0 w (by omega)
    refine ⟨hl, ?_⟩
    rw [send_raw_empty env fuel sb c len w hq, hl]

/-- Witness of C38: a packet of 8 bytes on a connection with an empty queue:
a transport that accepts everything lets the loop return within 8
iterations; one that answers 0 and would-block in turn never does. -/
theorem send_loop_terminates_witness :
    ship0.sendbuf_cur = 0 ∧
    (∃ r w1, (∀ fuel, 8 ≤ fuel → send_loop envAll scratchA (8 : Nat) fuel 0 world0 =
        some (r, w1)) ∧
      w1.log.length ≤ world0.log.length + 8 ∧
      ∃ res, ∀ fuel, 8 ≤ fuel → send_raw envAll fuel scratchA ship0 (8 : Nat) world0 =
        some res) ∧
    (∀ fuel, send_loop envStall scratchA (8 : Nat) fuel 0 world0 = none ∧
      send_raw envStall fuel scratchA ship0 (8 : Nat) world0 = none) :=
  ⟨rfl,
   (send_loop_terminates envAll scratchA ship0 8 world0 rfl).1
     (fun i n hn => Or.inl ⟨hn, le_refl _⟩),
   (send_loop_terminates envStall scratchA ship0 8 world0 rfl).2
     (fun i n => by
       by_cases h : i % 2 = 0
       · exact Or.inl (by simp [envStall, h])
       · exact Or.inr (Or.inl (by simp [envStall, h])))
     (by decide)⟩

/-! ## Hand-over to `send_raw`: lemmas -/

theorem bytes_memcpy_at (m : Mem) (k : Nat) (sb : Mem) (L : Nat) :
    bytes (memcpy m k sb 0 L) k L = bytes sb 0 L := by
  apply bytes_congr
  intro i hi
  rw [memcpy_inside _ _ _ _ _ _ (by omega) (by omega)]
  congr 1
  omega

/-- The queueing step for a whole packet of `L > 0` bytes: it fails with -1,
or the packet lies in the buffer right below the new `sendbuf_cur`. -/
theorem send_raw_queue_acts (env : Env) (sb : Mem) (c : ship_t) (L : Nat) (hL : 0 < L) :
    (send_raw_queue env sb c L 0).1 = -1 ∨
    ((send_raw_queue env sb c L 0).2.sendbuf_cur =
        (if c.sendbuf_start ≠ 0 then c.sendbuf_cur - c.sendbuf_start else c.sendbuf_cur) + L ∧
      bytes (send_raw_queue env sb c L 0).2.sendbuf
          (if c.sendbuf_start ≠ 0 then c.sendbuf_cur - c.sendbuf_start
            else c.sendbuf_cur).toNat L =
        bytes sb 0 L) := by
  have h1 : (L : Int) - 0 ≠ 0 := by omega
  have hz : ((L : Int) - 0).toNat = L := by omega
  unfold send_raw_queue
  dsimp only
  simp only [if_pos h1]
  by_cases h2 : c.sendbuf_start ≠ 0
  · simp only [if_pos h2]
    try dsimp only
    by_cases h3 : c.sendbuf_cur - c.sendbuf_start + ((L : Int) - 0) > c.sendbuf_size
    · simp only [if_pos h3]
      by_cases h4 : env.realloc_ok (c.sendbuf_cur - c.sendbuf_start + ((L : Int) - 0)) = true
      · simp only [if_pos h4]
        right
        try dsimp only
        refine ⟨by omega, ?_⟩
        rw [hz, Int.toNat_zero]
        exact bytes_memcpy_at _ _ _ _
      · simp only [if_neg h4]
        left
        trivial
    · simp only [if_neg h3]
      right
      try dsimp only
      refine ⟨by omega, ?_⟩
      rw [hz, Int.toNat_zero]
      exact bytes_memcpy_at _ _ _ _
  · simp only [if_neg h2]
    by_cases h3 : c.sendbuf_cur + ((L : Int) - 0) > c.sendbuf_size
    · simp only [if_pos h3]
      by_cases h4 : env.realloc_ok (c.sendbuf_cur + ((L : Int) - 0)) = true
      · simp only [if_pos h4]
        right
        try dsimp only
        refine ⟨by omega, ?_⟩
        rw [hz, Int.toNat_zero]
        exact bytes_memcpy_at _ _ _ _
      · simp only [if_neg h4]
        left
        trivial
    · simp only [if_neg h3]
      right
      try dsimp only
      refine ⟨by omega, ?_⟩
      rw [hz, Int.toNat_zero]
      exact bytes_memcpy_at _ _ _ _

/-- A packet of `L > 0` bytes handed to `send_raw` is acted upon. -/
theorem send_raw_acts (env : Env) (fuel : Nat) (sb : Mem) (c : ship_t) (L : Nat) (w : World)
    (hL : 0 < L) : Acts sb L c w (send_raw env fuel sb c L w) := by
  intro rv c1 w1 h
  by_cases hq : c.sendbuf_cur = 0
  · rw [send_raw_empty env fuel sb c L w hq] at h
    cases hl : send_loop env sb L fuel 0 w with
    | none => rw [hl] at h; simp at h
    | some p =>
      obtain ⟨r, w2⟩ := p
      rw [hl] at h
      obtain ⟨calls, hc, _, _, hhead⟩ := send_loop_trace env sb L fuel 0 w r w2 hl
      obtain ⟨rest, hr⟩ := hhead (by omega)
      have hlog : w.log.length < w2.log.length := by
        rw [hc, hr]
        simp
      cases r with
      | none =>
        simp only [Option.some.injEq, Prod.mk.injEq] at h
        exact Or.inl h.1.symm
      | some t =>
        simp only [Option.some.injEq, Prod.mk.injEq] at h
        rw [← h.2.2]
        exact Or.inr (Or.inl hlog)
  · rw [send_raw_queued env fuel sb c L w hq] at h
    simp only [Option.some.injEq, Prod.mk.injEq] at h
    obtain ⟨e1, e2, e3⟩ := h
    rcases send_raw_queue_acts env sb c L hL with hf | ⟨hcur, hb⟩
    · exact Or.inl (by rw [← e1, hf])
    · rw [e2] at hcur hb
      exact Or.inr (Or.inr ⟨hq, e3.symm, hcur, hb⟩)

/-- With a queue that is empty or starts at offset 0, handing a packet to
`send_crypt` never looks like a silent skip. -/
theorem send_crypt_no_skip (env : Env) (fuel : Nat) (sb : Mem) (c : ship_t) (L : Nat)
    (w : World) (hc : c.sendbuf_cur = 0 ∨ c.sendbuf_start = 0) :
    send_crypt env fuel sb c L w ≠ some (0, c, w) := by
  by_cases h8 : (L : Int) < 8
  · simp [send_crypt, h8]
  · by_cases hq : c.sendbuf_cur = 0
    · exact send_crypt_not_skip env fuel sb c L w hq
    · have hs : c.sendbuf_start = 0 := hc.resolve_left hq
      intro h
      simp only [send_crypt, h8, if_false] at h
      rcases send_raw_acts env fuel sb c L w (by omega) 0 c w h with h1 | h2 | ⟨_, _, h3, _⟩
      · omega
      · omega
      · rw [hs] at h3
        simp at h3
        omega

/-- The three facts of `GatedSend` for an encoder that is a gate in front of
`send_crypt` on a packet of `L >= 8` bytes. -/
theorem gatedSend_of_ite (skip : Prop) [Decidable skip] (env : Env) (fuel : Nat)
    (p : Mem × Nat) (L : Nat) (c : ship_t) (w : World) (hp : p.2 = L) (h8 : 8 ≤ L) :
    GatedSend skip env fuel p L c w
      (if skip then some (0, c, w) else send_crypt env fuel p.1 c p.2 w) := by
  have hs : send_crypt env fuel p.1 c p.2 w = send_raw env fuel p.1 c L w := by
    have : ¬ ((L : Int) < 8) := by omega
    simp only [send_crypt, hp, this, if_false]
  refine ⟨hp, h8, fun h => by simp [h], fun h => ?_, fun hc => ⟨fun h => ?_, fun h => by simp [h]⟩⟩
  · rw [if_neg h, hs]
    exact ⟨rfl, send_raw_acts env fuel p.1 c L w (by omega)⟩
  · by_contra hn
    rw [if_neg hn, hp] at h
    exact send_crypt_no_skip env fuel p.1 c L w hc h

/-! ## Envelope forwarding: layout and hand-over -/

/-- A packet of at least 8 bytes behind `send_crypt`: the call is `send_raw`
on it, and on a connection with an empty queue and a transport that keeps
accepting it returns 0 with exactly these bytes on the wire. -/
theorem send_crypt_hands (env : Env) (sb : Mem) (c : ship_t) (L : Nat) (w : World)
    (h8 : 8 ≤ L) :
    (∀ fuel, send_crypt env fuel sb c L w = send_raw env fuel sb c L w) ∧
    (c.sendbuf_cur = 0 → Accepting env →
      ∃ n w1, (∀ fuel, n ≤ fuel → send_crypt env fuel sb c L w = some (0, c, w1)) ∧
        w1.wire = w.wire ++ bytes sb 0 L) := by
  have hs : ∀ fuel, send_crypt env fuel sb c L w = send_raw env fuel sb c L w := by
    intro fuel
    have : ¬ ((L : Int) < 8) := by omega
    simp only [send_crypt, this, if_false]
  exact ⟨hs, fun hq hacc => send_crypt_transmits env sb c L w h8 hq hacc⟩

/-- C7: for every inner packet whose little-endian `pkt_len` is `L <= 65504`
(read at the Dreamcast / PC offset for `forward_dreamcast` and `forward_pc`,
at the Blue Burst offset for `forward_bb`), the forwarder hands to `send_raw`
a packet whose length `T` is the least multiple of 8 that is at least
`24 + L`, with `T` big-endian in bytes 0-1, the type tag 0x0001 / 0x0003 /
0x0002 in bytes 2-3, zero in bytes 4-7, the sender ship id at 8-11,
`fw_flags = 0` at 12-15, the guildcard at 16-19 and the block at 20-23,
big-endian, the `L` inner bytes unchanged from offset 24, and zero from
`24 + L` to `T - 1`; on a connection with an empty queue and a transport
that keeps accepting, the call returns 0 and the transport receives exactly
these `T` bytes. -/
theorem forward_envelope_layout (env : Env) (sb inner : Mem) (c : ship_t)
    (sender gc block : Nat) (w : World) :
    (get16le inner dc_pkt_len_off ≤ 65504 →
      (IsEnvelope 0x0001 inner (get16le inner dc_pkt_len_off) sender gc block
          (forward_dreamcast_pkt sb inner sender gc block) ∧
        (∀ fuel, forward_dreamcast env fuel sb c inner sender gc block w =
          send_raw env fuel (forward_dreamcast_pkt sb inner sender gc block).1 c
            (forward_dreamcast_pkt sb inner sender gc block).2 w) ∧
        (c.sendbuf_cur = 0 → Accepting env →
          ∃ n w1, (∀ fuel, n ≤ fuel →
              forward_dreamcast env fuel sb c inner sender gc block w = some (0, c, w1)) ∧
            w1.wire = w.wire ++ bytes (forward_dreamcast_pkt sb inner sender gc block).1 0
              (forward_dreamcast_pkt sb inner sender gc block).2)) ∧
      (IsEnvelope 0x0003 inner (get16le inner dc_pkt_len_off) sender gc block
          (forward_pc_pkt sb inner sender gc block) ∧
        (∀ fuel, forward_pc env fuel sb c inner sender gc block w =
          send_raw env fuel (forward_pc_pkt sb inner sender gc block).1 c
            (forward_pc_pkt sb inner sender gc block).2 w) ∧
        (c.sendbuf_cur = 0 → Accepting env →
          ∃ n w1, (∀ fuel, n ≤ fuel →
              forward_pc env fuel sb c inner sender gc block w = some (0, c, w1)) ∧
            w1.wire = w.wire ++ bytes (forward_pc_pkt sb inner sender gc block).1 0
              (forward_pc_pkt sb inner sender gc block).2))) ∧
    (get16le inner bb_pkt_len_off ≤ 65504 →
      IsEnvelope 0x0002 inner (get16le inner bb_pkt_len_off) sender gc block
          (forward_bb_pkt sb inner sender gc block) ∧
        (∀ fuel, forward_bb env fuel sb c inner sender gc block w =
          send_raw env fuel (forward_bb_pkt sb inner sender gc block).1 c
            (forward_bb_pkt sb inner sender gc block).2 w) ∧
        (c.sendbuf_cur = 0 → Accepting env →
          ∃ n w1, (∀ fuel, n ≤ fuel →
              forward_bb env fuel sb c inner sender gc block w = some (0, c, w1)) ∧
            w1.wire = w.wire ++ bytes (forward_bb_pkt sb inner sender gc block).1 0
              (forward_bb_pkt sb inner sender gc block).2)) := by
  constructor
  · intro hdc
    have e1 : IsEnvelope 0x0001 inner (get16le inner dc_pkt_len_off) sender gc block
        (forward_dreamcast_pkt sb inner sender gc block) :=
      fw_9_fill_envelope SHDR_TYPE_DC dc_pkt_len_off sb inner sender gc block hdc
    have e2 : IsEnvelope 0x0003 inner (get16le inner dc_pkt_len_off) sender gc block
        (forward_pc_pkt sb inner sender gc block) :=
      fw_9_fill_envelope SHDR_TYPE_PC dc_pkt_len_off sb inner sender gc block hdc
    have h1 := send_crypt_hands env (forward_dreamcast_pkt sb inner sender gc block).1 c
      (forward_dreamcast_pkt sb inner sender gc block).2 w (by have := e1.2.1; omega)
    have h2 := send_crypt_hands env (forward_pc_pkt sb inner sender gc block).1 c
      (forward_pc_pkt sb inner sender gc block).2 w (by have := e2.2.1; omega)
    exact ⟨⟨e1, h1.1, h1.2⟩, ⟨e2, h2.1, h2.2⟩⟩
  · intro hbb
    have e3 : IsEnvelope 0x0002 inner (get16le inner bb_pkt_len_off) sender gc block
        (forward_bb_pkt sb inner sender gc block) :=
      fw_9_fill_envelope SHDR_TYPE_BB bb_pkt_len_off sb inner sender gc block hbb
    have h3 := send_crypt_hands env (forward_bb_pkt sb inner sender gc block).1 c
      (forward_bb_pkt sb inner sender gc block).2 w (by have := e3.2.1; omega)
    exact ⟨e3, h3.1, h3.2⟩

/-- Witness of C7: a Dreamcast packet of 12 bytes whose first two bytes,
type 0xE1 and flags 0xFF, would read 65505 as a Blue Burst length, forwarded
by `forward_dreamcast`; and a packet of 12 bytes forwarded by `forward_bb`;
sender 1, guildcard 2, block 3. -/
theorem forward_envelope_layout_witness :
    get16le innerDC12 dc_pkt_len_off ≤ 65504 ∧ 65504 < get16le innerDC12 bb_pkt_len_off ∧
    (IsEnvelope 0x0001 innerDC12 (get16le innerDC12 dc_pkt_len_off) 1 2 3
        (forward_dreamcast_pkt scratchA innerDC12 1 2 3) ∧
      (∀ fuel, forward_dreamcast envAll fuel scratchA ship0 innerDC12 1 2 3 world0 =
        send_raw envAll fuel (forward_dreamcast_pkt scratchA innerDC12 1 2 3).1 ship0
          (forward_dreamcast_pkt scratchA innerDC12 1 2 3).2 world0) ∧
      (ship0.sendbuf_cur = 0 → Accepting envAll →
        ∃ n w1, (∀ fuel, n ≤ fuel →
            forward_dreamcast envAll fuel scratchA ship0 innerDC12 1 2 3 world0 =
              some (0, ship0, w1)) ∧
          w1.wire = world0.wire ++ bytes (forward_dreamcast_pkt scratchA innerDC12 1 2 3).1 0
            (forward_dreamcast_pkt scratchA innerDC12 1 2 3).2)) ∧
    get16le inner12 bb_pkt_len_off ≤ 65504 ∧
    IsEnvelope 0x0002 inner12 (get16le inner12 bb_pkt_len_off) 1 2 3
      (forward_bb_pkt scratchA inner12 1 2 3) ∧
    bytes (forward_dreamcast_pkt scratchA innerDC12 1 2 3).1 0 40 =
      [0, 40, 0, 1, 0, 0, 0, 0, 0, 0, 0, 1, 0, 0, 0, 0, 0, 0, 0, 2, 0, 0, 0, 3,
       0xE1, 0xFF, 12, 0, 4, 5, 6, 7, 8, 9, 10, 11, 0, 0, 0, 0] :=
  ⟨by decide, by decide,
   ((forward_envelope_layout envAll scratchA innerDC12 ship0 1 2 3 world0).1 (by decide)).1,
   by decide,
   ((forward_envelope_layout envAll scratchA inner12 ship0 1 2 3 world0).2 (by decide)).1,
   by decide⟩

/-! ## Version gates: theorems -/

theorem send_user_error_pkt_len (sb : Mem) (pkt_type err_code gc block : Nat) (s : CStr) :
    (send_user_error_pkt sb pkt_type err_code gc block (some s)).2 =
      round8_not7 ((strlen s % 65536 + sizeof_shipgate_user_err_pkt) % 65536) := rfl

/-- C14 as stated fails: on a connection at protocol version 20, past every
threshold, `send_user_error` with a message of 65505 bytes computes the
16-bit length 0 and returns -1 with nothing handed on; and
`send_user_blocklist` after 8189 appends, whose builder is not empty but
whose 16-bit running length `24 + 8 * 8189 = 65536` has wrapped to 0, returns
-1 with nothing handed on. -/
theorem version_gates_long_input_not_handed :
    ¬ (ship0.proto_ver < 19) ∧ strlen msg65505 = 65505 ∧
    (send_user_error_pkt scratchA 0x30 5 1 2 (some msg65505)).2 = 0 ∧
    (∀ fuel, send_user_error envAll fuel scratchA ship0 0x30 5 1 2 (some msg65505) world0 =
      some (-1, ship0, world0)) ∧
    blocks8189.length = 8189 ∧
    get32host .little
      (user_blocklist_appends .little (user_blocklist_begin .little scratchA 7 9) blocks8189)
      16 = 8189 ∧
    (send_user_blocklist_pkt .little
      (user_blocklist_appends .little (user_blocklist_begin .little scratchA 7 9)
        blocks8189)).2 = 0 ∧
    (∀ fuel, send_user_blocklist .little envAll fuel
        (user_blocklist_appends .little (user_blocklist_begin .little scratchA 7 9) blocks8189)
        ship0 world0 = some (-1, ship0, world0)) := by
  have hv : ¬ (ship0.proto_ver < 19) := by decide
  have hlen : strlen msg65505 = 65505 := List.length_replicate _ _
  have hp := send_user_error_pkt_len scratchA 0x30 5 1 2 msg65505
  have h0 : (send_user_error_pkt scratchA 0x30 5 1 2 (some msg65505)).2 = 0 := by
    rw [hp, hlen]
    decide
  have hbl : blocks8189.length = 8189 := List.length_replicate _ _
  obtain ⟨b1, b2⟩ := user_blocklist_begin_count .little scratchA 7 9
  obtain ⟨t1, t2, _, _⟩ := user_blocklist_appends_spec .little blocks8189
    (user_blocklist_begin .little scratchA 7 9) (by rw [b1, hbl]; decide)
  rw [b1, hbl] at t1
  rw [b2, hbl] at t2
  have hc : get32host .little
      (user_blocklist_appends .little (user_blocklist_begin .little scratchA 7 9) blocks8189)
      16 = 8189 := by rw [t1]
  have hq : (send_user_blocklist_pkt .little
      (user_blocklist_appends .little (user_blocklist_begin .little scratchA 7 9)
        blocks8189)).2 = 0 := by
    show get16host .little _ 0 = 0
    rw [t2]
  refine ⟨hv, hlen, h0, fun fuel => ?_, hbl, hc, hq, fun fuel => ?_⟩
  · simp only [send_user_error, hv, if_false, send_crypt, h0]
    rfl
  · have hc0 : get32host .little
        (user_blocklist_appends .little (user_blocklist_begin .little scratchA 7 9) blocks8189)
        16 ≠ 0 := by rw [hc]; decide
    simp only [send_user_blocklist, hc0, hv, if_false, send_crypt, hq]
    rfl

/-- C14 as amended: `send_qflag` (threshold 17, packet of 32 bytes),
`send_sctl` (19, 24 bytes), `send_shutdown` (19, 32 bytes), `send_user_error`
for a message of at most 65504 bytes (19, the least multiple of 8 that is at
least `24 + strlen`) and `send_user_blocklist` after `begin` and `n` appends
with `1 <= n <= 8188` (19, `24 + 8n` bytes): below the threshold the call
returns 0 with connection and world unchanged; at or above it the call is
`send_raw` on the one packet, which fails with -1, or calls the transport,
or, the queue not being empty, copies the packet into the queue; and on a
connection whose queue is empty or starts at offset 0 the result is the
silent skip exactly below the threshold. -/
theorem version_gates (e : Endian) (env : Env) (fuel : Nat) (sb : Mem) (c : ship_t)
    (w : World) (type gc block fid qid value ctl acc when_ pkt_type err_code : Nat)
    (restart : Int) (message : CStr) (g b : Nat) (es : List (Nat × Nat))
    (hmsg : strlen message ≤ 65504) (hn1 : 1 ≤ es.length) (hn : es.length ≤ 8188) :
    GatedSend (c.proto_ver < 17) env fuel (send_qflag_pkt sb type gc block fid qid value ctl) 32
      c w (send_qflag env fuel sb c type gc block fid qid value ctl w) ∧
    GatedSend (c.proto_ver < 19) env fuel (send_sctl_pkt sb ctl acc) 24
      c w (send_sctl env fuel sb c ctl acc w) ∧
    GatedSend (c.proto_ver < 19) env fuel (send_shutdown_pkt sb restart acc when_) 32
      c w (send_shutdown env fuel sb c restart acc when_ w) ∧
    GatedSend (c.proto_ver < 19) env fuel
      (send_user_error_pkt sb pkt_type err_code gc block (some message))
      (round_up8 (24 + strlen message))
      c w (send_user_error env fuel sb c pkt_type err_code gc block (some message) w) ∧
    GatedSend (c.proto_ver < 19) env fuel
      (send_user_blocklist_pkt e (user_blocklist_appends e (user_blocklist_begin e sb g b) es))
      (24 + 8 * es.length)
      c w (send_user_blocklist e env fuel
        (user_blocklist_appends e (user_blocklist_begin e sb g b) es) c w) := by
  refine ⟨?_, ?_, ?_, ?_, ?_⟩
  · exact gatedSend_of_ite (c.proto_ver < 17) env fuel _ 32 c w rfl (by omega)
  · exact gatedSend_of_ite (c.proto_ver < 19) env fuel _ 24 c w rfl (by omega)
  · exact gatedSend_of_ite (c.proto_ver < 19) env fuel _ 32 c w rfl (by omega)
  · have hp := send_user_error_pkt_eq sb pkt_type err_code gc block message hmsg
    have h2 : (send_user_error_pkt sb pkt_type err_code gc block (some message)).2 =
        round_up8 (24 + strlen message) := by rw [hp]; rfl
    have h8 := (round_up8_spec (24 + strlen message)).2.1
    exact gatedSend_of_ite (c.proto_ver < 19) env fuel _ _ c w h2 (by omega)
  · obtain ⟨b1, b2⟩ := user_blocklist_begin_count e sb g b
    obtain ⟨t1, t2, _, _⟩ := user_blocklist_appends_spec e es (user_blocklist_begin e sb g b)
      (by rw [b1]; omega)
    rw [b1] at t1
    rw [b2] at t2
    have hcount : get32host e
        (user_blocklist_appends e (user_blocklist_begin e sb g b) es) 16 ≠ 0 := by
      rw [t1]; omega
    have h2 : (send_user_blocklist_pkt e
        (user_blocklist_appends e (user_blocklist_begin e sb g b) es)).2 =
        24 + 8 * es.length := by
      show get16host e _ 0 = _
      rw [t2]
      exact Nat.mod_eq_of_lt (by omega)
    have h : send_user_blocklist e env fuel
        (user_blocklist_appends e (user_blocklist_begin e sb g b) es) c w =
        if c.proto_ver < 19 then some (0, c, w)
        else send_crypt env fuel (send_user_blocklist_pkt e
            (user_blocklist_appends e (user_blocklist_begin e sb g b) es)).1 c
          (send_user_blocklist_pkt e
            (user_blocklist_appends e (user_blocklist_begin e sb g b) es)).2 w := by
      simp only [send_user_blocklist, hcount, if_false]
    rw [h]
    exact gatedSend_of_ite (c.proto_ver < 19) env fuel _ _ c w h2 (by omega)

/-- Witness of the amended C14: at version 17 the quest flag packet goes to
`send_raw` and the user error for the message `hi` is skipped; three block
list entries. -/
theorem version_gates_witness :
    strlen msgHi ≤ 65504 ∧ 1 ≤ blocks3.length ∧ blocks3.length ≤ 8188 ∧
    shipV17Lua.proto_ver < 19 ∧ ¬ (shipV17Lua.proto_ver < 17) ∧
    send_user_error envAll 3 scratchA shipV17Lua 0x30 5 1 2 (some msgHi) world0 =
      some (0, shipV17Lua, world0) ∧
    send_qflag envAll 3 scratchA shipV17Lua 0x2E 1 2 3 4 5 0 world0 =
      send_raw envAll 3 (send_qflag_pkt scratchA 0x2E 1 2 3 4 5 0).1 shipV17Lua (32 : Nat)
        world0 :=
  ⟨by decide, by decide, by decide, by decide, by decide,
   (version_gates .little envAll 3 scratchA shipV17Lua world0 0x2E 1 2 3 4 5 0 0 0 0x30 5 0
      msgHi 7 9 blocks3 (by decide) (by decide) (by decide)).2.2.2.1.2.2.1 (by decide),
   ((version_gates .little envAll 3 scratchA shipV17Lua world0 0x2E 1 2 3 4 5 0 0 0 0x30 5 0
      msgHi 7 9 blocks3 (by decide) (by decide) (by decide)).1.2.2.2.1 (by decide)).1⟩

end Shipgate
